import Mathlib

/-!
Verification development for the mono build-artifact cache engine.

The Go sources verified here are internal/mono/cache.go (cache manager:
key computation, store, sync, seed, restore, locking) and
internal/mono/config.go (artifact detector).  Pure computations
(SHA-256 keys, path policy, artifact detection) are embedded as Lean
functions over the same data; filesystem-mutating operations are embedded
as functions over an explicit world state that also emit a trace of
primitive filesystem events, so that intermediate (observable) states and
lock discipline can be stated and settled.
-/

namespace Mono

/-! ## Paths

A filesystem path is modelled as its list of components.  Go manipulates
paths as strings via filepath.Join / filepath.Base; on the component
representation Join is list append and Base is the last component. -/

abbrev Path := List String

/-- filepath.Base on the component representation: the last component
(Go returns "/" for the root path, which has no components). -/
def pathBase (p : Path) : String :=
  match p.getLast? with
  | some s => s
  | none => "/"

/-- Model of Go filepath.Base on plain (slash-separated, rooted) path
strings: drop empty components, return the last element; "/" for the
root, "." for the empty string.  (Implemented on the character list so
it evaluates inside the kernel.) -/
def filepathBaseStr (path : String) : String :=
  if path = "" then "."
  else
    match ((path.data.splitOn '/').filter (fun c => c ≠ [])).getLast? with
    | some c => String.mk c
    | none => "/"

/-- GetProjectName from cache.go: the basename of the root path. -/
def GetProjectName (rootPath : String) : String :=
  filepathBaseStr rootPath

/-! ## SHA-256

ComputeCacheKey feeds key-file bytes and key-command stdout into a
crypto/sha256 stream.  The digest is reimplemented here as a pure
function on byte lists (a byte is a Nat below 256); incremental Write
calls followed by Sum are the digest of the concatenation. -/

/-- Truncate to a 32-bit word. -/
def w32 (n : Nat) : Nat := n % 4294967296

/-- Rotate a 32-bit word right by n bits. -/
def rotr32 (x n : Nat) : Nat := w32 ((x >>> n) ||| (x <<< (32 - n)))

def shaCh (x y z : Nat) : Nat := (x &&& y) ^^^ ((x ^^^ 4294967295) &&& z)

def shaMaj (x y z : Nat) : Nat := (x &&& y) ^^^ (x &&& z) ^^^ (y &&& z)

def bigSigma0 (x : Nat) : Nat := rotr32 x 2 ^^^ rotr32 x 13 ^^^ rotr32 x 22

def bigSigma1 (x : Nat) : Nat := rotr32 x 6 ^^^ rotr32 x 11 ^^^ rotr32 x 25

def smallSigma0 (x : Nat) : Nat := rotr32 x 7 ^^^ rotr32 x 18 ^^^ (x >>> 3)

def smallSigma1 (x : Nat) : Nat := rotr32 x 17 ^^^ rotr32 x 19 ^^^ (x >>> 10)

/-- The 64 SHA-256 round constants. -/
def sha256K : List Nat :=
  [1116352408, 1899447441, 3049323471, 3921009573, 961987163, 1508970993,
   2453635748, 2870763221, 3624381080, 310598401, 607225278, 1426881987,
   1925078388, 2162078206, 2614888103, 3248222580, 3835390401, 4022224774,
   264347078, 604807628, 770255983, 1249150122, 1555081692, 1996064986,
   2554220882, 2821834349, 2952996808, 3210313671, 3336571891, 3584528711,
   113926993, 338241895, 666307205, 773529912, 1294757372, 1396182291,
   1695183700, 1986661051, 2177026350, 2456956037, 2730485921, 2820302411,
   3259730800, 3345764771, 3516065817, 3600352804, 4094571909, 275423344,
   430227734, 506948616, 659060556, 883997877, 958139571, 1322822218,
   1537002063, 1747873779, 1955562222, 2024104815, 2227730452, 2361852424,
   2428436474, 2756734187, 3204031479, 3329325298]

structure Sha256State where
  sa : Nat
  sb : Nat
  sc : Nat
  sd : Nat
  se : Nat
  sf : Nat
  sg : Nat
  sh : Nat
deriving Repr, DecidableEq

def sha256Init : Sha256State :=
  ⟨1779033703, 3144134277, 1013904242, 2773480762,
   1359893119, 2600822924, 528734635, 1541459225⟩

/-- The 64-word message schedule of one 64-byte block. -/
def sha256Words (block : List Nat) : Array Nat :=
  let w0 : Array Nat := ((List.range 16).map (fun i =>
    (block.getD (4 * i) 0) * 16777216 + (block.getD (4 * i + 1) 0) * 65536 +
    (block.getD (4 * i + 2) 0) * 256 + block.getD (4 * i + 3) 0)).toArray
  (List.range 48).foldl (fun w t =>
    let i := t + 16
    w.push (w32 (smallSigma1 (w.getD (i - 2) 0) + w.getD (i - 7) 0 +
                 smallSigma0 (w.getD (i - 15) 0) + w.getD (i - 16) 0))) w0

def sha256Round (st : Sha256State) (kw : Nat × Nat) : Sha256State :=
  let t1 := w32 (st.sh + bigSigma1 st.se + shaCh st.se st.sf st.sg + kw.1 + kw.2)
  let t2 := w32 (bigSigma0 st.sa + shaMaj st.sa st.sb st.sc)
  ⟨w32 (t1 + t2), st.sa, st.sb, st.sc, w32 (st.sd + t1), st.se, st.sf, st.sg⟩

def sha256Block (st : Sha256State) (block : List Nat) : Sha256State :=
  let ws := sha256Words block
  let r := (sha256K.zip ws.toList).foldl sha256Round st
  ⟨w32 (st.sa + r.sa), w32 (st.sb + r.sb), w32 (st.sc + r.sc), w32 (st.sd + r.sd),
   w32 (st.se + r.se), w32 (st.sf + r.sf), w32 (st.sg + r.sg), w32 (st.sh + r.sh)⟩

/-- Big-endian 8-byte encoding of a 64-bit length field. -/
def be64 (n : Nat) : List Nat :=
  [n >>> 56 % 256, n >>> 48 % 256, n >>> 40 % 256, n >>> 32 % 256,
   n >>> 24 % 256, n >>> 16 % 256, n >>> 8 % 256, n % 256]

/-- Big-endian 4-byte encoding of a 32-bit word. -/
def be32 (n : Nat) : List Nat :=
  [n >>> 24 % 256, n >>> 16 % 256, n >>> 8 % 256, n % 256]

/-- SHA-256 padding: 0x80, zeros to 56 mod 64, then the bit length. -/
def sha256Pad (ms : List Nat) : List Nat :=
  let L := ms.length
  let k := (120 - (L + 1) % 64) % 64
  ms ++ 128 :: List.replicate k 0 ++ be64 (8 * L % 18446744073709551616)

def digestBytes (st : Sha256State) : List Nat :=
  be32 st.sa ++ be32 st.sb ++ be32 st.sc ++ be32 st.sd ++
  be32 st.se ++ be32 st.sf ++ be32 st.sg ++ be32 st.sh

/-- SHA-256 of a byte list. -/
def sha256 (ms : List Nat) : List Nat :=
  let padded := sha256Pad ms
  let blocks := (List.range (padded.length / 64)).map
    (fun i => (padded.drop (64 * i)).take 64)
  digestBytes (blocks.foldl sha256Block sha256Init)

theorem sha256_length (ms : List Nat) : (sha256 ms).length = 32 := by
  simp [sha256, digestBytes, be32]

/-! ## Hex encoding (encoding/hex.EncodeToString) -/

def hexDigitChars : List Char :=
  ['0', '1', '2', '3', '4', '5', '6', '7'] ++
    ['8', '9', 'a', 'b', 'c', 'd', 'e', 'f']

def hexDigit (n : Nat) : Char := hexDigitChars.getD n '0'

/-- hex.EncodeToString as a character list: two hex digits per byte. -/
def hexEncodeChars : List Nat → List Char
  | [] => []
  | b :: bs => hexDigit (b / 16) :: hexDigit (b % 16) :: hexEncodeChars bs

theorem hexEncodeChars_length (bs : List Nat) :
    (hexEncodeChars bs).length = 2 * bs.length := by
  induction bs with
  | nil => rfl
  | cons b bs ih => simp [hexEncodeChars, ih]; omega

theorem hexDigit_mem (n : Nat) : hexDigit n ∈ hexDigitChars := by
  by_cases h : n < hexDigitChars.length
  · rw [hexDigit, List.getD_eq_getElem _ _ h]
    exact hexDigitChars.getElem_mem h
  · rw [hexDigit, List.getD_eq_default _ _ (Nat.le_of_not_lt h)]
    decide

theorem hexEncodeChars_mem (bs : List Nat) (c : Char) (hc : c ∈ hexEncodeChars bs) :
    c ∈ hexDigitChars := by
  induction bs with
  | nil => simp [hexEncodeChars] at hc
  | cons b bs ih =>
    simp only [hexEncodeChars, List.mem_cons] at hc
    rcases hc with h | h | h
    · exact h ▸ hexDigit_mem _
    · exact h ▸ hexDigit_mem _
    · exact ih h

/-! ## Filesystem snapshots

A filesystem snapshot is an association list from paths to nodes; the
first binding for a path wins.  Regular files carry their content bytes
and their modification time. -/

inductive FNode where
  | file (content : List Nat) (mtime : Nat)
  | dir
deriving Repr, DecidableEq

abbrev FsMap := List (Path × FNode)

/-- Lookup of a path in a snapshot. -/
def fsFind (fs : FsMap) (p : Path) : Option FNode :=
  (fs.find? (fun e => e.1 == p)).map (fun e => e.2)

/-- os.Stat succeeded and reported a directory (dirExists in cache.go). -/
def isDirAt (fs : FsMap) (p : Path) : Bool :=
  match fsFind fs p with
  | some .dir => true
  | _ => false

/-- os.Stat succeeded and reported a non-directory (fileExists in config.go). -/
def isFileAt (fs : FsMap) (p : Path) : Bool :=
  match fsFind fs p with
  | some (.file _ _) => true
  | _ => false

/-! Lexicographic path order.  filepath.Walk / filepath.WalkDir visit a
tree depth-first with the entries of every directory sorted by name,
which enumerates the visited paths exactly in the lexicographic order of
their component lists. -/

/-- Lexicographic order on character lists, by code point. -/
def charListLe : List Char → List Char → Bool
  | [], _ => true
  | _ :: _, [] => false
  | a :: as, b :: bs =>
    if a.toNat < b.toNat then true
    else if b.toNat < a.toNat then false
    else charListLe as bs

def strLe (a b : String) : Bool := charListLe a.data b.data

/-- Lexicographic order on component paths. -/
def pathLe : Path → Path → Bool
  | [], _ => true
  | _ :: _, [] => false
  | a :: as, b :: bs => if a = b then pathLe as bs else strLe a b

/-- Stable insertion into a path-sorted association list. -/
def insertByPath (e : Path × FNode) : List (Path × FNode) → List (Path × FNode)
  | [] => [e]
  | x :: xs => if pathLe e.1 x.1 then e :: x :: xs else x :: insertByPath e xs

/-- Stable sort of snapshot entries into walk (lexicographic) order. -/
def sortPaths : List (Path × FNode) → List (Path × FNode)
  | [] => []
  | x :: xs => insertByPath x (sortPaths xs)

/-! ## Artifact detector (config.go) -/

structure LockFileSpec where
  filename : String
  artifactDir : String
  keyCommand : String
  baseType : String
deriving Repr, DecidableEq

def lockFileSpecs : List LockFileSpec :=
  [⟨"Cargo.lock", "target", "rustc --version", "cargo"⟩,
   ⟨"package-lock.json", "node_modules", "node --version", "npm"⟩,
   ⟨"yarn.lock", "node_modules", "node --version", "yarn"⟩,
   ⟨"pnpm-lock.yaml", "node_modules", "node --version", "pnpm"⟩,
   ⟨"bun.lock", "node_modules", "bun --version", "bun"⟩,
   ⟨"bun.lockb", "node_modules", "bun --version", "bun"⟩]

def skipDirs : List String :=
  ["node_modules", "target", ".git", "vendor", "dist", "build", ".next", ".nuxt"]

/-- The specMap lookup; the specs carry pairwise distinct filenames, so
first-match lookup agrees with the Go map built from the slice. -/
def specMapFind (filename : String) : Option LockFileSpec :=
  lockFileSpecs.find? (fun s => s.filename == filename)

structure ArtifactConfig where
  name : String
  keyFiles : List Path
  keyCommands : List String
  paths : List Path
deriving Repr, DecidableEq

structure FoundLockFile where
  relPath : Path
  spec : LockFileSpec
deriving Repr, DecidableEq

/-- findLockFiles from config.go over a snapshot of the working copy
(paths relative to it, envBase its own directory name).  WalkDir first
visits the root itself: when its name is skiplisted the whole walk is
pruned.  Below the root, a file whose name is a recognized lockfile name
is collected unless a skiplisted directory lies on its relative path
(those subtrees are pruned by SkipDir). -/
def findLockFiles (envBase : String) (tree : FsMap) : List FoundLockFile :=
  if skipDirs.contains envBase then []
  else (sortPaths tree).filterMap (fun e =>
    match e.2 with
    | .dir => none
    | .file _ _ =>
      if (e.1.dropLast).any (fun c => skipDirs.contains c) then none
      else match e.1.getLast? with
        | none => none
        | some fn => (specMapFind fn).map (fun spec => ⟨e.1, spec⟩))

/-- Go strings.ReplaceAll with the single-character patterns used by
sanitizeName, followed by strings.ToLower, character by character. -/
def sanitizeChar (c : Char) : Char :=
  if c = '/' ∨ c = '.' then '-' else c.toLower

/-- sanitizeName from config.go: path separators and dots become
hyphens, then the result is lowercased. -/
def sanitizeName (dir : String) : String :=
  String.mk (dir.data.map sanitizeChar)

/-- Join path components with "/" (the string filepath.Dir returns for
the directory of a relative lockfile path). -/
def joinPath (comps : List String) : String :=
  String.intercalate "/" comps

/-- toArtifactConfig from config.go.  filepath.Dir of the relative path
is its dropLast; the "." case is the empty component list. -/
def toArtifactConfig (f : FoundLockFile) : ArtifactConfig :=
  let dir := f.relPath.dropLast
  if dir = [] then
    ⟨f.spec.baseType, [f.relPath], [f.spec.keyCommand], [[f.spec.artifactDir]]⟩
  else
    ⟨f.spec.baseType ++ "-" ++ sanitizeName (joinPath dir), [f.relPath],
     [f.spec.keyCommand], [dir ++ [f.spec.artifactDir]]⟩

/-- The dedup loop of detectArtifacts: skip a config whose name was
already seen, keep the first occurrence. -/
def detectLoop : List FoundLockFile → List String → List ArtifactConfig
  | [], _ => []
  | lf :: rest, seen =>
    if seen.contains (toArtifactConfig lf).name then detectLoop rest seen
    else toArtifactConfig lf :: detectLoop rest ((toArtifactConfig lf).name :: seen)

/-- detectArtifacts from config.go. -/
def detectArtifacts (envBase : String) (tree : FsMap) : List ArtifactConfig :=
  detectLoop (findLockFiles envBase tree) []

/-! ## The cache world

Cache operations mutate a filesystem snapshot.  The immutable
environment (Sys) holds the mount table that decides when rename/link
cross a device, the set of lock files currently flocked by other
processes, the stdout table for key commands (a command absent from
the table fails to execute), and the clock.  Each operation returns
its value together with the updated snapshot and the trace of
primitive events it performed, so that intermediate observable states
and lock discipline can be stated; only the snapshot ever changes. -/

structure Sys where
  mounts : List (Path × Nat)
  extLocks : List Path
  cmds : List (String × List Nat)
  now : Nat
deriving Repr

inductive Err where
  | notExist
  | alreadyExists
  | crossDevice
  | notDirOrNotEmpty
  | isDirErr
  | wrapped (msg : String) (cause : Err)
  | failMsg (msg : String)
deriving Repr, DecidableEq

inductive Evt where
  | mkdirE (p : Path)
  | writeE (p : Path) (n : FNode)
  | removeE (p : Path)
  | renameE (src dst : Path)
  | chtimesE (p : Path) (t : Nat)
  | lockAcqE (p : Path) (ok : Bool)
  | lockRelE (p : Path)
deriving Repr, DecidableEq

def eraseKey (fs : FsMap) (p : Path) : FsMap :=
  fs.filter (fun e => !(e.1 == p))

def removeSubtree (fs : FsMap) (p : Path) : FsMap :=
  fs.filter (fun e => !(p.isPrefixOf e.1))

def setTime (n : FNode) (t : Nat) : FNode :=
  match n with
  | .file c _ => .file c t
  | .dir => .dir

/-- Effect of one primitive event on a snapshot. -/
def applyEvt (fs : FsMap) : Evt → FsMap
  | .mkdirE p => if (fsFind fs p).isSome then fs else (p, .dir) :: fs
  | .writeE p n => (p, n) :: eraseKey fs p
  | .removeE p => removeSubtree fs p
  | .renameE src dst =>
      (fs.filterMap (fun e =>
        if src.isPrefixOf e.1 then some (dst ++ e.1.drop src.length, e.2) else none))
      ++ removeSubtree (removeSubtree fs src) dst
  | .chtimesE p t => fs.map (fun e => if e.1 == p then (e.1, setTime e.2 t) else e)
  | .lockAcqE _ _ => fs
  | .lockRelE _ => fs

def replayEvts (fs : FsMap) (tr : List Evt) : FsMap :=
  tr.foldl applyEvt fs

structure MRes (α : Type) where
  val : α
  fs : FsMap
  tr : List Evt

def CacheM (α : Type) : Type := FsMap → MRes α

instance : Monad CacheM where
  pure a := fun fs => ⟨a, fs, []⟩
  bind m f := fun fs =>
    let r := m fs
    let r2 := f r.val r.fs
    ⟨r2.val, r2.fs, r.tr ++ r2.tr⟩

def getFs : CacheM FsMap := fun fs => ⟨fs, fs, []⟩

def emit (e : Evt) : CacheM Unit :=
  fun fs => ⟨(), applyEvt fs e, [e]⟩

def dirExistsM (p : Path) : CacheM Bool := fun fs => ⟨isDirAt fs p, fs, []⟩

def fileExistsM (p : Path) : CacheM Bool := fun fs => ⟨isFileAt fs p, fs, []⟩

/-- Device of a path: the longest matching mount point decides. -/
def devOf (sys : Sys) (p : Path) : Nat :=
  (sys.mounts.foldl (fun best m =>
    if m.1.isPrefixOf p && best.1 < m.1.length + 1 then (m.1.length + 1, m.2) else best)
    (0, 0)).2

def strictlyUnder (root q : Path) : Bool :=
  root.isPrefixOf q && decide (root.length < q.length)

def hasStrictDescendant (fs : FsMap) (p : Path) : Bool :=
  fs.any (fun e => strictlyUnder p e.1)

/-- The nonempty prefixes of a path, shortest first. -/
def pathAncestors (p : Path) : List Path :=
  (List.range p.length).map (fun i => p.take (i + 1))

def mkdirAllGo : List Path → CacheM (Except Err Unit)
  | [] => pure (.ok ())
  | q :: rest => do
    let fs ← getFs
    match fsFind fs q with
    | some (.file _ _) => pure (.error .notDirOrNotEmpty)
    | some .dir => mkdirAllGo rest
    | none => do
      emit (.mkdirE q)
      mkdirAllGo rest

/-- os.MkdirAll: create the path and all missing ancestors; a regular
file anywhere on the chain is an error. -/
def mkdirAllM (p : Path) : CacheM (Except Err Unit) :=
  mkdirAllGo (pathAncestors p)

/-- os.Rename.  Fails when the source is missing, when source and
destination live on different devices (EXDEV), or when the destination
is occupied (a directory cannot replace a file, nor a non-empty
directory).  Otherwise the whole source subtree moves atomically. -/
def osRename (sys : Sys) (src dst : Path) : CacheM (Except Err Unit) := do
  let fs ← getFs
  match fsFind fs src with
  | none => pure (.error .notExist)
  | some n =>
    if devOf sys src ≠ devOf sys dst then pure (.error .crossDevice)
    else
      match n, fsFind fs dst with
      | .file _ _, some .dir => pure (.error .notDirOrNotEmpty)
      | .dir, some (.file _ _) => pure (.error .notDirOrNotEmpty)
      | .dir, some .dir =>
        if hasStrictDescendant fs dst then pure (.error .notDirOrNotEmpty)
        else do
          emit (.renameE src dst)
          pure (.ok ())
      | _, _ => do
        emit (.renameE src dst)
        pure (.ok ())

/-- os.Link.  Hardlinks are modelled as snapshot copies that share the
source content and mtime at link time; none of the properties proved
here depend on inode identity. -/
def osLink (sys : Sys) (src dst : Path) : CacheM (Except Err Unit) := do
  let fs ← getFs
  match fsFind fs src with
  | none => pure (.error .notExist)
  | some .dir => pure (.error .isDirErr)
  | some (.file c m) =>
    if (fsFind fs dst).isSome then pure (.error .alreadyExists)
    else if devOf sys src ≠ devOf sys dst then pure (.error .crossDevice)
    else do
      emit (.writeE dst (.file c m))
      pure (.ok ())

/-- copyFile from cache.go: byte copy through os.Create; the new file
gets the current time as mtime. -/
def copyFileM (sys : Sys) (src dst : Path) : CacheM (Except Err Unit) := do
  let fs ← getFs
  match fsFind fs src with
  | none => pure (.error .notExist)
  | some .dir => pure (.error .isDirErr)
  | some (.file c _) =>
    match fsFind fs dst with
    | some .dir => pure (.error .isDirErr)
    | _ => do
      emit (.writeE dst (.file c sys.now))
      pure (.ok ())

/-- os.RemoveAll: recursive removal, success also when nothing exists. -/
def removeAllM (p : Path) : CacheM (Except Err Unit) := do
  emit (.removeE p)
  pure (.ok ())

/-- os.Chtimes: set the mtime of an existing file. -/
def chtimesM (p : Path) (t : Nat) : CacheM (Except Err Unit) := do
  let fs ← getFs
  match fsFind fs p with
  | none => pure (.error .notExist)
  | some _ => do
    emit (.chtimesE p t)
    pure (.ok ())

/-! ## Per-entry advisory locks (cache.go) -/

/-- The lock file sits alongside the entry: cachePath + ".lock" appended
to the final component. -/
def lockPathOf (cachePath : Path) : Path :=
  match cachePath.getLast? with
  | some c => cachePath.dropLast ++ [c ++ ".lock"]
  | none => [".lock"]

/-- The flock attempt: non-blocking exclusive; a lock file held by
another process yields the contended outcome (ok none), not an error. -/
def flockTry (sys : Sys) (lockPath : Path) : CacheM (Except Err (Option Path)) := do
  if sys.extLocks.contains lockPath then do
    emit (.lockAcqE lockPath false)
    pure (.ok none)
  else do
    emit (.lockAcqE lockPath true)
    pure (.ok (some lockPath))

/-- acquireCacheLock from cache.go: ensure the parent directory, open or
create the lock file, try a non-blocking exclusive flock. -/
def acquireCacheLock (sys : Sys) (cachePath : Path) : CacheM (Except Err (Option Path)) := do
  let lockPath := lockPathOf cachePath
  let r ← mkdirAllM lockPath.dropLast
  match r with
  | .error e => pure (.error e)
  | .ok _ => do
    let fs ← getFs
    match fsFind fs lockPath with
    | some .dir => pure (.error .isDirErr)
    | some (.file _ _) => flockTry sys lockPath
    | none => do
      emit (.writeE lockPath (.file [] sys.now))
      flockTry sys lockPath

def releaseCacheLock : Option Path → CacheM Unit
  | some p => emit (.lockRelE p)
  | none => pure ()

/-! ## Tree materialization (cache.go) -/

def lastComp (p : Path) : String :=
  match p.getLast? with
  | some s => s
  | none => ""

def strEndsWith (s suffix : String) : Bool :=
  suffix.data.isSuffixOf s.data

def strStartsWith (s pre : String) : Bool :=
  pre.data.isPrefixOf s.data

/-- shouldSkipCargoPath applied to the relative path of a regular file.
On the slash-joined string the checks are: suffix ".o" or ".d" (a
property of the last component), a "/incremental/" segment or an
"incremental/" head (an "incremental" component above the file), or the
literal ".cargo-lock". -/
def shouldSkipCargoFile (rel : Path) : Bool :=
  strEndsWith (lastComp rel) ".o" || strEndsWith (lastComp rel) ".d" ||
  rel.dropLast.contains "incremental" || rel == [".cargo-lock"]

/-- shouldSkipCargoPath applied to a directory path (the caller appends
a trailing separator, so an "incremental" component anywhere matches). -/
def shouldSkipCargoDir (rel : Path) : Bool :=
  rel.contains "incremental"

def shouldSkipFilePath (rel : Path) (artifactName : String) : Bool :=
  if artifactName = "cargo" then shouldSkipCargoFile rel else false

def shouldSkipDirPath (rel : Path) (artifactName : String) : Bool :=
  if artifactName = "cargo" then shouldSkipCargoDir rel else false

/-- A path lies inside a subtree pruned by SkipDir: some proper
ancestor, relative to the walk root, is a skipped directory. -/
def underSkippedDir (rel : Path) (artifactName : String) : Bool :=
  (List.range rel.length).any (fun i =>
    decide (0 < i) && shouldSkipDirPath (rel.take i) artifactName)

/-- Generic walk body: process entries in order, stop at the first
error (filepath.Walk / errgroup first-error semantics). -/
def walkFold (step : (Path × FNode) → CacheM (Except Err Unit)) :
    List (Path × FNode) → CacheM (Except Err Unit)
  | [] => pure (.ok ())
  | e :: es => do
    let r ← step e
    match r with
    | .error err => pure (.error err)
    | .ok _ => walkFold step es

def hardlinkEntry (sys : Sys) (src dst : Path) (e : Path × FNode) :
    CacheM (Except Err Unit) := do
  let rel := e.1.drop src.length
  let dstPath := dst ++ rel
  match e.2 with
  | .dir => mkdirAllM dstPath
  | .file _ _ => do
    let r ← osLink sys e.1 dstPath
    match r with
    | .ok _ => pure (.ok ())
    | .error .alreadyExists => pure (.ok ())
    | .error .crossDevice => copyFileM sys e.1 dstPath
    | .error err => pure (.error err)

/-- HardlinkTree from cache.go: walk the source tree in lexicographic
(filepath.Walk) order; directories are re-created, files hardlinked,
with "already exists" tolerated and cross-device / not-supported
falling back to a byte copy. -/
def HardlinkTree (sys : Sys) (src dst : Path) : CacheM (Except Err Unit) := do
  let fs ← getFs
  match fsFind fs src with
  | none => pure (.error .notExist)
  | some _ =>
    walkFold (hardlinkEntry sys src dst)
      (sortPaths (fs.filter (fun e => src.isPrefixOf e.1)))

def copyDirEntry (sys : Sys) (src dst : Path) (e : Path × FNode) :
    CacheM (Except Err Unit) := do
  let rel := e.1.drop src.length
  let dstPath := dst ++ rel
  match e.2 with
  | .dir => mkdirAllM dstPath
  | .file _ _ => copyFileM sys e.1 dstPath

/-- copyDir from cache.go: like HardlinkTree but always byte copies. -/
def copyDirM (sys : Sys) (src dst : Path) : CacheM (Except Err Unit) := do
  let fs ← getFs
  match fsFind fs src with
  | none => pure (.error .notExist)
  | some _ =>
    walkFold (copyDirEntry sys src dst)
      (sortPaths (fs.filter (fun e => src.isPrefixOf e.1)))

def linkOrCopyFile (sys : Sys) (src dst : Path) : CacheM (Except Err Unit) := do
  let r ← osLink sys src dst
  match r with
  | .ok _ => pure (.ok ())
  | .error .alreadyExists => pure (.ok ())
  | .error .crossDevice => copyFileM sys src dst
  | .error err => pure (.error err)

/-- countFiles from cache.go: the number of non-skipped regular files
under src (WalkDir never descends into skipped directories, and files
under an incremental directory also match the file predicate). -/
def countFilesGo (fs : FsMap) (src : Path) (artifactName : String) : Except Err Nat :=
  match fsFind fs src with
  | none => .error .notExist
  | some _ => .ok ((fs.filter (fun e => src.isPrefixOf e.1)).countP (fun e =>
      match e.2 with
      | .dir => false
      | .file _ _ => !shouldSkipFilePath (e.1.drop src.length) artifactName))

/-- The single WalkDir pass of SeedDirectory: collect the directory
list and the file list (in lexicographic walk order), omitting skipped
paths and pruned subtrees. -/
def walkCollect (fs : FsMap) (src : Path) (artifactName : String) :
    Except Err (List Path × List (Path × FNode)) :=
  match fsFind fs src with
  | none => .error .notExist
  | some _ =>
    let entries := sortPaths (fs.filter (fun e => src.isPrefixOf e.1))
    let dirs := entries.filterMap (fun e =>
      let rel := e.1.drop src.length
      match e.2 with
      | .dir =>
        if underSkippedDir rel artifactName || shouldSkipDirPath rel artifactName then none
        else some rel
      | .file _ _ => none)
    let files := entries.filterMap (fun e =>
      let rel := e.1.drop src.length
      match e.2 with
      | .dir => none
      | .file c m =>
        if underSkippedDir rel artifactName || shouldSkipFilePath rel artifactName then none
        else some (rel, FNode.file c m))
    .ok (dirs, files)

structure SeedOptionsM where
  artifactName : String
  logger : Bool
deriving Repr, DecidableEq

def seedDirsLoop (dst : Path) : List Path → CacheM (Except Err Unit)
  | [] => pure (.ok ())
  | rel :: rest => do
    let r ← mkdirAllM (dst ++ rel)
    match r with
    | .error e => pure (.error (.wrapped "failed to create directory" e))
    | .ok _ => seedDirsLoop dst rest

def seedFilesLoop (sys : Sys) (src dst : Path) : List (Path × FNode) → CacheM (Except Err Unit)
  | [] => pure (.ok ())
  | (rel, _) :: rest => do
    let r ← linkOrCopyFile sys (src ++ rel) (dst ++ rel)
    match r with
    | .error e => pure (.error (.wrapped "failed to link" e))
    | .ok _ => seedFilesLoop sys src dst rest

def seedDirectoryMain (sys : Sys) (src dst : Path) (opts : SeedOptionsM) :
    CacheM (Except Err Unit) := do
  let fs ← getFs
  match walkCollect fs src opts.artifactName with
  | .error e => pure (.error (.wrapped "failed to walk source directory" e))
  | .ok (dirs, files) => do
    let r ← seedDirsLoop dst dirs
    match r with
    | .error e => pure (.error e)
    | .ok _ => seedFilesLoop sys src dst files

/-- SeedDirectory from cache.go.  The worker pool is modelled by
processing the collected file list sequentially in order: the final
snapshot agrees with any worker interleaving, and the first error is
returned.  A logger triggers the countFiles pre-pass. -/
def SeedDirectory (sys : Sys) (src dst : Path) (opts : SeedOptionsM) :
    CacheM (Except Err Unit) := do
  let fs ← getFs
  if opts.logger then
    match countFilesGo fs src opts.artifactName with
    | .error e => pure (.error (.wrapped "failed to count files" e))
    | .ok _ => seedDirectoryMain sys src dst opts
  else seedDirectoryMain sys src dst opts

/-- copyDirectory from cache.go delegates to SeedDirectory. -/
def copyDirectory (sys : Sys) (src dst : Path) (artifactName : String) (logger : Bool) :
    CacheM (Except Err Unit) :=
  SeedDirectory sys src dst ⟨artifactName, logger⟩

/-! ## Keys and cache layout (cache.go) -/

structure CacheManager where
  localCacheDir : Path
deriving Repr, DecidableEq

def GetProjectCacheDir (cm : CacheManager) (rootPath : Path) : Path :=
  cm.localCacheDir ++ [pathBase rootPath]

def GetArtifactCachePath (cm : CacheManager) (rootPath : Path)
    (artifactName key : String) : Path :=
  GetProjectCacheDir cm rootPath ++ [artifactName, key]

/-- The key-file half of ComputeCacheKey: each declared key file is
opened under the working copy; a missing file is skipped silently, any
other open/read failure is a hard error, and the bytes of the surviving
files are concatenated in declared order. -/
def collectKeyFileBytes (fs : FsMap) (envPath : Path) : List Path → Except Err (List Nat)
  | [] => .ok []
  | kf :: rest =>
    match fsFind fs (envPath ++ kf) with
    | none => collectKeyFileBytes fs envPath rest
    | some .dir => .error (.wrapped "failed to hash key file" .isDirErr)
    | some (.file c _) => (collectKeyFileBytes fs envPath rest).map (fun bs => c ++ bs)

/-- The key-command half of ComputeCacheKey: each command must appear in
the stdout table (a command that cannot run or exits nonzero is a hard
error); outputs are concatenated in declared order. -/
def collectCmdBytes (cmds : List (String × List Nat)) : List String → Except Err (List Nat)
  | [] => .ok []
  | cmd :: rest =>
    match (cmds.find? (fun e => e.1 == cmd)).map (fun e => e.2) with
    | none => .error (.wrapped "failed to run key command" .notExist)
    | some out => (collectCmdBytes cmds rest).map (fun bs => out ++ bs)

/-- ComputeCacheKey from cache.go: stream key-file bytes then key
command stdout into one SHA-256, hex encode, keep the first 16
characters. -/
def ComputeCacheKey (sys : Sys) (fs : FsMap) (a : ArtifactConfig) (envPath : Path) :
    Except Err String := do
  let fb ← collectKeyFileBytes fs envPath a.keyFiles
  let cb ← collectCmdBytes sys.cmds a.keyCommands
  pure (String.mk ((hexEncodeChars (sha256 (fb ++ cb))).take 16))

structure ArtifactCacheEntry where
  name : String
  key : String
  cachePath : Path
  envPaths : List Path
  hit : Bool
deriving Repr, DecidableEq

/-! ## StoreToCache (cache.go) -/

def storeLoop (sys : Sys) (cachePath : Path) : List Path → CacheM (Except Err Unit)
  | [] => pure (.ok ())
  | envPath :: rest => do
    let d ← dirExistsM envPath
    if !d then storeLoop sys cachePath rest
    else do
      let cacheDst := cachePath ++ [pathBase envPath]
      let r ← osRename sys envPath cacheDst
      match r with
      | .error e => pure (.error (.wrapped "failed to move to cache" e))
      | .ok _ => do
        let r2 ← HardlinkTree sys cacheDst envPath
        match r2 with
        | .error e => pure (.error (.wrapped "failed to hardlink back from cache" e))
        | .ok _ => storeLoop sys cachePath rest

/-- StoreToCache from cache.go: make the entry directory, then for each
existing env path rename it into the cache and hardlink it back. -/
def StoreToCache (sys : Sys) (entry : ArtifactCacheEntry) : CacheM (Except Err Unit) := do
  let r ← mkdirAllM entry.cachePath
  match r with
  | .error e => pure (.error (.wrapped "failed to create cache dir" e))
  | .ok _ => storeLoop sys entry.cachePath entry.envPaths

/-! ## Sync (cache.go) -/

def isCrossDeviceErr : Err → Bool
  | .crossDevice => true
  | _ => false

/-- copyToCache from cache.go: cross-device fallback of moveToCache. -/
def copyToCache (sys : Sys) (localPath targetInCache : Path) (hardlinkBack : Bool) :
    CacheM (Except Err Unit) := do
  let r ← copyDirM sys localPath targetInCache
  match r with
  | .error e => pure (.error e)
  | .ok _ =>
    if hardlinkBack then pure (.ok ())
    else removeAllM localPath

/-- The body of moveToCache protected by the entry lock. -/
def moveToCacheLocked (sys : Sys) (localPath cachePath : Path) (hardlinkBack : Bool) :
    CacheM (Except Err Unit) := do
  let targetInCache := cachePath ++ [pathBase localPath]
  let t ← dirExistsM targetInCache
  if t then pure (.ok ())
  else do
    let r ← mkdirAllM cachePath
    match r with
    | .error e => pure (.error e)
    | .ok _ => do
      let r2 ← osRename sys localPath targetInCache
      match r2 with
      | .error e =>
        if isCrossDeviceErr e then copyToCache sys localPath targetInCache hardlinkBack
        else pure (.error e)
      | .ok _ =>
        if hardlinkBack then do
          let r3 ← HardlinkTree sys targetInCache localPath
          match r3 with
          | .ok _ => pure (.ok ())
          | .error e3 => do
            let rec1 ← osRename sys targetInCache localPath
            let cl ← removeAllM cachePath
            match rec1 with
            | .error _ =>
              pure (.error (.wrapped "failed to hardlink back and recovery failed" e3))
            | .ok _ =>
              match cl with
              | .error _ =>
                pure (.error (.wrapped "failed to hardlink back, recovered but cleanup failed" e3))
              | .ok _ => pure (.error (.wrapped "failed to hardlink back, recovered" e3))
        else pure (.ok ())

/-- moveToCache from cache.go: take the per-entry lock (contended means
another process is handling it: no-op), move the local tree into the
cache, optionally hardlink it back, releasing the lock on every exit
path (defer). -/
def moveToCache (sys : Sys) (localPath cachePath : Path) (hardlinkBack : Bool) :
    CacheM (Except Err Unit) := do
  let l ← acquireCacheLock sys cachePath
  match l with
  | .error e => pure (.error e)
  | .ok none => pure (.ok ())
  | .ok (some lock) => do
    let r ← moveToCacheLocked sys localPath cachePath hardlinkBack
    releaseCacheLock (some lock)
    pure r

/-- isBuildInProgress from cache.go: only the cargo artifact has a
marker, target/.cargo-lock under the working copy. -/
def isBuildInProgress (fs : FsMap) (envPath : Path) (a : ArtifactConfig) : Bool :=
  if a.name = "cargo" then isFileAt fs (envPath ++ ["target", ".cargo-lock"]) else false

def syncPathsLoop (sys : Sys) (cachePath envPath : Path) (hardlinkBack : Bool) :
    List Path → CacheM (Except Err Unit)
  | [] => pure (.ok ())
  | p :: rest => do
    let localPath := envPath ++ p
    let d ← dirExistsM localPath
    if !d then syncPathsLoop sys cachePath envPath hardlinkBack rest
    else do
      let r ← moveToCache sys localPath cachePath hardlinkBack
      match r with
      | .error e => pure (.error (.wrapped "failed to sync" e))
      | .ok _ => syncPathsLoop sys cachePath envPath hardlinkBack rest

/-- syncArtifact from cache.go. -/
def syncArtifact (sys : Sys) (cm : CacheManager) (a : ArtifactConfig) (rootPath envPath : Path)
    (hardlinkBack : Bool) : CacheM (Except Err Unit) := do
  let fs ← getFs
  if isBuildInProgress fs envPath a then
    pure (.error (.failMsg "build in progress, cannot sync"))
  else
    match ComputeCacheKey sys fs a envPath with
    | .error e => pure (.error (.wrapped "failed to compute cache key" e))
    | .ok key => do
      let cachePath := GetArtifactCachePath cm rootPath a.name key
      let ex ← dirExistsM cachePath
      if ex then pure (.ok ())
      else syncPathsLoop sys cachePath envPath hardlinkBack a.paths

def syncArtifactsLoop (sys : Sys) (cm : CacheManager) (rootPath envPath : Path)
    (hardlinkBack : Bool) : List ArtifactConfig → CacheM (Except Err Unit)
  | [] => pure (.ok ())
  | a :: rest => do
    let r ← syncArtifact sys cm a rootPath envPath hardlinkBack
    match r with
    | .error e => pure (.error e)
    | .ok _ => syncArtifactsLoop sys cm rootPath envPath hardlinkBack rest

/-- Sync from cache.go (SyncOptions is its HardlinkBack flag). -/
def Sync (sys : Sys) (cm : CacheManager) (artifacts : List ArtifactConfig)
    (rootPath envPath : Path) (hardlinkBack : Bool) : CacheM (Except Err Unit) :=
  syncArtifactsLoop sys cm rootPath envPath hardlinkBack artifacts

/-! ## RestoreFromCache and post-restore fixes (cache.go) -/

/-- os.ReadDir: the direct children of a directory, sorted by name. -/
def readDirGo (fs : FsMap) (p : Path) : List (String × FNode) :=
  (sortPaths (fs.filter (fun e =>
    e.1.length == p.length + 1 && p.isPrefixOf e.1))).map
    (fun e => (lastComp e.1, e.2))

/-- The dep-* files collected by touchDepFilesParallel: regular files
named dep-* that are direct children of crate directories, themselves
direct children of the fingerprint directory. -/
def collectDepFiles (fs : FsMap) (fingerprintDir : Path) : List Path :=
  ((readDirGo fs fingerprintDir).filterMap (fun ce =>
    match ce.2 with
    | .file _ _ => none
    | .dir => some ((readDirGo fs (fingerprintDir ++ [ce.1])).filterMap (fun fe =>
        match fe.2 with
        | .dir => none
        | .file _ _ =>
          if strStartsWith fe.1 "dep-" then some (fingerprintDir ++ [ce.1, fe.1])
          else none)))).flatten

def touchLoop (now : Nat) : List Path → CacheM (Except Err Unit)
  | [] => pure (.ok ())
  | p :: rest => do
    let r ← chtimesM p now
    match r with
    | .error e => pure (.error e)
    | .ok _ => touchLoop now rest

/-- touchDepFilesParallel from cache.go; the worker pool is modelled by
touching the collected files in order (the final snapshot agrees with
any interleaving). -/
def touchDepFilesParallel (sys : Sys) (fingerprintDir : Path) : CacheM (Except Err Unit) := do
  let fs ← getFs
  touchLoop sys.now (collectDepFiles fs fingerprintDir)

def touchProfile (sys : Sys) (targetDir : Path) (profile : String) :
    CacheM (Except Err Unit) := do
  let fs ← getFs
  let fingerprintDir := targetDir ++ [profile, ".fingerprint"]
  if !(isDirAt fs fingerprintDir) then pure (.ok ())
  else touchDepFilesParallel sys fingerprintDir

/-- touchCargoFingerprints from cache.go: the debug and release
fingerprint directories, in that order. -/
def touchCargoFingerprints (sys : Sys) (targetDir : Path) : CacheM (Except Err Unit) := do
  let r ← touchProfile sys targetDir "debug"
  match r with
  | .error e => pure (.error e)
  | .ok _ => touchProfile sys targetDir "release"

/-- cleanNodeModulesBin from cache.go. -/
def cleanNodeModulesBin (nodeModulesDir : Path) : CacheM (Except Err Unit) := do
  let fs ← getFs
  let binDir := nodeModulesDir ++ [".bin"]
  if isDirAt fs binDir then do
    let r ← removeAllM binDir
    match r with
    | .error e => pure (.error (.wrapped "failed to clean .bin" e))
    | .ok _ => pure (.ok ())
  else pure (.ok ())

/-- ApplyPostRestoreFixes from cache.go. -/
def ApplyPostRestoreFixes (sys : Sys) (artifactName : String) (envPath : Path) :
    CacheM (Except Err Unit) :=
  if artifactName = "cargo" then touchCargoFingerprints sys envPath
  else if artifactName = "npm" || artifactName = "yarn" ||
          artifactName = "pnpm" || artifactName = "bun" then
    cleanNodeModulesBin envPath
  else pure (.ok ())

def restoreLoop (sys : Sys) (entry : ArtifactCacheEntry) (logger : Bool) :
    List Path → CacheM (Except Err Unit)
  | [] => pure (.ok ())
  | envPath :: rest => do
    let fs ← getFs
    let srcTry := entry.cachePath ++ [pathBase envPath]
    let srcPath := if isDirAt fs srcTry then srcTry else entry.cachePath ++ [entry.name]
    let r ← removeAllM envPath
    match r with
    | .error e => pure (.error (.wrapped "failed to remove existing" e))
    | .ok _ => do
      let r2 ← copyDirectory sys srcPath envPath entry.name logger
      match r2 with
      | .error e => pure (.error (.wrapped "failed to restore cache" e))
      | .ok _ => do
        let r3 ← ApplyPostRestoreFixes sys entry.name envPath
        match r3 with
        | .error e => pure (.error (.wrapped "failed to apply post-restore fixes" e))
        | .ok _ => restoreLoop sys entry logger rest

/-- RestoreFromCache from cache.go.  The entry's hit flag is never
consulted. -/
def RestoreFromCache (sys : Sys) (entry : ArtifactCacheEntry) (logger : Bool) :
    CacheM (Except Err Unit) :=
  restoreLoop sys entry logger entry.envPaths

/-! ## SeedFromRoot (cache.go) -/

/-- seedToCache from cache.go. -/
def seedToCache (sys : Sys) (sourcePath cachePath : Path) (artifactName : String)
    (logger : Bool) : CacheM (Except Err Unit) := do
  let r ← mkdirAllM cachePath
  match r with
  | .error e => pure (.error e)
  | .ok _ => do
    let fs ← getFs
    let targetInCache := cachePath ++ [pathBase sourcePath]
    if isDirAt fs targetInCache then pure (.ok ())
    else SeedDirectory sys sourcePath targetInCache ⟨artifactName, logger⟩

def seedPathsLoop (sys : Sys) (rootPath cachePath : Path) (artifactName : String)
    (logger : Bool) : List Path → CacheM (Except Err Unit)
  | [] => pure (.ok ())
  | p :: rest => do
    let rootArtifact := rootPath ++ p
    let d ← dirExistsM rootArtifact
    if !d then seedPathsLoop sys rootPath cachePath artifactName logger rest
    else do
      let r ← seedToCache sys rootArtifact cachePath artifactName logger
      match r with
      | .error e => pure (.error (.wrapped "failed to seed from root" e))
      | .ok _ => seedPathsLoop sys rootPath cachePath artifactName logger rest

/-- seedArtifactFromRoot from cache.go. -/
def seedArtifactFromRoot (sys : Sys) (cm : CacheManager) (a : ArtifactConfig)
    (rootPath envPath : Path) (logger : Bool) : CacheM (Except Err Unit) := do
  if rootPath = envPath then pure (.ok ())
  else do
    let fs ← getFs
    match ComputeCacheKey sys fs a envPath with
    | .error e => pure (.error (.wrapped "failed to compute cache key for env" e))
    | .ok envKey => do
      let cachePath := GetArtifactCachePath cm rootPath a.name envKey
      let ex ← dirExistsM cachePath
      if ex then pure (.ok ())
      else
        match ComputeCacheKey sys fs a rootPath with
        | .error e => pure (.error (.wrapped "failed to compute cache key for root" e))
        | .ok rootKey =>
          if envKey ≠ rootKey then pure (.ok ())
          else if isBuildInProgress fs rootPath a then pure (.ok ())
          else seedPathsLoop sys rootPath cachePath a.name logger a.paths

def seedArtifactsLoop (sys : Sys) (cm : CacheManager) (rootPath envPath : Path)
    (logger : Bool) : List ArtifactConfig → CacheM (Except Err Unit)
  | [] => pure (.ok ())
  | a :: rest => do
    let r ← seedArtifactFromRoot sys cm a rootPath envPath logger
    match r with
    | .error e => pure (.error e)
    | .ok _ => seedArtifactsLoop sys cm rootPath envPath logger rest

/-- SeedFromRoot from cache.go. -/
def SeedFromRoot (sys : Sys) (cm : CacheManager) (artifacts : List ArtifactConfig)
    (rootPath envPath : Path) (logger : Bool) : CacheM (Except Err Unit) :=
  seedArtifactsLoop sys cm rootPath envPath logger artifacts

instance {α β : Type} [DecidableEq α] [DecidableEq β] : DecidableEq (Except α β) := fun a b =>
  match a, b with
  | .ok x, .ok y => if h : x = y then isTrue (by rw [h]) else isFalse (by simp [h])
  | .error e1, .error e2 =>
    if h : e1 = e2 then isTrue (by rw [h]) else isFalse (by simp [h])
  | .ok _, .error _ => isFalse (by simp)
  | .error _, .ok _ => isFalse (by simp)

/-! ## Claim C4: the project namespace token -/

/-- C4 counterexample: two distinct root paths that share a basename
receive the same project token, so tokens of distinct paths are not
distinct (with any probability): GetProjectName is filepath.Base. -/
theorem getProjectName_collision_cex :
    GetProjectName "/tmp/alpha/proj" = GetProjectName "/tmp/beta/proj" ∧
    "/tmp/alpha/proj" ≠ "/tmp/beta/proj" := by
  exact ⟨by decide, by decide⟩

/-- C4 (amended): the project namespace token is a deterministic
function of the root path, namely its basename; consequently it is not
collision-resistant: any two root paths with equal basenames derive the
same token. -/
theorem getProjectName_basenamePolicy :
    (∀ p : String, GetProjectName p = filepathBaseStr p) ∧
    (∀ p q : String, filepathBaseStr p = filepathBaseStr q →
      GetProjectName p = GetProjectName q) :=
  ⟨fun _ => rfl, fun _ _ h => h⟩

/-- Witness for the amended C4 theorem at concrete distinct paths. -/
theorem getProjectName_basenamePolicy_witness :
    GetProjectName "/tmp/alpha/proj" = GetProjectName "/tmp/beta/proj" :=
  getProjectName_basenamePolicy.2 "/tmp/alpha/proj" "/tmp/beta/proj" (by decide)

/-! ## Claim C6: ComputeCacheKey -/

/-- The bytes a single declared key file contributes to the key hash:
its content when it exists, nothing when it is missing. -/
def keyFileBytes (fs : FsMap) (envPath : Path) (kf : Path) : List Nat :=
  match fsFind fs (envPath ++ kf) with
  | some (.file c _) => c
  | _ => []

/-- The stdout of a key command in a world, none when the command
cannot run. -/
def cmdOutput (cmds : List (String × List Nat)) (c : String) : Option (List Nat) :=
  (cmds.find? (fun e => e.1 == c)).map (fun e => e.2)

theorem collectKeyFileBytes_ok (fs : FsMap) (envPath : Path) (kfs : List Path)
    (h : ∀ kf ∈ kfs, fsFind fs (envPath ++ kf) ≠ some FNode.dir) :
    collectKeyFileBytes fs envPath kfs = .ok ((kfs.map (keyFileBytes fs envPath)).flatten) := by
  induction kfs with
  | nil => rfl
  | cons kf rest ih =>
    have hkf := h kf (List.mem_cons_self kf rest)
    have hrest := ih (fun x hx => h x (List.mem_cons_of_mem kf hx))
    simp only [collectKeyFileBytes, keyFileBytes, List.map_cons, List.flatten_cons]
    cases hfind : fsFind fs (envPath ++ kf) with
    | none => simp [hrest, hfind]
    | some n =>
      cases n with
      | dir => exact absurd hfind hkf
      | file c m => simp [hrest, hfind, Except.map]

theorem collectCmdBytes_ok (cmds : List (String × List Nat)) (cs : List String)
    (h : ∀ c ∈ cs, (cmdOutput cmds c).isSome) :
    collectCmdBytes cmds cs =
      .ok ((cs.map (fun c => (cmdOutput cmds c).getD [])).flatten) := by
  induction cs with
  | nil => rfl
  | cons c rest ih =>
    have hc := h c (List.mem_cons_self c rest)
    have hrest := ih (fun x hx => h x (List.mem_cons_of_mem c hx))
    simp only [collectCmdBytes, List.map_cons, List.flatten_cons]
    cases hfind : (cmds.find? (fun e => e.1 == c)).map (fun e => e.2) with
    | none => rw [cmdOutput] at hc; simp [hfind] at hc
    | some out =>
      have : (cmdOutput cmds c).getD [] = out := by simp [cmdOutput, hfind]
      simp [hrest, hfind, this, Except.map]

theorem collectCmdBytes_err (cmds : List (String × List Nat)) (cs : List String)
    (h : ∃ c ∈ cs, cmdOutput cmds c = none) :
    ∃ e, collectCmdBytes cmds cs = .error e := by
  induction cs with
  | nil => simp at h
  | cons c rest ih =>
    rcases h with ⟨c0, hmem, hc0⟩
    rcases List.mem_cons.mp hmem with rfl | hmem0
    · rw [cmdOutput] at hc0
      exact ⟨.wrapped "failed to run key command" .notExist, by
        simp [collectCmdBytes, hc0]⟩
    · simp only [collectCmdBytes]
      cases hfind : (cmds.find? (fun e => e.1 == c)).map (fun e => e.2) with
      | none => exact ⟨.wrapped "failed to run key command" .notExist, rfl⟩
      | some out =>
        rcases ih ⟨c0, hmem0, hc0⟩ with ⟨e, he⟩
        exact ⟨e, by simp [he, Except.map]⟩

/-- C6: ComputeCacheKey returns the first 16 hex characters of the
SHA-256 of the concatenated bytes of the existing key files in declared
order (missing key files contribute zero bytes and are not an error)
followed by the stdout of each key command in declared order; a key
command that cannot run makes it return an error; every successful key
is a 16-character hexadecimal string; and identical key-file bytes and
command outputs yield an identical key. -/
theorem computeCacheKey_spec (sys : Sys) (fs : FsMap) (a : ArtifactConfig) (envPath : Path)
    (hfiles : ∀ kf ∈ a.keyFiles, fsFind fs (envPath ++ kf) ≠ some FNode.dir) :
    ((∀ c ∈ a.keyCommands, (cmdOutput sys.cmds c).isSome) →
      ComputeCacheKey sys fs a envPath =
        .ok (String.mk ((hexEncodeChars (sha256
          ((a.keyFiles.map (keyFileBytes fs envPath)).flatten ++
           (a.keyCommands.map (fun c => (cmdOutput sys.cmds c).getD [])).flatten))).take 16))) ∧
    (∀ k, ComputeCacheKey sys fs a envPath = .ok k →
      k.length = 16 ∧ ∀ ch ∈ k.data, ch ∈ hexDigitChars) ∧
    ((∃ c ∈ a.keyCommands, cmdOutput sys.cmds c = none) →
      ∃ e, ComputeCacheKey sys fs a envPath = .error e) := by
  refine ⟨fun hcmds => ?_, fun k hk => ?_, fun hbad => ?_⟩
  · rw [ComputeCacheKey, collectKeyFileBytes_ok fs envPath a.keyFiles hfiles,
        collectCmdBytes_ok sys.cmds a.keyCommands hcmds]
    rfl
  · rw [ComputeCacheKey, collectKeyFileBytes_ok fs envPath a.keyFiles hfiles] at hk
    cases hcb : collectCmdBytes sys.cmds a.keyCommands with
    | error e =>
      rw [hcb] at hk
      simp only [bind, Except.bind] at hk
      exact absurd hk (by simp)
    | ok cb =>
      rw [hcb] at hk
      simp only [bind, Except.bind, pure, Except.pure, Except.ok.injEq] at hk
      subst hk
      constructor
      · show (String.mk ((hexEncodeChars (sha256
          ((a.keyFiles.map (keyFileBytes fs envPath)).flatten ++ cb))).take 16)).length = 16
        have hlen : ∀ l : List Char, (String.mk l).length = l.length := fun _ => rfl
        rw [hlen, List.length_take, hexEncodeChars_length, sha256_length]
        decide
      · intro ch hch
        exact hexEncodeChars_mem _ ch (List.mem_of_mem_take hch)
  · rcases collectCmdBytes_err sys.cmds a.keyCommands hbad with ⟨e, he⟩
    refine ⟨e, ?_⟩
    rw [ComputeCacheKey, collectKeyFileBytes_ok fs envPath a.keyFiles hfiles, he]
    rfl

/-- Witness for C6 at a concrete world: one present key file, one
missing key file, one key command; the hypotheses are discharged by
computation and the resulting key is the evaluated 16-character hex
prefix. -/
theorem computeCacheKey_spec_witness :
    ComputeCacheKey ⟨[], [], [("rustc --version", [9])], 0⟩
      [(["env"], .dir), (["env", "Cargo.lock"], .file [1, 2] 0)]
      ⟨"cargo", [["Cargo.lock"], ["missing.lock"]], ["rustc --version"], [["target"]]⟩
      ["env"] =
    .ok (String.mk ((hexEncodeChars (sha256 ([1, 2] ++ [9]))).take 16)) := by
  exact (computeCacheKey_spec _ _ _ _ (by decide)).1 (by decide)

/-! ## Claim C9: the artifact detector -/

theorem insertByPath_perm (e : Path × FNode) (l : List (Path × FNode)) :
    (insertByPath e l).Perm (e :: l) := by
  induction l with
  | nil => exact List.Perm.refl _
  | cons x xs ih =>
    rw [insertByPath]
    by_cases h : pathLe e.1 x.1 = true
    · rw [if_pos h]
    · rw [if_neg h]
      exact (ih.cons x).trans (List.Perm.swap e x xs)

theorem sortPaths_perm (l : List (Path × FNode)) : (sortPaths l).Perm l := by
  induction l with
  | nil => exact List.Perm.refl _
  | cons x xs ih => exact (insertByPath_perm x (sortPaths xs)).trans (ih.cons x)

theorem mem_sortPaths (e : Path × FNode) (l : List (Path × FNode)) :
    e ∈ sortPaths l ↔ e ∈ l :=
  (sortPaths_perm l).mem_iff

/-- Soundness of the walk: every collected lockfile has a nonempty
relative path, none of whose directory components is skiplisted, and
its spec is the table entry for its file name. -/
theorem findLockFiles_sound (envBase : String) (tree : FsMap) (f : FoundLockFile)
    (hf : f ∈ findLockFiles envBase tree) :
    f.relPath ≠ [] ∧
    f.relPath.dropLast.all (fun c => !skipDirs.contains c) = true ∧
    specMapFind (lastComp f.relPath) = some f.spec := by
  rw [findLockFiles] at hf
  by_cases hroot : skipDirs.contains envBase = true
  · rw [if_pos hroot] at hf
    exact absurd hf (List.not_mem_nil f)
  · rw [if_neg hroot] at hf
    rcases List.mem_filterMap.mp hf with ⟨e, _, he⟩
    cases hn : e.2 with
    | dir => rw [hn] at he; exact absurd he (by simp)
    | file c m =>
      rw [hn] at he
      simp only at he
      split at he
      · exact absurd he (by simp)
      · rename_i hskip
        cases hlast : e.1.getLast? with
        | none => rw [hlast] at he; exact absurd he (by simp)
        | some fn =>
          rw [hlast] at he
          simp only at he
          cases hsm : specMapFind fn with
          | none => rw [hsm] at he; exact absurd he (by simp)
          | some spec =>
            rw [hsm] at he
            simp only [Option.map_some'] at he
            cases he
            refine ⟨?_, by simpa using hskip, ?_⟩
            · intro h0
              simp only at h0
              rw [h0] at hlast
              simp at hlast
            simpa [lastComp, hlast] using hsm

/-- Completeness of the walk: a lockfile binding in the snapshot whose
relative path avoids the skiplist is collected (when the root name
itself is not skiplisted). -/
theorem findLockFiles_complete (envBase : String) (tree : FsMap)
    (p : Path) (c : List Nat) (m : Nat) (s : LockFileSpec)
    (hroot : skipDirs.contains envBase = false)
    (hmem : (p, FNode.file c m) ∈ tree)
    (hskip : p.dropLast.any (fun comp => skipDirs.contains comp) = false)
    (hlast : p.getLast? = some s.filename)
    (hspec : specMapFind s.filename = some s) :
    (⟨p, s⟩ : FoundLockFile) ∈ findLockFiles envBase tree := by
  rw [findLockFiles, hroot]
  simp only [Bool.false_eq_true, if_false]
  refine List.mem_filterMap.mpr ⟨(p, FNode.file c m), (mem_sortPaths _ _).mpr hmem, ?_⟩
  simp only [hskip, hlast, hspec]
  simp

/-- The dedup loop keeps the first configuration for every name: its
first-match lookup agrees with first-match lookup over all collected
configs, and names already seen are dropped. -/
theorem detectLoop_find? (l : List FoundLockFile) (seen : List String) (n : String) :
    (detectLoop l seen).find? (fun c => c.name == n) =
      if seen.contains n then none
      else (l.map toArtifactConfig).find? (fun c => c.name == n) := by
  induction l generalizing seen with
  | nil => simp [detectLoop]
  | cons lf rest ih =>
    rw [detectLoop, List.map_cons]
    by_cases hseen : seen.contains (toArtifactConfig lf).name = true
    · rw [if_pos hseen, ih]
      by_cases hcn : seen.contains n = true
      · rw [if_pos hcn, if_pos hcn]
      · rw [if_neg hcn, if_neg hcn]
        have hnn : ¬(((toArtifactConfig lf).name == n) = true) := by
          intro he
          rw [beq_iff_eq] at he
          rw [he] at hseen
          exact hcn hseen
        rw [@List.find?_cons_of_neg _ (fun c => c.name == n) (toArtifactConfig lf) _ hnn]
    · rw [if_neg hseen]
      by_cases hn : (toArtifactConfig lf).name = n
      · have hb : (((toArtifactConfig lf).name == n) = true) := beq_iff_eq.mpr hn
        rw [@List.find?_cons_of_pos _ (fun c => c.name == n) (toArtifactConfig lf) _ hb,
            @List.find?_cons_of_pos _ (fun c => c.name == n) (toArtifactConfig lf) _ hb]
        rw [hn] at hseen
        rw [if_neg hseen]
      · have hnn : ¬(((toArtifactConfig lf).name == n) = true) := by
          intro he
          exact hn (beq_iff_eq.mp he)
        rw [@List.find?_cons_of_neg _ (fun c => c.name == n) (toArtifactConfig lf) _ hnn,
            @List.find?_cons_of_neg _ (fun c => c.name == n) (toArtifactConfig lf) _ hnn, ih]
        have hcontains : ((toArtifactConfig lf).name :: seen).contains n = seen.contains n := by
          rw [List.contains_cons]
          have : (n == (toArtifactConfig lf).name) = false := by
            rw [beq_eq_false_iff_ne]
            exact fun he => hn he.symm
          rw [this, Bool.false_or]
        rw [hcontains]

/-- Names surviving the dedup loop are pairwise distinct and avoid the
seen set. -/
theorem detectLoop_names_nodup (l : List FoundLockFile) (seen : List String) :
    ((detectLoop l seen).map (fun c => c.name)).Nodup ∧
    ∀ c ∈ detectLoop l seen, seen.contains c.name = false := by
  induction l generalizing seen with
  | nil =>
    exact ⟨List.nodup_nil, fun c hc => absurd hc (List.not_mem_nil c)⟩
  | cons lf rest ih =>
    rw [detectLoop]
    by_cases hseen : seen.contains (toArtifactConfig lf).name = true
    · rw [if_pos hseen]; exact ih seen
    · rw [if_neg hseen]
      rcases ih ((toArtifactConfig lf).name :: seen) with ⟨hnodup, hnotin⟩
      constructor
      · rw [List.map_cons, List.nodup_cons]
        refine ⟨?_, hnodup⟩
        intro hmem
        rcases List.mem_map.mp hmem with ⟨c, hc, hcname⟩
        have hni := hnotin c hc
        rw [List.contains_cons, hcname] at hni
        simp at hni
      · intro c hc
        rcases List.mem_cons.mp hc with rfl | hc2
        · exact Bool.not_eq_true _ ▸ (Bool.eq_false_iff.mpr (fun h => hseen h))
        · have hni := hnotin c hc2
          rw [List.contains_cons] at hni
          exact (Bool.or_eq_false_iff.mp hni).2

/-- Base artifact kinds never contain a hyphen. -/
theorem baseType_no_hyphen : ∀ s ∈ lockFileSpecs, '-' ∉ s.baseType.data := by
  decide

/-- Within the spec table, the base type determines the output
directory. -/
theorem baseType_determines_artifactDir :
    ∀ s1 ∈ lockFileSpecs, ∀ s2 ∈ lockFileSpecs,
      s1.baseType = s2.baseType → s1.artifactDir = s2.artifactDir := by
  decide

theorem specMapFind_mem (fn : String) (s : LockFileSpec)
    (h : specMapFind fn = some s) : s ∈ lockFileSpecs :=
  List.mem_of_find?_eq_some h

/-- A synthesized nested lockfile name contains a hyphen. -/
theorem nested_name_has_hyphen (f : FoundLockFile) (h : f.relPath.dropLast ≠ []) :
    '-' ∈ (toArtifactConfig f).name.data := by
  simp only [toArtifactConfig, h, if_false]
  simp

/-- C9 (amended): the artifact detector, on a working copy whose own
directory name is not skiplisted: a recognized lockfile directly in the
root yields an artifact with the base kind name and the kind's output
directory; a lockfile in a nested directory yields the base kind joined
by a hyphen to the sanitized directory (separators and dots to hyphens,
lowercase) and a paths entry pointing at the nested output directory;
no collected lockfile lies under a skiplisted directory; detected names
are pairwise distinct; and when two lockfiles produce the same name the
first collected one wins (first-match lookup over the detected list
equals first-match lookup over all collected configs).  Determinism and
order stability are definitional: the detector is a pure function of
the snapshot. -/
theorem detector_spec (envBase : String) (tree : FsMap) :
    (skipDirs.contains envBase = false →
      ∀ s ∈ lockFileSpecs, ∀ c m, ([s.filename], FNode.file c m) ∈ tree →
        ∃ cfg ∈ detectArtifacts envBase tree,
          cfg.name = s.baseType ∧ cfg.paths = [[s.artifactDir]]) ∧
    (∀ f : FoundLockFile, f.relPath.dropLast ≠ [] →
      (toArtifactConfig f).name =
        f.spec.baseType ++ "-" ++ sanitizeName (joinPath f.relPath.dropLast) ∧
      (toArtifactConfig f).paths = [f.relPath.dropLast ++ [f.spec.artifactDir]]) ∧
    (∀ f ∈ findLockFiles envBase tree,
      f.relPath.dropLast.all (fun c => !skipDirs.contains c) = true) ∧
    ((detectArtifacts envBase tree).map (fun c => c.name)).Nodup ∧
    (∀ n : String, (detectArtifacts envBase tree).find? (fun c => c.name == n) =
      ((findLockFiles envBase tree).map toArtifactConfig).find? (fun c => c.name == n)) := by
  refine ⟨?_, ?_, ?_, ?_, ?_⟩
  · intro hroot s hs c m hmem
    have hspec : specMapFind s.filename = some s :=
      (show ∀ t ∈ lockFileSpecs, specMapFind t.filename = some t by decide) s hs
    have hfound : (⟨[s.filename], s⟩ : FoundLockFile) ∈ findLockFiles envBase tree :=
      findLockFiles_complete envBase tree [s.filename] c m s hroot hmem (by simp) (by simp) hspec
    have hbase : (toArtifactConfig ⟨[s.filename], s⟩).name = s.baseType := by
      simp [toArtifactConfig]
    have hsome : (((findLockFiles envBase tree).map toArtifactConfig).find?
        (fun cfg => cfg.name == s.baseType)).isSome := by
      rw [List.find?_isSome]
      exact ⟨toArtifactConfig ⟨[s.filename], s⟩, List.mem_map_of_mem _ hfound, by simp [hbase]⟩
    rcases Option.isSome_iff_exists.mp hsome with ⟨cfg, hcfg⟩
    have hdet : (detectArtifacts envBase tree).find? (fun c => c.name == s.baseType) = some cfg := by
      rw [detectArtifacts, detectLoop_find?]
      simpa using hcfg
    have hcfgmem : cfg ∈ detectArtifacts envBase tree := List.mem_of_find?_eq_some hdet
    have hcfgname : cfg.name = s.baseType := by
      have := List.find?_some hdet
      simpa using this
    rcases List.mem_map.mp (List.mem_of_find?_eq_some hcfg) with ⟨f1, hf1, hf1eq⟩
    have hsound := findLockFiles_sound envBase tree f1 hf1
    have hf1spec : f1.spec ∈ lockFileSpecs := specMapFind_mem _ _ hsound.2.2
    by_cases hnested : f1.relPath.dropLast = []
    · have hpaths : cfg.paths = [[f1.spec.artifactDir]] := by
        rw [← hf1eq]; simp [toArtifactConfig, hnested]
      have hname : f1.spec.baseType = s.baseType := by
        rw [← hcfgname, ← hf1eq]; simp [toArtifactConfig, hnested]
      exact ⟨cfg, hcfgmem, hcfgname,
        by rw [hpaths, baseType_determines_artifactDir f1.spec hf1spec s hs hname]⟩
    · exfalso
      have hhy := nested_name_has_hyphen f1 hnested
      rw [hf1eq, hcfgname] at hhy
      exact baseType_no_hyphen s hs hhy
  · intro f h
    simp [toArtifactConfig, h]
  · intro f hf
    exact (findLockFiles_sound envBase tree f hf).2.1
  · exact (detectLoop_names_nodup (findLockFiles envBase tree) []).1
  · intro n
    rw [detectArtifacts, detectLoop_find?]
    simp

/-- Witness for the amended C9 theorem: a concrete snapshot with a root
Cargo.lock and a nested yarn.lock, under a non-skiplisted root name. -/
theorem detector_spec_witness :
    ∃ cfg ∈ detectArtifacts "repo"
        [(["Cargo.lock"], FNode.file [1] 0), (["web"], FNode.dir),
         (["web", "yarn.lock"], FNode.file [2] 0)],
      cfg.name = "cargo" ∧ cfg.paths = [["target"]] :=
  (detector_spec "repo" _).1 (by decide)
    ⟨"Cargo.lock", "target", "rustc --version", "cargo"⟩ (by decide) [1] 0 (by decide)

/-- C9 counterexample: a working copy whose own directory name is the
skiplisted "build", with Cargo.lock directly in its root, produces no
artifact at all, where the claim promises the base cargo artifact. -/
theorem detectArtifacts_skiplistedRoot_cex :
    detectArtifacts "build" [(["Cargo.lock"], FNode.file [1] 0)] = [] ∧
    ¬ ∃ cfg ∈ detectArtifacts "build" [(["Cargo.lock"], FNode.file [1] 0)],
        cfg.name = "cargo" := by
  refine ⟨by decide, ?_⟩
  rintro ⟨cfg, hmem, -⟩
  have hempty : detectArtifacts "build" [(["Cargo.lock"], FNode.file [1] 0)] = [] := by decide
  rw [hempty] at hmem
  exact absurd hmem (List.not_mem_nil cfg)

/-! ## Run lemmas for the cache monad -/

theorem run_bind {α β : Type} (m : CacheM α) (f : α → CacheM β) (fs : FsMap) :
    (m >>= f) fs =
      ⟨(f (m fs).val (m fs).fs).val, (f (m fs).val (m fs).fs).fs,
       (m fs).tr ++ (f (m fs).val (m fs).fs).tr⟩ := rfl

theorem run_pure {α : Type} (a : α) (fs : FsMap) : (pure a : CacheM α) fs = ⟨a, fs, []⟩ := rfl

theorem run_getFs (fs : FsMap) : getFs fs = ⟨fs, fs, []⟩ := rfl

theorem run_emit (e : Evt) (fs : FsMap) : emit e fs = ⟨(), applyEvt fs e, [e]⟩ := rfl

theorem run_dirExistsM (p : Path) (fs : FsMap) : dirExistsM p fs = ⟨isDirAt fs p, fs, []⟩ := rfl

theorem run_fileExistsM (p : Path) (fs : FsMap) :
    fileExistsM p fs = ⟨isFileAt fs p, fs, []⟩ := rfl

/-! ## Snapshot lemmas -/

theorem fsFind_removeSubtree_under (fs : FsMap) (p q : Path)
    (h : p.isPrefixOf q = true) : fsFind (removeSubtree fs p) q = none := by
  rw [fsFind]
  cases hf : (removeSubtree fs p).find? (fun e => e.1 == q) with
  | none => rfl
  | some e =>
    exfalso
    have hp := List.find?_some hf
    rw [beq_iff_eq] at hp
    have hmem := List.mem_of_find?_eq_some hf
    rw [removeSubtree] at hmem
    have hfilter := List.of_mem_filter hmem
    rw [hp, h] at hfilter
    simp at hfilter

theorem fsFind_removeSubtree_not_under (fs : FsMap) (p q : Path)
    (h : ¬ p.isPrefixOf q = true) : fsFind (removeSubtree fs p) q = fsFind fs q := by
  induction fs with
  | nil => rfl
  | cons e rest ih =>
    by_cases he : p.isPrefixOf e.1 = true
    · have h1 : removeSubtree (e :: rest) p = removeSubtree rest p := by
        simp [removeSubtree, List.filter_cons, he]
      have hne : ¬((fun x : Path × FNode => x.1 == q) e = true) := by
        simp only [beq_iff_eq]
        rintro rfl
        exact h he
      rw [h1, ih]
      rw [fsFind, fsFind, @List.find?_cons_of_neg _ (fun x : Path × FNode => x.1 == q) e rest hne]
    · have h1 : removeSubtree (e :: rest) p = e :: removeSubtree rest p := by
        simp [removeSubtree, List.filter_cons, he]
      rw [h1]
      by_cases heq : ((fun x : Path × FNode => x.1 == q) e = true)
      · rw [fsFind, fsFind,
            @List.find?_cons_of_pos _ (fun x : Path × FNode => x.1 == q) e _ heq,
            @List.find?_cons_of_pos _ (fun x : Path × FNode => x.1 == q) e _ heq]
      · rw [fsFind, fsFind,
            @List.find?_cons_of_neg _ (fun x : Path × FNode => x.1 == q) e _ heq,
            @List.find?_cons_of_neg _ (fun x : Path × FNode => x.1 == q) e _ heq]
        exact ih

/-! ## Claim C8: the build-in-progress marker -/

/-- C8 (amended), per artifact (the Sync and SeedFromRoot wrappers
iterate syncArtifact and seedArtifactFromRoot): when the cargo marker
target/.cargo-lock exists in the working copy, syncArtifact returns the
descriptive "build in progress, cannot sync" error with no filesystem
effects, and Sync on the singleton list propagates it; when the marker
exists in the root and both cache keys are computable, then
seedArtifactFromRoot returns success with no filesystem effects, and
SeedFromRoot on the singleton list does too.  (When a key command
fails, seedArtifactFromRoot instead propagates that error, which is
what the counterexample exhibits.) -/
theorem inProgress_marker_semantics (sys : Sys) (fs : FsMap) (cm : CacheManager)
    (a : ArtifactConfig) (rootPath envPath : Path) (hb logger : Bool)
    (hname : a.name = "cargo") :
    (isFileAt fs (envPath ++ ["target", ".cargo-lock"]) = true →
      syncArtifact sys cm a rootPath envPath hb fs =
        ⟨.error (.failMsg "build in progress, cannot sync"), fs, []⟩ ∧
      Sync sys cm [a] rootPath envPath hb fs =
        ⟨.error (.failMsg "build in progress, cannot sync"), fs, []⟩) ∧
    (isFileAt fs (rootPath ++ ["target", ".cargo-lock"]) = true →
      ∀ k1 k2, ComputeCacheKey sys fs a envPath = .ok k1 →
      ComputeCacheKey sys fs a rootPath = .ok k2 →
      seedArtifactFromRoot sys cm a rootPath envPath logger fs = ⟨.ok (), fs, []⟩ ∧
      SeedFromRoot sys cm [a] rootPath envPath logger fs = ⟨.ok (), fs, []⟩) := by
  constructor
  · intro hmark
    have hbip : isBuildInProgress fs envPath a = true := by
      rw [isBuildInProgress, if_pos hname]
      exact hmark
    have hsync : syncArtifact sys cm a rootPath envPath hb fs =
        ⟨.error (.failMsg "build in progress, cannot sync"), fs, []⟩ := by
      rw [syncArtifact, run_bind, run_getFs]
      simp only [hbip, if_true, run_pure, List.nil_append, List.append_nil]
    refine ⟨hsync, ?_⟩
    rw [Sync, syncArtifactsLoop, run_bind, hsync]
    rfl
  · intro hmark k1 k2 hk1 hk2
    have hbip : isBuildInProgress fs rootPath a = true := by
      rw [isBuildInProgress, if_pos hname]
      exact hmark
    have hseed : seedArtifactFromRoot sys cm a rootPath envPath logger fs =
        ⟨.ok (), fs, []⟩ := by
      by_cases hroot : rootPath = envPath
      · simp only [seedArtifactFromRoot, hroot, if_true, run_pure]
      · by_cases hex : isDirAt fs (GetArtifactCachePath cm rootPath a.name k1) = true
        · simp only [seedArtifactFromRoot, hroot, if_false, run_bind, run_getFs, hk1,
            run_dirExistsM, hex, if_true, run_pure, List.nil_append, List.append_nil]
        · by_cases hkeq : k1 = k2
          · simp only [seedArtifactFromRoot, hroot, if_false, run_bind, run_getFs, hk1,
              run_dirExistsM, hex, if_false, hk2, hkeq, ne_eq, not_true_eq_false, if_true,
              hbip, run_pure, not_false_eq_true, List.nil_append, List.append_nil, ite_self,
              Bool.false_eq_true]
          · simp only [seedArtifactFromRoot, hroot, if_false, run_bind, run_getFs, hk1,
              run_dirExistsM, hex, if_false, hk2, hkeq, ne_eq, not_false_eq_true, if_true,
              run_pure, List.nil_append, List.append_nil, ite_self, Bool.false_eq_true]
    refine ⟨hseed, ?_⟩
    rw [SeedFromRoot, seedArtifactsLoop, run_bind, hseed]
    rfl

set_option maxRecDepth 4000 in
/-- Witness for the amended C8 theorem: a concrete cargo artifact and
snapshot carrying both markers, with the key command available. -/
theorem inProgress_marker_semantics_witness :
    syncArtifact ⟨[], [], [("rustc --version", [9])], 0⟩ ⟨["home"]⟩
        ⟨"cargo", [["Cargo.lock"]], ["rustc --version"], [["target"]]⟩
        ["root"] ["env"] true
        [(["env", "target", ".cargo-lock"], .file [] 0),
         (["root", "target", ".cargo-lock"], .file [] 0)] =
      ⟨.error (.failMsg "build in progress, cannot sync"),
       [(["env", "target", ".cargo-lock"], .file [] 0),
        (["root", "target", ".cargo-lock"], .file [] 0)], []⟩ ∧
    seedArtifactFromRoot ⟨[], [], [("rustc --version", [9])], 0⟩ ⟨["home"]⟩
        ⟨"cargo", [["Cargo.lock"]], ["rustc --version"], [["target"]]⟩
        ["root"] ["env"] false
        [(["env", "target", ".cargo-lock"], .file [] 0),
         (["root", "target", ".cargo-lock"], .file [] 0)] =
      ⟨.ok (),
       [(["env", "target", ".cargo-lock"], .file [] 0),
        (["root", "target", ".cargo-lock"], .file [] 0)], []⟩ :=
  ⟨((inProgress_marker_semantics _ _ _ _ _ _ true false rfl).1 (by decide)).1,
   ((inProgress_marker_semantics _ _ _ _ _ _ true false rfl).2 (by decide)
      "2b4c342f5433ebe5" "2b4c342f5433ebe5" (by decide) (by decide)).1⟩

set_option maxRecDepth 4000 in
/-- C8 counterexample: with the root marker target/.cargo-lock present
but the key command unable to run, SeedFromRoot does not return
success: the key-computation error propagates.  So "marker present in
the root implies SeedFromRoot returns success" is false as stated. -/
theorem seedFromRoot_marker_keyFailure_cex :
    isFileAt [(["root", "target", ".cargo-lock"], FNode.file [] 0)]
      (["root"] ++ ["target", ".cargo-lock"]) = true ∧
    (SeedFromRoot ⟨[], [], [], 0⟩ ⟨["home"]⟩
        [⟨"cargo", [["Cargo.lock"]], ["rustc --version"], [["target"]]⟩]
        ["root"] ["env"] false
        [(["root", "target", ".cargo-lock"], FNode.file [] 0)]).val =
      .error (.wrapped "failed to compute cache key for env"
        (.wrapped "failed to run key command" .notExist)) := by
  exact ⟨by decide, by decide⟩

/-! ## Claim C10: RestoreFromCache removes before verifying -/

/-- C10: for any entry (the hit flag is immaterial: it is quantified
here and never read), RestoreFromCache chooses its cache source before
touching anything, removes the working-copy tree unconditionally, and
only then fails when neither <cachePath>/<basename(envPath)> (as a
directory) nor <cachePath>/<entry.name> exists: the result is a
"failed to restore cache" error and every path under envPath is gone
from the final snapshot. -/
theorem restoreFromCache_removesBeforeVerify (sys : Sys) (fs : FsMap)
    (entry : ArtifactCacheEntry) (envPath : Path) (logger : Bool)
    (hpaths : entry.envPaths = [envPath])
    (hbase : isDirAt fs (entry.cachePath ++ [pathBase envPath]) = false)
    (hnm : fsFind fs (entry.cachePath ++ [entry.name]) = none)
    (hdisj : ¬ envPath.isPrefixOf (entry.cachePath ++ [entry.name]) = true) :
    (∃ e, (RestoreFromCache sys entry logger fs).val =
      .error (.wrapped "failed to restore cache" e)) ∧
    (∀ q : Path, envPath.isPrefixOf q = true →
      fsFind (RestoreFromCache sys entry logger fs).fs q = none) := by
  have hsrc : fsFind (removeSubtree fs envPath) (entry.cachePath ++ [entry.name]) = none := by
    rw [fsFind_removeSubtree_not_under _ _ _ hdisj]
    exact hnm
  have hrun : RestoreFromCache sys entry logger fs =
      ⟨.error (.wrapped "failed to restore cache"
         (if logger then Err.wrapped "failed to count files" .notExist
          else Err.wrapped "failed to walk source directory" .notExist)),
       removeSubtree fs envPath, [.removeE envPath]⟩ := by
    cases logger with
    | false =>
      simp only [RestoreFromCache, hpaths, restoreLoop, run_bind, run_getFs, hbase,
        Bool.false_eq_true, if_false, removeAllM, run_emit, applyEvt, run_pure,
        copyDirectory, SeedDirectory, seedDirectoryMain, walkCollect, hsrc,
        List.nil_append, List.append_nil]
    | true =>
      simp only [RestoreFromCache, hpaths, restoreLoop, run_bind, run_getFs, hbase,
        Bool.false_eq_true, if_false, if_true, removeAllM, run_emit, applyEvt, run_pure,
        copyDirectory, SeedDirectory, countFilesGo, hsrc,
        List.nil_append, List.append_nil]
  refine ⟨⟨_, by rw [hrun]⟩, ?_⟩
  intro q hq
  rw [hrun]
  exact fsFind_removeSubtree_under fs envPath q hq

/-- Witness for C10 at a concrete snapshot: an entry with hit = false
whose cache holds neither source directory; after the failed restore
the working-copy file is gone. -/
theorem restoreFromCache_removesBeforeVerify_witness :
    fsFind (RestoreFromCache ⟨[], [], [], 0⟩
      ⟨"cargo", "k", ["home", "ck"], [["env", "target"]], false⟩ false
      [(["env"], .dir), (["env", "target"], .dir),
       (["env", "target", "a"], .file [1] 1)]).fs ["env", "target", "a"] = none :=
  (restoreFromCache_removesBeforeVerify _ _ _ ["env", "target"] false rfl (by decide)
    (by decide) (by decide)).2 ["env", "target", "a"] (by decide)

/-! ## Claim C5: Sync and missing lockfiles.

General machinery: characterizations of mkdirAll, the lock-file write,
and the rename event, leading to a success-run lemma for the rename
path of moveToCache. -/

theorem fsFind_cons (p : Path) (n : FNode) (fs : FsMap) (q : Path) :
    fsFind ((p, n) :: fs) q = if p = q then some n else fsFind fs q := by
  by_cases h : p = q
  · rw [if_pos h, fsFind,
        @List.find?_cons_of_pos _ (fun x : Path × FNode => x.1 == q) (p, n) fs
          (by simp [h])]
    rfl
  · rw [if_neg h, fsFind,
        @List.find?_cons_of_neg _ (fun x : Path × FNode => x.1 == q) (p, n) fs
          (by simp [h])]
    rfl

theorem fsFind_eraseKey (fs : FsMap) (p q : Path) :
    fsFind (eraseKey fs p) q = if p = q then none else fsFind fs q := by
  induction fs with
  | nil => by_cases h : p = q <;> simp [eraseKey, fsFind, h]
  | cons e rest ih =>
    rw [eraseKey, List.filter_cons]
    by_cases he : e.1 = p
    · have hcond : (!(e.1 == p)) = false := by simp [he]
      rw [hcond]
      simp only [Bool.false_eq_true, if_false]
      rw [eraseKey] at ih
      rw [ih]
      by_cases h : p = q
      · rw [if_pos h, if_pos h]
      · rw [if_neg h, if_neg h]
        have hne : ¬((fun x : Path × FNode => x.1 == q) e = true) := by
          simp [he]
          exact fun hq => h (he ▸ hq)
        rw [fsFind, fsFind,
            @List.find?_cons_of_neg _ (fun x : Path × FNode => x.1 == q) e rest hne]
    · have hcond : (!(e.1 == p)) = true := by simp [he]
      rw [hcond]
      simp only [eq_self_iff_true, if_true]
      rcases e with ⟨e1, en⟩
      rw [show (e1, en) :: List.filter (fun e => !(e.1 == p)) rest =
            (e1, en) :: eraseKey rest p from rfl]
      rw [fsFind_cons, fsFind_cons, ih]
      by_cases h1 : e1 = q
      · rw [if_pos h1, if_pos h1]
        by_cases h : p = q
        · exact absurd (h ▸ h1) he
        · rw [if_neg h]
      · rw [if_neg h1, if_neg h1]

/-- Effect of a writeE event on lookups. -/
theorem fsFind_writeE (fs : FsMap) (p : Path) (n : FNode) (q : Path) :
    fsFind (applyEvt fs (.writeE p n)) q = if p = q then some n else fsFind fs q := by
  rw [applyEvt, fsFind_cons, fsFind_eraseKey]
  by_cases h : p = q
  · rw [if_pos h, if_pos h]
  · rw [if_neg h, if_neg h, if_neg h]

/-- Success and snapshot characterization of the mkdirAll loop when no
regular file blocks the chain. -/
theorem mkdirAllGo_run (ps : List Path) (fs : FsMap)
    (h : ∀ q ∈ ps, ∀ c m, fsFind fs q ≠ some (.file c m)) :
    (mkdirAllGo ps fs).val = .ok () ∧
    (∀ q : Path, fsFind (mkdirAllGo ps fs).fs q =
      if q ∈ ps ∧ fsFind fs q = none then some .dir else fsFind fs q) := by
  induction ps generalizing fs with
  | nil =>
    refine ⟨rfl, fun q => ?_⟩
    simp [mkdirAllGo, run_pure]
  | cons q0 rest ih =>
    have h0 := h q0 (List.mem_cons_self _ _)
    cases hq0 : fsFind fs q0 with
    | some n =>
      cases n with
      | file c m => exact absurd hq0 (h0 c m)
      | dir =>
        have hrun : mkdirAllGo (q0 :: rest) fs = mkdirAllGo rest fs := by
          simp only [mkdirAllGo, run_bind, run_getFs, hq0, List.nil_append]
        rw [hrun]
        obtain ⟨hval, hfind⟩ := ih fs (fun q hq => h q (List.mem_cons_of_mem _ hq))
        refine ⟨hval, fun q => ?_⟩
        rw [hfind q]
        by_cases h1 : q ∈ rest ∧ fsFind fs q = none
        · rw [if_pos h1, if_pos ⟨List.mem_cons_of_mem _ h1.1, h1.2⟩]
        · rw [if_neg h1]
          by_cases h2 : q ∈ q0 :: rest ∧ fsFind fs q = none
          · rcases h2 with ⟨hmem, hnone⟩
            rcases List.mem_cons.mp hmem with rfl | hr
            · rw [hq0] at hnone
              exact absurd hnone (by simp)
            · exact absurd ⟨hr, hnone⟩ h1
          · rw [if_neg h2]
    | none =>
      have hfs1 : applyEvt fs (.mkdirE q0) = (q0, .dir) :: fs := by
        simp [applyEvt, hq0]
      have hrun : mkdirAllGo (q0 :: rest) fs =
          ⟨(mkdirAllGo rest ((q0, .dir) :: fs)).val, (mkdirAllGo rest ((q0, .dir) :: fs)).fs,
           .mkdirE q0 :: (mkdirAllGo rest ((q0, .dir) :: fs)).tr⟩ := by
        simp only [mkdirAllGo, run_bind, run_getFs, hq0, run_emit, hfs1, List.nil_append,
          List.singleton_append]
      have hstep : ∀ q, fsFind ((q0, FNode.dir) :: fs) q =
          if q0 = q then some .dir else fsFind fs q := fun q => fsFind_cons q0 _ fs q
      obtain ⟨hval, hfind⟩ := ih ((q0, .dir) :: fs) (by
        intro q hq c m
        rw [hstep q]
        by_cases he : q0 = q
        · rw [if_pos he]
          simp
        · rw [if_neg he]
          exact h q (List.mem_cons_of_mem _ hq) c m)
      rw [hrun]
      refine ⟨hval, fun q => ?_⟩
      show fsFind (mkdirAllGo rest ((q0, .dir) :: fs)).fs q = _
      rw [hfind q, hstep q]
      by_cases he : q0 = q
      · subst he
        have hl : (if q0 = q0 then some FNode.dir else fsFind fs q0) = some FNode.dir :=
          if_pos rfl
        rw [hl]
        have hc1 : ¬(q0 ∈ rest ∧ (some FNode.dir = (none : Option FNode))) := by simp
        rw [if_neg hc1, if_pos ⟨List.mem_cons_self _ _, hq0⟩]
      · rw [if_neg he]
        by_cases h1 : q ∈ rest ∧ fsFind fs q = none
        · rw [if_pos h1, if_pos ⟨List.mem_cons_of_mem _ h1.1, h1.2⟩]
        · rw [if_neg h1]
          by_cases h3 : q ∈ q0 :: rest ∧ fsFind fs q = none
          · rcases h3 with ⟨hmem, hnone⟩
            rcases List.mem_cons.mp hmem with rfl | hr
            · exact absurd rfl he
            · exact absurd ⟨hr, hnone⟩ h1
          · rw [if_neg h3]

theorem isPrefixOf_append_self (a t : Path) : a.isPrefixOf (a ++ t) = true :=
  List.isPrefixOf_iff_prefix.mpr (List.prefix_append a t)

theorem eq_append_drop_of_isPrefixOf (a b : Path) (h : a.isPrefixOf b = true) :
    b = a ++ b.drop a.length := by
  obtain ⟨t, ht⟩ := List.isPrefixOf_iff_prefix.mp h
  rw [← ht, List.drop_left]

/-- The moved half of a rename: first-match lookup at dst ++ rel in the
re-rooted entries equals first-match lookup at src ++ rel in the
original snapshot. -/
theorem find?_renameMoved (fs : FsMap) (src dst rel : Path) :
    ((fs.filterMap (fun e =>
        if src.isPrefixOf e.1 = true then some (dst ++ e.1.drop src.length, e.2) else none)).find?
      (fun e => e.1 == dst ++ rel)) =
    (fs.find? (fun e => e.1 == src ++ rel)).map
      (fun e => (dst ++ e.1.drop src.length, e.2)) := by
  induction fs with
  | nil => rfl
  | cons e rest ih =>
    rw [List.filterMap_cons]
    by_cases he : src.isPrefixOf e.1 = true
    · rw [if_pos he]
      by_cases heq : e.1 = src ++ rel
      · have h1 : ((fun x : Path × FNode => x.1 == dst ++ rel)
            (dst ++ e.1.drop src.length, e.2)) = true := by
          simp only [beq_iff_eq]
          rw [heq, List.drop_left]
        have h2 : ((fun x : Path × FNode => x.1 == src ++ rel) e) = true := by
          simp [heq]
        rw [@List.find?_cons_of_pos _ (fun x : Path × FNode => x.1 == dst ++ rel)
              (dst ++ e.1.drop src.length, e.2) _ h1,
            @List.find?_cons_of_pos _ (fun x : Path × FNode => x.1 == src ++ rel) e _ h2]
        simp
      · have hdrop : e.1.drop src.length ≠ rel := by
          intro hd
          exact heq (by rw [eq_append_drop_of_isPrefixOf src e.1 he, hd])
        have h1 : ¬((fun x : Path × FNode => x.1 == dst ++ rel)
            (dst ++ e.1.drop src.length, e.2) = true) := by
          simp only [beq_iff_eq]
          intro hc
          exact hdrop (List.append_cancel_left hc)
        have h2 : ¬((fun x : Path × FNode => x.1 == src ++ rel) e = true) := by
          simp [heq]
        rw [@List.find?_cons_of_neg _ (fun x : Path × FNode => x.1 == dst ++ rel)
              (dst ++ e.1.drop src.length, e.2) _ h1,
            @List.find?_cons_of_neg _ (fun x : Path × FNode => x.1 == src ++ rel) e _ h2]
        exact ih
    · rw [if_neg he]
      have h2 : ¬((fun x : Path × FNode => x.1 == src ++ rel) e = true) := by
        simp only [beq_iff_eq]
        intro hc
        exact he (hc ▸ isPrefixOf_append_self src rel)
      rw [@List.find?_cons_of_neg _ (fun x : Path × FNode => x.1 == src ++ rel) e _ h2]
      exact ih

/-- A rename makes the source subtree reappear, bindings intact, under
the destination. -/
theorem fsFind_renameE (fs : FsMap) (src dst rel : Path) :
    fsFind (applyEvt fs (.renameE src dst)) (dst ++ rel) = fsFind fs (src ++ rel) := by
  show fsFind ((fs.filterMap _) ++ removeSubtree (removeSubtree fs src) dst) (dst ++ rel) = _
  rw [fsFind, List.find?_append, find?_renameMoved]
  cases hf : fs.find? (fun e => e.1 == src ++ rel) with
  | some e =>
    have hr : fsFind fs (src ++ rel) = some e.2 := by rw [fsFind, hf]; rfl
    rw [hr]
    rfl
  | none =>
    have hnone := fsFind_removeSubtree_under (removeSubtree fs src) dst (dst ++ rel)
      (isPrefixOf_append_self dst rel)
    have hr : fsFind fs (src ++ rel) = none := by rw [fsFind, hf]; rfl
    rw [hr]
    simp only [Option.map_none', Option.none_or]
    rw [fsFind] at hnone
    exact hnone

theorem applyEvt_lockAcq (fs : FsMap) (p : Path) (b : Bool) :
    applyEvt fs (.lockAcqE p b) = fs := rfl

theorem applyEvt_lockRel (fs : FsMap) (p : Path) : applyEvt fs (.lockRelE p) = fs := rfl

theorem strNe_append_lock (c : String) : c ≠ c ++ ".lock" := by
  intro h
  have hd : c.data = c.data ++ ".lock".data := by
    conv_lhs => rw [h]
    simp
  have := congrArg List.length hd
  simp at this

theorem mem_pathAncestors (p q : Path) :
    q ∈ pathAncestors p ↔ ∃ i, i < p.length ∧ q = p.take (i + 1) := by
  rw [pathAncestors]
  constructor
  · intro h
    rcases List.mem_map.mp h with ⟨i, hi, hq⟩
    exact ⟨i, List.mem_range.mp hi, hq.symm⟩
  · rintro ⟨i, hi, rfl⟩
    exact List.mem_map.mpr ⟨i, List.mem_range.mpr hi, rfl⟩

theorem length_le_of_mem_pathAncestors (p q : Path) (h : q ∈ pathAncestors p) :
    q.length ≤ p.length := by
  rcases (mem_pathAncestors p q).mp h with ⟨i, _, rfl⟩
  rw [List.length_take]
  omega

theorem pathAncestors_dropLast_subset (p : Path) :
    ∀ q ∈ pathAncestors p.dropLast, q ∈ pathAncestors p := by
  intro q hq
  rcases (mem_pathAncestors _ q).mp hq with ⟨i, hi, rfl⟩
  rw [List.length_dropLast] at hi
  refine (mem_pathAncestors p _).mpr ⟨i, by omega, ?_⟩
  rw [List.dropLast_eq_take, List.take_take]
  congr 1
  omega

theorem lockPathOf_dropLast (cachePath : Path) (h : cachePath ≠ []) :
    (lockPathOf cachePath).dropLast = cachePath.dropLast := by
  rw [lockPathOf]
  cases hl : cachePath.getLast? with
  | none => exact absurd (List.getLast?_eq_none_iff.mp hl) h
  | some c => exact List.dropLast_concat

theorem lockPathOf_length (cachePath : Path) (h : cachePath ≠ []) :
    (lockPathOf cachePath).length = cachePath.length := by
  rw [lockPathOf]
  cases hl : cachePath.getLast? with
  | none => exact absurd (List.getLast?_eq_none_iff.mp hl) h
  | some c =>
    rw [List.length_append, List.length_dropLast]
    have : cachePath.length ≠ 0 := by
      intro h0
      exact h (List.length_eq_zero.mp h0)
    simp
    omega

theorem lockPathOf_ne_self (cachePath : Path) (h : cachePath ≠ []) :
    cachePath ≠ lockPathOf cachePath := by
  intro he
  cases hl : cachePath.getLast? with
  | none => exact absurd (List.getLast?_eq_none_iff.mp hl) h
  | some c =>
    have h2 : (lockPathOf cachePath).getLast? = some (c ++ ".lock") := by
      rw [lockPathOf, hl]
      exact List.getLast?_concat _
    rw [← he, hl] at h2
    exact strNe_append_lock c (Option.some.injEq _ _ ▸ h2)

theorem lockPathOf_notMem_ancestors (cachePath : Path) (h : cachePath ≠ []) :
    lockPathOf cachePath ∉ pathAncestors cachePath := by
  intro hmem
  rcases (mem_pathAncestors _ _).mp hmem with ⟨i, hi, htake⟩
  have hlen := congrArg List.length htake
  rw [lockPathOf_length cachePath h, List.length_take] at hlen
  have hi1 : i + 1 = cachePath.length := by omega
  rw [hi1, List.take_length] at htake
  exact lockPathOf_ne_self cachePath h htake.symm

theorem notMem_ancestors_of_length_gt (p q : Path) (h : p.length < q.length) :
    q ∉ pathAncestors p :=
  fun hmem => absurd (length_le_of_mem_pathAncestors p q hmem) (by omega)

/-- Run of acquireCacheLock when the chain is clear, the lock file does
not yet exist and no other process holds the lock. -/
theorem acquireCacheLock_run (sys : Sys) (cachePath : Path) (g : FsMap)
    (hne : cachePath ≠ [])
    (hanc : ∀ q ∈ pathAncestors cachePath, ∀ c m, fsFind g q ≠ some (.file c m))
    (hlockfile : fsFind g (lockPathOf cachePath) = none)
    (hext : sys.extLocks.contains (lockPathOf cachePath) = false) :
    (acquireCacheLock sys cachePath g).val = .ok (some (lockPathOf cachePath)) ∧
    ∀ q, fsFind (acquireCacheLock sys cachePath g).fs q =
      if lockPathOf cachePath = q then some (.file [] sys.now)
      else if q ∈ pathAncestors cachePath.dropLast ∧ fsFind g q = none then some FNode.dir
      else fsFind g q := by
  have hancd : ∀ q ∈ pathAncestors (lockPathOf cachePath).dropLast,
      ∀ c m, fsFind g q ≠ some (.file c m) := by
    intro q hq
    rw [lockPathOf_dropLast cachePath hne] at hq
    exact hanc q (pathAncestors_dropLast_subset cachePath q hq)
  obtain ⟨hv, hch⟩ := mkdirAllGo_run (pathAncestors (lockPathOf cachePath).dropLast) g hancd
  have hlock1 : fsFind (mkdirAllGo (pathAncestors (lockPathOf cachePath).dropLast) g).fs
      (lockPathOf cachePath) = none := by
    rw [hch]
    have hnm : lockPathOf cachePath ∉ pathAncestors (lockPathOf cachePath).dropLast := by
      intro hmem
      have := length_le_of_mem_pathAncestors _ _ hmem
      rw [List.length_dropLast] at this
      have hpos : 0 < (lockPathOf cachePath).length := by
        rw [lockPathOf_length cachePath hne]
        cases cachePath with
        | nil => exact absurd rfl hne
        | cons a t => simp
      omega
    rw [if_neg (by rintro ⟨hmem, -⟩; exact hnm hmem)]
    exact hlockfile
  have hrun : acquireCacheLock sys cachePath g =
      ⟨.ok (some (lockPathOf cachePath)),
       applyEvt (applyEvt (mkdirAllGo (pathAncestors (lockPathOf cachePath).dropLast) g).fs
         (.writeE (lockPathOf cachePath) (.file [] sys.now))) (.lockAcqE (lockPathOf cachePath) true),
       (mkdirAllGo (pathAncestors (lockPathOf cachePath).dropLast) g).tr ++
         [.writeE (lockPathOf cachePath) (.file [] sys.now),
          .lockAcqE (lockPathOf cachePath) true]⟩ := by
    rw [acquireCacheLock]
    simp only [mkdirAllM, run_bind, run_getFs, run_emit, run_pure, hv, hlock1, flockTry, hext,
      Bool.false_eq_true, if_false, List.nil_append, List.append_nil, List.singleton_append]
  have hfs : (acquireCacheLock sys cachePath g).fs =
      applyEvt (applyEvt (mkdirAllGo (pathAncestors (lockPathOf cachePath).dropLast) g).fs
        (.writeE (lockPathOf cachePath) (.file [] sys.now)))
        (.lockAcqE (lockPathOf cachePath) true) := by
    rw [hrun]
  have hval : (acquireCacheLock sys cachePath g).val = .ok (some (lockPathOf cachePath)) := by
    rw [hrun]
  refine ⟨hval, fun q => ?_⟩
  rw [hfs, applyEvt_lockAcq, fsFind_writeE, hch q, lockPathOf_dropLast cachePath hne]

theorem isPrefixOf_self (p : Path) : p.isPrefixOf p = true := by
  have := isPrefixOf_append_self p []
  simpa using this

theorem fsFind_of_isDirAt (fs : FsMap) (p : Path) (h : isDirAt fs p = true) :
    fsFind fs p = some .dir := by
  rw [isDirAt] at h
  cases hf : fsFind fs p with
  | none => rw [hf] at h; simp at h
  | some n =>
    cases n with
    | dir => rfl
    | file c m => rw [hf] at h; simp at h

theorem isDirAt_false_of_none (fs : FsMap) (p : Path) (h : fsFind fs p = none) :
    isDirAt fs p = false := by
  rw [isDirAt, h]

/-- Success run of moveToCache along the same-device rename path with
no hardlink-back: the lock is taken, the entry chain is created, one
rename publishes the tree, and the source subtree reappears with its
bindings intact under <cachePath>/<basename localPath>. -/
theorem moveToCache_run (sys : Sys) (localPath cachePath : Path) (g : FsMap)
    (hne : cachePath ≠ [])
    (hanc : ∀ q ∈ pathAncestors cachePath, ∀ c m, fsFind g q ≠ some (.file c m))
    (hlockfile : fsFind g (lockPathOf cachePath) = none)
    (hext : sys.extLocks.contains (lockPathOf cachePath) = false)
    (htarget : fsFind g (cachePath ++ [pathBase localPath]) = none)
    (hlocaldir : isDirAt g localPath = true)
    (hdev : devOf sys localPath = devOf sys (cachePath ++ [pathBase localPath]))
    (hsep : ∀ q, localPath.isPrefixOf q = true →
      q ∉ pathAncestors cachePath ∧ q ≠ lockPathOf cachePath) :
    (moveToCache sys localPath cachePath false g).val = .ok () ∧
    (moveToCache sys localPath cachePath false g).tr =
      (acquireCacheLock sys cachePath g).tr ++
      ((mkdirAllGo (pathAncestors cachePath) (acquireCacheLock sys cachePath g).fs).tr ++
       [.renameE localPath (cachePath ++ [pathBase localPath]),
        .lockRelE (lockPathOf cachePath)]) ∧
    ∀ rel, fsFind (moveToCache sys localPath cachePath false g).fs
        (cachePath ++ [pathBase localPath] ++ rel) = fsFind g (localPath ++ rel) := by
  obtain ⟨hAv, hAch⟩ := acquireCacheLock_run sys cachePath g hne hanc hlockfile hext
  have hF1 : ∀ q, q ≠ lockPathOf cachePath → q ∉ pathAncestors cachePath →
      fsFind (acquireCacheLock sys cachePath g).fs q = fsFind g q := by
    intro q h1 h2
    rw [hAch q, if_neg (fun he => h1 he.symm),
        if_neg (fun hc => h2 (pathAncestors_dropLast_subset _ _ hc.1))]
  have hdstlen : (cachePath ++ [pathBase localPath]).length = cachePath.length + 1 := by
    simp
  have hdstlock : cachePath ++ [pathBase localPath] ≠ lockPathOf cachePath := by
    intro he
    have := congrArg List.length he
    rw [hdstlen, lockPathOf_length cachePath hne] at this
    omega
  have hdstanc : cachePath ++ [pathBase localPath] ∉ pathAncestors cachePath :=
    notMem_ancestors_of_length_gt _ _ (by omega)
  have htarget1 : fsFind (acquireCacheLock sys cachePath g).fs
      (cachePath ++ [pathBase localPath]) = none := by
    rw [hF1 _ hdstlock hdstanc]
    exact htarget
  have hanc1 : ∀ q ∈ pathAncestors cachePath, ∀ c m,
      fsFind (acquireCacheLock sys cachePath g).fs q ≠ some (.file c m) := by
    intro q hq c m
    rw [hAch q]
    by_cases h1 : lockPathOf cachePath = q
    · exact absurd (h1 ▸ hq) (lockPathOf_notMem_ancestors cachePath hne)
    · rw [if_neg h1]
      by_cases h2 : q ∈ pathAncestors cachePath.dropLast ∧ fsFind g q = none
      · rw [if_pos h2]
        simp
      · rw [if_neg h2]
        exact hanc q hq c m
  obtain ⟨hBv, hBch⟩ :=
    mkdirAllGo_run (pathAncestors cachePath) (acquireCacheLock sys cachePath g).fs hanc1
  have hF2 : ∀ q, q ∉ pathAncestors cachePath →
      fsFind (mkdirAllGo (pathAncestors cachePath) (acquireCacheLock sys cachePath g).fs).fs q =
      fsFind (acquireCacheLock sys cachePath g).fs q := by
    intro q h
    rw [hBch q, if_neg (fun hc => h hc.1)]
  have hsepSelf := hsep localPath (isPrefixOf_self localPath)
  have hlocal2 : fsFind
      (mkdirAllGo (pathAncestors cachePath) (acquireCacheLock sys cachePath g).fs).fs
      localPath = some .dir := by
    rw [hF2 _ hsepSelf.1, hF1 _ hsepSelf.2 hsepSelf.1]
    exact fsFind_of_isDirAt g localPath hlocaldir
  have htarget2 : fsFind
      (mkdirAllGo (pathAncestors cachePath) (acquireCacheLock sys cachePath g).fs).fs
      (cachePath ++ [pathBase localPath]) = none := by
    rw [hF2 _ hdstanc]
    exact htarget1
  have hdir1 : isDirAt (acquireCacheLock sys cachePath g).fs
      (cachePath ++ [pathBase localPath]) = false :=
    isDirAt_false_of_none _ _ htarget1
  have hdevneg : ¬(devOf sys localPath ≠ devOf sys (cachePath ++ [pathBase localPath])) :=
    fun hc => hc hdev
  have hval : (moveToCache sys localPath cachePath false g).val = .ok () := by
    simp only [moveToCache, run_bind, hAv, moveToCacheLocked, run_dirExistsM, hdir1,
      Bool.false_eq_true, if_false, mkdirAllM, hBv, osRename, run_getFs, hlocal2,
      hdevneg, htarget2, run_emit, run_pure, releaseCacheLock, List.nil_append,
      List.append_nil]
  have hfseq : (moveToCache sys localPath cachePath false g).fs =
      applyEvt (mkdirAllGo (pathAncestors cachePath) (acquireCacheLock sys cachePath g).fs).fs
        (.renameE localPath (cachePath ++ [pathBase localPath])) := by
    simp only [moveToCache, run_bind, hAv, moveToCacheLocked, run_dirExistsM, hdir1,
      Bool.false_eq_true, if_false, mkdirAllM, hBv, osRename, run_getFs, hlocal2,
      hdevneg, htarget2, run_emit, run_pure, releaseCacheLock, List.nil_append,
      List.append_nil, applyEvt_lockRel]
  have htreq : (moveToCache sys localPath cachePath false g).tr =
      (acquireCacheLock sys cachePath g).tr ++
      ((mkdirAllGo (pathAncestors cachePath) (acquireCacheLock sys cachePath g).fs).tr ++
       [.renameE localPath (cachePath ++ [pathBase localPath]),
        .lockRelE (lockPathOf cachePath)]) := by
    simp only [moveToCache, run_bind, hAv, moveToCacheLocked, run_dirExistsM, hdir1,
      Bool.false_eq_true, if_false, mkdirAllM, hBv, osRename, run_getFs, hlocal2,
      hdevneg, htarget2, run_emit, run_pure, releaseCacheLock, List.nil_append,
      List.append_nil]
    simp [List.append_assoc]
  refine ⟨hval, htreq, fun rel => ?_⟩
  rw [hfseq, fsFind_renameE]
  have hix := hsep (localPath ++ rel) (isPrefixOf_append_self _ _)
  rw [hF2 _ hix.1, hF1 _ hix.2 hix.1]

/-! ## Claim C5: Sync and missing lockfiles -/

theorem not_file_of_isFileAt_false (fs : FsMap) (q : Path) (h : isFileAt fs q = false) :
    ∀ c m, fsFind fs q ≠ some (.file c m) := by
  intro c m hc
  rw [isFileAt, hc] at h
  simp at h

/-- C5 (amended): a missing declared key file does not make Sync skip
the artifact.  ComputeCacheKey skips missing key files silently, so even
with every declared key file absent from the working copy (the key
commands succeeding), syncArtifact proceeds: it acquires the entry
lock, creates the entry directory chain, and renames the artifact path
into the cache, returning success with the artifact tree published at
<cachePath>/<basename> — it does not skip the artifact. -/
theorem sync_missingLockfile_proceeds (sys : Sys) (cm : CacheManager)
    (a : ArtifactConfig) (rootPath envPath p : Path) (fs : FsMap) (k : String)
    (hnb : isBuildInProgress fs envPath a = false)
    (hmissing : ∀ kf ∈ a.keyFiles, fsFind fs (envPath ++ kf) = none)
    (hkey : ComputeCacheKey sys fs a envPath = .ok k)
    (hpaths : a.paths = [p])
    (hne : GetArtifactCachePath cm rootPath a.name k ≠ [])
    (hcache : fsFind fs (GetArtifactCachePath cm rootPath a.name k) = none)
    (hanc : ∀ q ∈ pathAncestors (GetArtifactCachePath cm rootPath a.name k),
      isFileAt fs q = false)
    (hlockfile : fsFind fs (lockPathOf (GetArtifactCachePath cm rootPath a.name k)) = none)
    (hext : sys.extLocks.contains
      (lockPathOf (GetArtifactCachePath cm rootPath a.name k)) = false)
    (htarget : fsFind fs (GetArtifactCachePath cm rootPath a.name k ++
      [pathBase (envPath ++ p)]) = none)
    (hlocaldir : isDirAt fs (envPath ++ p) = true)
    (hdev : devOf sys (envPath ++ p) =
      devOf sys (GetArtifactCachePath cm rootPath a.name k ++ [pathBase (envPath ++ p)]))
    (hsepAnc : ∀ q ∈ pathAncestors (GetArtifactCachePath cm rootPath a.name k),
      (envPath ++ p).isPrefixOf q = false)
    (hsepLock : (envPath ++ p).isPrefixOf
      (lockPathOf (GetArtifactCachePath cm rootPath a.name k)) = false) :
    (syncArtifact sys cm a rootPath envPath false fs).val = .ok () ∧
    ∀ rel, fsFind (syncArtifact sys cm a rootPath envPath false fs).fs
        (GetArtifactCachePath cm rootPath a.name k ++ [pathBase (envPath ++ p)] ++ rel) =
      fsFind fs (envPath ++ p ++ rel) := by
  have hanc2 : ∀ q ∈ pathAncestors (GetArtifactCachePath cm rootPath a.name k),
      ∀ c m, fsFind fs q ≠ some (.file c m) :=
    fun q hq => not_file_of_isFileAt_false fs q (hanc q hq)
  have hsep : ∀ q, (envPath ++ p).isPrefixOf q = true →
      q ∉ pathAncestors (GetArtifactCachePath cm rootPath a.name k) ∧
      q ≠ lockPathOf (GetArtifactCachePath cm rootPath a.name k) := by
    intro q hq
    refine ⟨fun hm => ?_, fun he => ?_⟩
    · rw [hsepAnc q hm] at hq
      exact Bool.false_ne_true hq
    · rw [he, hsepLock] at hq
      exact Bool.false_ne_true hq
  obtain ⟨hMv, hMtr, hMch⟩ := moveToCache_run sys (envPath ++ p)
    (GetArtifactCachePath cm rootPath a.name k) fs hne hanc2 hlockfile hext htarget
    hlocaldir hdev hsep
  have hcd : isDirAt fs (GetArtifactCachePath cm rootPath a.name k) = false :=
    isDirAt_false_of_none _ _ hcache
  have hval : (syncArtifact sys cm a rootPath envPath false fs).val = .ok () := by
    simp only [syncArtifact, run_bind, run_getFs, hnb, Bool.false_eq_true, if_false, hkey,
      hpaths, run_dirExistsM, hcd, syncPathsLoop, hlocaldir, Bool.not_true, hMv, run_pure,
      List.nil_append, List.append_nil]
  have hfs : (syncArtifact sys cm a rootPath envPath false fs).fs =
      (moveToCache sys (envPath ++ p) (GetArtifactCachePath cm rootPath a.name k)
        false fs).fs := by
    simp only [syncArtifact, run_bind, run_getFs, hnb, Bool.false_eq_true, if_false, hkey,
      hpaths, run_dirExistsM, hcd, syncPathsLoop, hlocaldir, Bool.not_true, hMv, run_pure,
      List.nil_append, List.append_nil]
  refine ⟨hval, fun rel => ?_⟩
  rw [hfs]
  exact hMch rel

set_option maxRecDepth 4000 in
/-- Concrete instantiation of the amended C5 theorem: working copy with
no Cargo.lock, a target directory holding one file; syncArtifact
succeeds and the target subtree reappears under the cache entry. -/
theorem sync_missingLockfile_proceeds_witness :
    (syncArtifact ⟨[], [], [("rustc --version", [9])], 100⟩ ⟨["home", "cache_local"]⟩
        ⟨"cargo", [["Cargo.lock"]], ["rustc --version"], [["target"]]⟩
        ["root"] ["env"] false
        [(["env"], FNode.dir), (["env", "target"], FNode.dir),
         (["env", "target", "a.txt"], FNode.file [1] 5)]).val = .ok () ∧
    ∀ rel, fsFind (syncArtifact ⟨[], [], [("rustc --version", [9])], 100⟩
        ⟨["home", "cache_local"]⟩
        ⟨"cargo", [["Cargo.lock"]], ["rustc --version"], [["target"]]⟩
        ["root"] ["env"] false
        [(["env"], FNode.dir), (["env", "target"], FNode.dir),
         (["env", "target", "a.txt"], FNode.file [1] 5)]).fs
        (GetArtifactCachePath ⟨["home", "cache_local"]⟩ ["root"] "cargo"
          "2b4c342f5433ebe5" ++ [pathBase (["env"] ++ ["target"])] ++ rel) =
      fsFind [(["env"], FNode.dir), (["env", "target"], FNode.dir),
         (["env", "target", "a.txt"], FNode.file [1] 5)] (["env"] ++ ["target"] ++ rel) :=
  sync_missingLockfile_proceeds ⟨[], [], [("rustc --version", [9])], 100⟩
    ⟨["home", "cache_local"]⟩
    ⟨"cargo", [["Cargo.lock"]], ["rustc --version"], [["target"]]⟩
    ["root"] ["env"] ["target"]
    [(["env"], FNode.dir), (["env", "target"], FNode.dir),
     (["env", "target", "a.txt"], FNode.file [1] 5)]
    "2b4c342f5433ebe5"
    (by decide) (by decide) (by decide) rfl (by decide) (by decide) (by decide)
    (by decide) (by decide) (by decide) (by decide) (by decide) (by decide) (by decide)

set_option maxRecDepth 4000 in
/-- C5 counterexample: the declared key file env/Cargo.lock does not
exist, yet Sync does not skip the artifact: it returns success and a
cache entry for it now exists, holding the moved target tree. -/
theorem sync_missingLockfile_cex :
    fsFind [(["env"], FNode.dir), (["env", "target"], FNode.dir),
        (["env", "target", "a.txt"], FNode.file [1] 5)] (["env"] ++ ["Cargo.lock"]) =
      none ∧
    (Sync ⟨[], [], [("rustc --version", [9])], 100⟩ ⟨["home", "cache_local"]⟩
        [⟨"cargo", [["Cargo.lock"]], ["rustc --version"], [["target"]]⟩]
        ["root"] ["env"] false
        [(["env"], FNode.dir), (["env", "target"], FNode.dir),
         (["env", "target", "a.txt"], FNode.file [1] 5)]).val = .ok () ∧
    isDirAt (Sync ⟨[], [], [("rustc --version", [9])], 100⟩ ⟨["home", "cache_local"]⟩
        [⟨"cargo", [["Cargo.lock"]], ["rustc --version"], [["target"]]⟩]
        ["root"] ["env"] false
        [(["env"], FNode.dir), (["env", "target"], FNode.dir),
         (["env", "target", "a.txt"], FNode.file [1] 5)]).fs
      ["home", "cache_local", "root", "cargo", "2b4c342f5433ebe5", "target"] = true ∧
    fsFind (Sync ⟨[], [], [("rustc --version", [9])], 100⟩ ⟨["home", "cache_local"]⟩
        [⟨"cargo", [["Cargo.lock"]], ["rustc --version"], [["target"]]⟩]
        ["root"] ["env"] false
        [(["env"], FNode.dir), (["env", "target"], FNode.dir),
         (["env", "target", "a.txt"], FNode.file [1] 5)]).fs
      ["home", "cache_local", "root", "cargo", "2b4c342f5433ebe5", "target", "a.txt"] =
      some (FNode.file [1] 5) := by
  exact ⟨by decide, by decide, by decide, by decide⟩

/-! ## Claim C1: StoreToCache failure behaviour -/

/-- C1 (amended): StoreToCache has no cross-device fallback and no
recovery path of its own: when an env path renames cross-device, the
rename error propagates wrapped in "failed to move to cache", nothing
is copied into the cache entry (the target stays absent), and the
working-copy tree is left exactly as it was; the copy-then-remove
fallback and the hardlink-back recovery live in moveToCache, not here. -/
theorem storeToCache_crossDevice_noFallback (sys : Sys) (entry : ArtifactCacheEntry)
    (ep : Path) (fs : FsMap)
    (hpaths : entry.envPaths = [ep])
    (hanc : ∀ q ∈ pathAncestors entry.cachePath, isFileAt fs q = false)
    (hsepAnc : ∀ q ∈ pathAncestors entry.cachePath, ep.isPrefixOf q = false)
    (hlocaldir : isDirAt fs ep = true)
    (hdev : devOf sys ep ≠ devOf sys (entry.cachePath ++ [pathBase ep]))
    (htarget : fsFind fs (entry.cachePath ++ [pathBase ep]) = none) :
    (StoreToCache sys entry fs).val =
      .error (.wrapped "failed to move to cache" Err.crossDevice) ∧
    (∀ q, ep.isPrefixOf q = true →
      fsFind (StoreToCache sys entry fs).fs q = fsFind fs q) ∧
    fsFind (StoreToCache sys entry fs).fs (entry.cachePath ++ [pathBase ep]) = none := by
  have hanc2 : ∀ q ∈ pathAncestors entry.cachePath, ∀ c m,
      fsFind fs q ≠ some (.file c m) :=
    fun q hq => not_file_of_isFileAt_false fs q (hanc q hq)
  obtain ⟨hBv, hBch⟩ := mkdirAllGo_run (pathAncestors entry.cachePath) fs hanc2
  have hF1 : ∀ q, q ∉ pathAncestors entry.cachePath →
      fsFind (mkdirAllGo (pathAncestors entry.cachePath) fs).fs q = fsFind fs q := by
    intro q h
    rw [hBch q, if_neg (fun hc => h hc.1)]
  have hepanc : ep ∉ pathAncestors entry.cachePath := fun hm =>
    Bool.false_ne_true ((hsepAnc ep hm).symm.trans (isPrefixOf_self ep))
  have hep1 : fsFind (mkdirAllGo (pathAncestors entry.cachePath) fs).fs ep =
      some .dir := by
    rw [hF1 ep hepanc]
    exact fsFind_of_isDirAt fs ep hlocaldir
  have hd1 : isDirAt (mkdirAllGo (pathAncestors entry.cachePath) fs).fs ep = true := by
    rw [isDirAt, hep1]
  have hdstanc : entry.cachePath ++ [pathBase ep] ∉ pathAncestors entry.cachePath :=
    notMem_ancestors_of_length_gt _ _ (by simp)
  have hren : osRename sys ep (entry.cachePath ++ [pathBase ep])
      (mkdirAllGo (pathAncestors entry.cachePath) fs).fs =
      ⟨.error Err.crossDevice, (mkdirAllGo (pathAncestors entry.cachePath) fs).fs, []⟩ := by
    rw [osRename, run_bind, run_getFs]
    simp only [hep1]
    rw [if_pos hdev]
    rfl
  have hrunv : (StoreToCache sys entry fs).val =
      .error (.wrapped "failed to move to cache" Err.crossDevice) := by
    simp only [StoreToCache, run_bind, mkdirAllM, hBv, hpaths, storeLoop, run_dirExistsM,
      hd1, Bool.not_true, Bool.false_eq_true, if_false, hren, run_pure,
      List.nil_append, List.append_nil]
  have hrunf : (StoreToCache sys entry fs).fs =
      (mkdirAllGo (pathAncestors entry.cachePath) fs).fs := by
    simp only [StoreToCache, run_bind, mkdirAllM, hBv, hpaths, storeLoop, run_dirExistsM,
      hd1, Bool.not_true, Bool.false_eq_true, if_false, hren, run_pure,
      List.nil_append, List.append_nil]
  refine ⟨hrunv, fun q hq => ?_, ?_⟩
  · rw [hrunf]
    apply hF1
    intro hm
    exact Bool.false_ne_true ((hsepAnc q hm).symm.trans hq)
  · rw [hrunf, hF1 _ hdstanc]
    exact htarget

/-- Concrete instantiation of the amended C1 theorem: env/target sits
on device 0, the cache on device 1; StoreToCache propagates the
cross-device error, leaves the cache target absent and the working
copy untouched. -/
theorem storeToCache_crossDevice_noFallback_witness :
    (StoreToCache ⟨[(["cache"], 1)], [], [], 50⟩
        ⟨"cargo", "k1", ["cache", "root", "cargo", "k1"], [["env", "target"]], false⟩
        [(["env"], FNode.dir), (["env", "target"], FNode.dir),
         (["env", "target", "a.txt"], FNode.file [1] 5)]).val =
      .error (.wrapped "failed to move to cache" Err.crossDevice) ∧
    (∀ q, (["env", "target"] : Path).isPrefixOf q = true →
      fsFind (StoreToCache ⟨[(["cache"], 1)], [], [], 50⟩
        ⟨"cargo", "k1", ["cache", "root", "cargo", "k1"], [["env", "target"]], false⟩
        [(["env"], FNode.dir), (["env", "target"], FNode.dir),
         (["env", "target", "a.txt"], FNode.file [1] 5)]).fs q =
      fsFind [(["env"], FNode.dir), (["env", "target"], FNode.dir),
         (["env", "target", "a.txt"], FNode.file [1] 5)] q) ∧
    fsFind (StoreToCache ⟨[(["cache"], 1)], [], [], 50⟩
        ⟨"cargo", "k1", ["cache", "root", "cargo", "k1"], [["env", "target"]], false⟩
        [(["env"], FNode.dir), (["env", "target"], FNode.dir),
         (["env", "target", "a.txt"], FNode.file [1] 5)]).fs
      (["cache", "root", "cargo", "k1"] ++ [pathBase ["env", "target"]]) = none :=
  storeToCache_crossDevice_noFallback ⟨[(["cache"], 1)], [], [], 50⟩
    ⟨"cargo", "k1", ["cache", "root", "cargo", "k1"], [["env", "target"]], false⟩
    ["env", "target"]
    [(["env"], FNode.dir), (["env", "target"], FNode.dir),
     (["env", "target", "a.txt"], FNode.file [1] 5)]
    rfl (by decide) (by decide) (by decide) (by decide) (by decide)

/-- C1 counterexample: a cross-device rename during StoreToCache is not
completed via the copy-then-remove fallback: the store returns the
wrapped cross-device error and the cache target does not exist (the
working copy does remain intact, because the rename failed before
moving anything). -/
theorem storeToCache_crossDevice_cex :
    (StoreToCache ⟨[(["cache"], 1)], [], [], 50⟩
        ⟨"cargo", "k1", ["cache", "root", "cargo", "k1"], [["env", "target"]], false⟩
        [(["env"], FNode.dir), (["env", "target"], FNode.dir),
         (["env", "target", "a.txt"], FNode.file [1] 5)]).val =
      .error (.wrapped "failed to move to cache" Err.crossDevice) ∧
    fsFind (StoreToCache ⟨[(["cache"], 1)], [], [], 50⟩
        ⟨"cargo", "k1", ["cache", "root", "cargo", "k1"], [["env", "target"]], false⟩
        [(["env"], FNode.dir), (["env", "target"], FNode.dir),
         (["env", "target", "a.txt"], FNode.file [1] 5)]).fs
      ["cache", "root", "cargo", "k1", "target"] = none ∧
    fsFind (StoreToCache ⟨[(["cache"], 1)], [], [], 50⟩
        ⟨"cargo", "k1", ["cache", "root", "cargo", "k1"], [["env", "target"]], false⟩
        [(["env"], FNode.dir), (["env", "target"], FNode.dir),
         (["env", "target", "a.txt"], FNode.file [1] 5)]).fs
      ["env", "target", "a.txt"] = some (FNode.file [1] 5) := by
  exact ⟨by decide, by decide, by decide⟩

/-! ## Claim C2: the per-entry lock discipline -/

def isLockEvt : Evt → Bool
  | .lockAcqE _ _ => true
  | .lockRelE _ => true
  | _ => false

/-- A trace with no flock traffic at all. -/
def noLockEvts (tr : List Evt) : Bool :=
  tr.all (fun e => !isLockEvt e)

/-- An event that mutates the entry directory (the entry itself or
anything below it). -/
def evtTouches (cachePath : Path) : Evt → Bool
  | .mkdirE p => cachePath.isPrefixOf p
  | .writeE p _ => cachePath.isPrefixOf p
  | .removeE p => cachePath.isPrefixOf p
  | .chtimesE p _ => cachePath.isPrefixOf p
  | .renameE src dst => cachePath.isPrefixOf src || cachePath.isPrefixOf dst
  | .lockAcqE _ _ => false
  | .lockRelE _ => false

/-- Lock state after replaying a trace, tracking only the entry lock. -/
def heldAfter (cachePath : Path) : List Evt → Bool → Bool
  | [], h => h
  | e :: rest, h =>
    match e with
    | .lockAcqE p ok =>
      heldAfter cachePath rest (if p = lockPathOf cachePath then ok else h)
    | .lockRelE p =>
      heldAfter cachePath rest (if p = lockPathOf cachePath then false else h)
    | _ => heldAfter cachePath rest h

/-- The lock discipline over a trace: every event that mutates the
entry directory happens while the entry lock is held. -/
def lockCheck (cachePath : Path) : List Evt → Bool → Bool
  | [], _ => true
  | e :: rest, held =>
    match e with
    | .lockAcqE p ok =>
      lockCheck cachePath rest (if p = lockPathOf cachePath then ok else held)
    | .lockRelE p =>
      lockCheck cachePath rest (if p = lockPathOf cachePath then false else held)
    | _ => (!evtTouches cachePath e || held) && lockCheck cachePath rest held

theorem noLockEvts_append (t1 t2 : List Evt) :
    noLockEvts (t1 ++ t2) = (noLockEvts t1 && noLockEvts t2) := by
  simp [noLockEvts, List.all_append]

theorem heldAfter_append (cp : Path) (t1 t2 : List Evt) :
    ∀ h, heldAfter cp (t1 ++ t2) h = heldAfter cp t2 (heldAfter cp t1 h) := by
  induction t1 with
  | nil => intro h; rfl
  | cons e rest ih =>
    intro h
    cases e <;> simp [heldAfter, ih]

theorem lockCheck_append (cp : Path) (t1 t2 : List Evt) :
    ∀ h, lockCheck cp (t1 ++ t2) h =
      (lockCheck cp t1 h && lockCheck cp t2 (heldAfter cp t1 h)) := by
  induction t1 with
  | nil => intro h; rfl
  | cons e rest ih =>
    intro h
    cases e <;> simp [lockCheck, heldAfter, ih, Bool.and_assoc]

theorem heldAfter_of_noLock (cp : Path) (tr : List Evt) :
    noLockEvts tr = true → ∀ h, heldAfter cp tr h = h := by
  induction tr with
  | nil => intro _ h; rfl
  | cons e rest ih =>
    intro hl h
    rw [noLockEvts, List.all_cons, Bool.and_eq_true] at hl
    cases e <;> simp only [heldAfter] <;>
      first
        | exact ih hl.2 h
        | (exact absurd hl.1 (by simp [isLockEvt]))

theorem lockCheck_of_noLock_held (cp : Path) (tr : List Evt) :
    noLockEvts tr = true → lockCheck cp tr true = true := by
  induction tr with
  | nil => intro _; rfl
  | cons e rest ih =>
    intro hl
    rw [noLockEvts, List.all_cons, Bool.and_eq_true] at hl
    cases e <;> simp only [lockCheck, Bool.or_true, Bool.true_and] <;>
      first
        | exact ih hl.2
        | (exact absurd hl.1 (by simp [isLockEvt]))

theorem lockCheck_of_clean (cp : Path) (tr : List Evt)
    (hc : ∀ e ∈ tr, isLockEvt e = false ∧ evtTouches cp e = false) :
    ∀ h, lockCheck cp tr h = true ∧ heldAfter cp tr h = h := by
  induction tr with
  | nil => intro h; exact ⟨rfl, rfl⟩
  | cons e rest ih =>
    intro h
    have he := hc e (List.mem_cons_self _ _)
    have hrest : ∀ e ∈ rest, isLockEvt e = false ∧ evtTouches cp e = false :=
      fun x hx => hc x (List.mem_cons_of_mem _ hx)
    cases e with
    | lockAcqE p ok => exact absurd he.1 (by simp [isLockEvt])
    | lockRelE p => exact absurd he.1 (by simp [isLockEvt])
    | mkdirE p =>
      refine ⟨?_, (ih hrest h).2⟩
      simp only [lockCheck, he.2, Bool.not_false, Bool.true_or, Bool.true_and]
      exact (ih hrest h).1
    | writeE p n =>
      refine ⟨?_, (ih hrest h).2⟩
      simp only [lockCheck, he.2, Bool.not_false, Bool.true_or, Bool.true_and]
      exact (ih hrest h).1
    | removeE p =>
      refine ⟨?_, (ih hrest h).2⟩
      simp only [lockCheck, he.2, Bool.not_false, Bool.true_or, Bool.true_and]
      exact (ih hrest h).1
    | renameE a b =>
      refine ⟨?_, (ih hrest h).2⟩
      simp only [lockCheck, he.2, Bool.not_false, Bool.true_or, Bool.true_and]
      exact (ih hrest h).1
    | chtimesE p t =>
      refine ⟨?_, (ih hrest h).2⟩
      simp only [lockCheck, he.2, Bool.not_false, Bool.true_or, Bool.true_and]
      exact (ih hrest h).1

theorem isPrefixOf_false_of_length_lt (p q : Path) (h : q.length < p.length) :
    p.isPrefixOf q = false := by
  cases hp : p.isPrefixOf q with
  | false => rfl
  | true =>
    have heq := eq_append_drop_of_isPrefixOf p q hp
    have hlen := congrArg List.length heq
    rw [List.length_append] at hlen
    omega

theorem isPrefixOf_lockPathOf_false (cp : Path) (hne : cp ≠ []) :
    cp.isPrefixOf (lockPathOf cp) = false := by
  cases hp : cp.isPrefixOf (lockPathOf cp) with
  | false => rfl
  | true =>
    have heq := eq_append_drop_of_isPrefixOf cp (lockPathOf cp) hp
    have hlen := lockPathOf_length cp hne
    rw [← hlen] at heq
    rw [List.drop_length, List.append_nil] at heq
    exact absurd heq.symm (lockPathOf_ne_self cp hne)

theorem noLockTr_bind2 {α β : Type} (m : CacheM α) (f : α → CacheM β) (g : FsMap)
    (h1 : noLockEvts (m g).tr = true)
    (h2 : ∀ a s, noLockEvts (f a s).tr = true) :
    noLockEvts ((m >>= f) g).tr = true := by
  show noLockEvts ((m g).tr ++ (f (m g).val (m g).fs).tr) = true
  rw [noLockEvts_append, h1, h2]
  rfl

theorem noLockEvts_mkdirAllGo (ps : List Path) :
    ∀ g, noLockEvts (mkdirAllGo ps g).tr = true := by
  induction ps with
  | nil => intro g; rfl
  | cons q rest ih =>
    intro g
    simp only [mkdirAllGo]
    refine noLockTr_bind2 _ _ _ rfl ?_
    intro a s
    cases hf : fsFind a q with
    | none =>
      simp only [hf]
      refine noLockTr_bind2 _ _ _ rfl ?_
      intro u s2
      exact ih s2
    | some n =>
      cases n with
      | dir => simp only [hf]; exact ih s
      | file c m => simp only [hf]; rfl

theorem noLockEvts_osRename (sys : Sys) (src dst : Path) (g : FsMap) :
    noLockEvts (osRename sys src dst g).tr = true := by
  rw [osRename]
  refine noLockTr_bind2 _ _ _ rfl ?_
  intro a s
  cases hf : fsFind a src with
  | none => simp only [hf]; rfl
  | some n =>
    simp only [hf]
    by_cases hd : devOf sys src ≠ devOf sys dst
    · rw [if_pos hd]; rfl
    · rw [if_neg hd]
      cases n with
      | file c m =>
        cases hfd : fsFind a dst with
        | none => simp only [hfd]; rfl
        | some m2 =>
          cases m2 with
          | dir => simp only [hfd]; rfl
          | file c2 m3 => simp only [hfd]; rfl
      | dir =>
        cases hfd : fsFind a dst with
        | none => simp only [hfd]; rfl
        | some m2 =>
          cases m2 with
          | file c2 m3 => simp only [hfd]; rfl
          | dir =>
            simp only [hfd]
            by_cases hsd : hasStrictDescendant a dst = true
            · rw [if_pos hsd]; rfl
            · rw [if_neg hsd]; rfl

theorem noLockEvts_osLink (sys : Sys) (src dst : Path) (g : FsMap) :
    noLockEvts (osLink sys src dst g).tr = true := by
  rw [osLink]
  refine noLockTr_bind2 _ _ _ rfl ?_
  intro a s
  cases hf : fsFind a src with
  | none => simp only [hf]; rfl
  | some n =>
    cases n with
    | dir => simp only [hf]; rfl
    | file c m =>
      simp only [hf]
      by_cases h1 : (fsFind a dst).isSome = true
      · rw [if_pos h1]; rfl
      · rw [if_neg h1]
        by_cases h2 : devOf sys src ≠ devOf sys dst
        · rw [if_pos h2]; rfl
        · rw [if_neg h2]; rfl

theorem noLockEvts_copyFileM (sys : Sys) (src dst : Path) (g : FsMap) :
    noLockEvts (copyFileM sys src dst g).tr = true := by
  rw [copyFileM]
  refine noLockTr_bind2 _ _ _ rfl ?_
  intro a s
  cases hf : fsFind a src with
  | none => simp only [hf]; rfl
  | some n =>
    cases n with
    | dir => simp only [hf]; rfl
    | file c m =>
      simp only [hf]
      cases hfd : fsFind a dst with
      | none => simp only [hfd]; rfl
      | some m2 =>
        cases m2 with
        | dir => simp only [hfd]; rfl
        | file c2 m3 => simp only [hfd]; rfl

theorem noLockEvts_removeAllM (p : Path) (g : FsMap) :
    noLockEvts (removeAllM p g).tr = true := rfl

theorem noLockEvts_chtimesM (p : Path) (t : Nat) (g : FsMap) :
    noLockEvts (chtimesM p t g).tr = true := by
  rw [chtimesM]
  refine noLockTr_bind2 _ _ _ rfl ?_
  intro a s
  cases hf : fsFind a p with
  | none => simp only [hf]; rfl
  | some n => simp only [hf]; rfl

theorem noLockEvts_walkFold (step : (Path × FNode) → CacheM (Except Err Unit))
    (hstep : ∀ e g, noLockEvts (step e g).tr = true) :
    ∀ es g, noLockEvts (walkFold step es g).tr = true := by
  intro es
  induction es with
  | nil => intro g; rfl
  | cons e rest ih =>
    intro g
    simp only [walkFold]
    refine noLockTr_bind2 _ _ _ (hstep e g) ?_
    intro a s
    cases a with
    | error err => rfl
    | ok u => exact ih s

theorem noLockEvts_hardlinkEntry (sys : Sys) (src dst : Path) (e : Path × FNode)
    (g : FsMap) : noLockEvts (hardlinkEntry sys src dst e g).tr = true := by
  obtain ⟨p1, n⟩ := e
  cases n with
  | dir => exact noLockEvts_mkdirAllGo _ _
  | file c m =>
    rw [hardlinkEntry]
    refine noLockTr_bind2 _ _ _ (noLockEvts_osLink _ _ _ _) ?_
    intro a s
    cases a with
    | ok u => rfl
    | error err =>
      cases err <;> first | rfl | exact noLockEvts_copyFileM _ _ _ _

theorem noLockEvts_HardlinkTree (sys : Sys) (src dst : Path) (g : FsMap) :
    noLockEvts (HardlinkTree sys src dst g).tr = true := by
  rw [HardlinkTree]
  refine noLockTr_bind2 _ _ _ rfl ?_
  intro a s
  cases hf : fsFind a src with
  | none => simp only [hf]; rfl
  | some n =>
    simp only [hf]
    exact noLockEvts_walkFold _ (noLockEvts_hardlinkEntry sys src dst) _ _

theorem noLockEvts_copyDirEntry (sys : Sys) (src dst : Path) (e : Path × FNode)
    (g : FsMap) : noLockEvts (copyDirEntry sys src dst e g).tr = true := by
  obtain ⟨p1, n⟩ := e
  cases n with
  | dir => exact noLockEvts_mkdirAllGo _ _
  | file c m => exact noLockEvts_copyFileM _ _ _ _

theorem noLockEvts_copyDirM (sys : Sys) (src dst : Path) (g : FsMap) :
    noLockEvts (copyDirM sys src dst g).tr = true := by
  rw [copyDirM]
  refine noLockTr_bind2 _ _ _ rfl ?_
  intro a s
  cases hf : fsFind a src with
  | none => simp only [hf]; rfl
  | some n =>
    simp only [hf]
    exact noLockEvts_walkFold _ (noLockEvts_copyDirEntry sys src dst) _ _

theorem noLockEvts_linkOrCopyFile (sys : Sys) (src dst : Path) (g : FsMap) :
    noLockEvts (linkOrCopyFile sys src dst g).tr = true := by
  rw [linkOrCopyFile]
  refine noLockTr_bind2 _ _ _ (noLockEvts_osLink _ _ _ _) ?_
  intro a s
  cases a with
  | ok u => rfl
  | error err =>
    cases err <;> first | rfl | exact noLockEvts_copyFileM _ _ _ _

theorem noLockEvts_storeLoop (sys : Sys) (cp : Path) :
    ∀ ps g, noLockEvts (storeLoop sys cp ps g).tr = true := by
  intro ps
  induction ps with
  | nil => intro g; rfl
  | cons p rest ih =>
    intro g
    simp only [storeLoop]
    refine noLockTr_bind2 _ _ _ rfl ?_
    intro d s
    cases d with
    | false =>
      simp only [Bool.not_false, eq_self_iff_true, if_true]
      exact ih s
    | true =>
      simp only [Bool.not_true, Bool.false_eq_true, if_false]
      refine noLockTr_bind2 _ _ _ (noLockEvts_osRename _ _ _ _) ?_
      intro r s2
      cases r with
      | error e => rfl
      | ok u =>
        refine noLockTr_bind2 _ _ _ (noLockEvts_HardlinkTree _ _ _ _) ?_
        intro r2 s3
        cases r2 with
        | error e => rfl
        | ok u2 => exact ih s3

theorem noLockEvts_StoreToCache (sys : Sys) (entry : ArtifactCacheEntry) (g : FsMap) :
    noLockEvts (StoreToCache sys entry g).tr = true := by
  rw [StoreToCache, mkdirAllM]
  refine noLockTr_bind2 _ _ _ (noLockEvts_mkdirAllGo _ _) ?_
  intro r s
  cases r with
  | error e => rfl
  | ok u => exact noLockEvts_storeLoop _ _ _ _

theorem noLockEvts_seedDirsLoop (dst : Path) :
    ∀ rels g, noLockEvts (seedDirsLoop dst rels g).tr = true := by
  intro rels
  induction rels with
  | nil => intro g; rfl
  | cons rel rest ih =>
    intro g
    simp only [seedDirsLoop, mkdirAllM]
    refine noLockTr_bind2 _ _ _ (noLockEvts_mkdirAllGo _ _) ?_
    intro r s
    cases r with
    | error e => rfl
    | ok u => exact ih s

theorem noLockEvts_seedFilesLoop (sys : Sys) (src dst : Path) :
    ∀ fl g, noLockEvts (seedFilesLoop sys src dst fl g).tr = true := by
  intro fl
  induction fl with
  | nil => intro g; rfl
  | cons e rest ih =>
    obtain ⟨rel, n⟩ := e
    intro g
    simp only [seedFilesLoop]
    refine noLockTr_bind2 _ _ _ (noLockEvts_linkOrCopyFile _ _ _ _) ?_
    intro r s
    cases r with
    | error e2 => rfl
    | ok u => exact ih s

theorem noLockEvts_seedDirectoryMain (sys : Sys) (src dst : Path) (opts : SeedOptionsM)
    (g : FsMap) : noLockEvts (seedDirectoryMain sys src dst opts g).tr = true := by
  rw [seedDirectoryMain]
  refine noLockTr_bind2 _ _ _ rfl ?_
  intro a s
  cases hw : walkCollect a src opts.artifactName with
  | error e => simp only [hw]; rfl
  | ok pr =>
    obtain ⟨dirs, files⟩ := pr
    simp only [hw]
    refine noLockTr_bind2 _ _ _ (noLockEvts_seedDirsLoop _ _ _) ?_
    intro r s2
    cases r with
    | error e => rfl
    | ok u => exact noLockEvts_seedFilesLoop _ _ _ _ _

theorem noLockEvts_SeedDirectory (sys : Sys) (src dst : Path) (opts : SeedOptionsM)
    (g : FsMap) : noLockEvts (SeedDirectory sys src dst opts g).tr = true := by
  rw [SeedDirectory]
  refine noLockTr_bind2 _ _ _ rfl ?_
  intro a s
  cases hl : opts.logger with
  | false =>
    simp only [hl, Bool.false_eq_true, if_false]
    exact noLockEvts_seedDirectoryMain _ _ _ _ _
  | true =>
    simp only [hl, eq_self_iff_true, if_true]
    cases hc : countFilesGo a src opts.artifactName with
    | error e => simp only [hc]; rfl
    | ok n => simp only [hc]; exact noLockEvts_seedDirectoryMain _ _ _ _ _

theorem noLockEvts_seedToCache (sys : Sys) (sp cp : Path) (an : String) (lg : Bool)
    (g : FsMap) : noLockEvts (seedToCache sys sp cp an lg g).tr = true := by
  rw [seedToCache, mkdirAllM]
  refine noLockTr_bind2 _ _ _ (noLockEvts_mkdirAllGo _ _) ?_
  intro r s
  cases r with
  | error e => rfl
  | ok u =>
    refine noLockTr_bind2 _ _ _ rfl ?_
    intro a s2
    by_cases hd : isDirAt a (cp ++ [pathBase sp]) = true
    · rw [if_pos hd]; rfl
    · rw [if_neg hd]; exact noLockEvts_SeedDirectory _ _ _ _ _

theorem noLockEvts_copyToCache (sys : Sys) (lp tc : Path) (hb : Bool) (g : FsMap) :
    noLockEvts (copyToCache sys lp tc hb g).tr = true := by
  rw [copyToCache]
  refine noLockTr_bind2 _ _ _ (noLockEvts_copyDirM _ _ _ _) ?_
  intro r s
  cases r with
  | error e => rfl
  | ok u =>
    cases hb with
    | true => simp only [eq_self_iff_true, if_true]; rfl
    | false =>
      simp only [Bool.false_eq_true, if_false]
      exact noLockEvts_removeAllM _ _

theorem noLockEvts_moveToCacheLocked (sys : Sys) (lp cp : Path) (hb : Bool) (g : FsMap) :
    noLockEvts (moveToCacheLocked sys lp cp hb g).tr = true := by
  rw [moveToCacheLocked]
  refine noLockTr_bind2 _ _ _ rfl ?_
  intro t s
  cases t with
  | true => simp only [eq_self_iff_true, if_true]; rfl
  | false =>
    simp only [Bool.false_eq_true, if_false, mkdirAllM]
    refine noLockTr_bind2 _ _ _ (noLockEvts_mkdirAllGo _ _) ?_
    intro r s2
    cases r with
    | error e => rfl
    | ok u =>
      refine noLockTr_bind2 _ _ _ (noLockEvts_osRename _ _ _ _) ?_
      intro r2 s3
      cases r2 with
      | error e =>
        cases hce : isCrossDeviceErr e with
        | true =>
          simp only [hce, eq_self_iff_true, if_true]
          exact noLockEvts_copyToCache _ _ _ _ _
        | false =>
          simp only [hce, Bool.false_eq_true, if_false]
          rfl
      | ok u2 =>
        cases hb with
        | false => simp only [Bool.false_eq_true, if_false]; rfl
        | true =>
          simp only [eq_self_iff_true, if_true]
          refine noLockTr_bind2 _ _ _ (noLockEvts_HardlinkTree _ _ _ _) ?_
          intro r3 s4
          cases r3 with
          | ok u3 => rfl
          | error e3 =>
            refine noLockTr_bind2 _ _ _ (noLockEvts_osRename _ _ _ _) ?_
            intro rec1 s5
            refine noLockTr_bind2 _ _ _ (noLockEvts_removeAllM _ _) ?_
            intro cl s6
            cases rec1 with
            | error e4 => rfl
            | ok u4 =>
              cases cl with
              | error e5 => rfl
              | ok u5 => rfl

theorem mkdirAllGo_tr_mem (ps : List Path) :
    ∀ g, ∀ e ∈ (mkdirAllGo ps g).tr, ∃ q ∈ ps, e = .mkdirE q := by
  induction ps with
  | nil => intro g e he; exact absurd he (List.not_mem_nil e)
  | cons q rest ih =>
    intro g e he
    cases hf : fsFind g q with
    | none =>
      have htr : (mkdirAllGo (q :: rest) g).tr =
          Evt.mkdirE q :: (mkdirAllGo rest (applyEvt g (.mkdirE q))).tr := by
        simp only [mkdirAllGo, run_bind, run_getFs, run_emit, hf, List.nil_append,
          List.singleton_append]
      rw [htr] at he
      rcases List.mem_cons.mp he with he1 | he2
      · exact ⟨q, List.mem_cons_self _ _, he1⟩
      · obtain ⟨q2, hq2, hq3⟩ := ih _ e he2
        exact ⟨q2, List.mem_cons_of_mem _ hq2, hq3⟩
    | some n =>
      cases n with
      | dir =>
        have htr : (mkdirAllGo (q :: rest) g).tr = (mkdirAllGo rest g).tr := by
          simp only [mkdirAllGo, run_bind, run_getFs, hf, List.nil_append]
        rw [htr] at he
        obtain ⟨q2, hq2, hq3⟩ := ih _ e he
        exact ⟨q2, List.mem_cons_of_mem _ hq2, hq3⟩
      | file c m =>
        have htr : (mkdirAllGo (q :: rest) g).tr = [] := by
          simp only [mkdirAllGo, run_bind, run_getFs, hf, run_pure, List.nil_append,
            List.append_nil]
        rw [htr] at he
        exact absurd he (List.not_mem_nil e)

theorem acquireCacheLock_lockCheck (sys : Sys) (cp : Path) (g : FsMap) (hne : cp ≠ []) :
    lockCheck cp (acquireCacheLock sys cp g).tr false = true ∧
    heldAfter cp (acquireCacheLock sys cp g).tr false =
      (match (acquireCacheLock sys cp g).val with
       | .ok (some _) => true
       | _ => false) := by
  have hclean : ∀ e ∈ (mkdirAllGo (pathAncestors (lockPathOf cp).dropLast) g).tr,
      isLockEvt e = false ∧ evtTouches cp e = false := by
    intro e he
    obtain ⟨q, hq, rfl⟩ := mkdirAllGo_tr_mem _ _ e he
    refine ⟨rfl, ?_⟩
    show cp.isPrefixOf q = false
    apply isPrefixOf_false_of_length_lt
    rw [lockPathOf_dropLast cp hne] at hq
    have h1 := length_le_of_mem_pathAncestors _ _ hq
    rw [List.length_dropLast] at h1
    have h2 : 0 < cp.length := List.length_pos.mpr hne
    omega
  obtain ⟨hck1, hha1⟩ := lockCheck_of_clean cp _ hclean false
  have hlpf : cp.isPrefixOf (lockPathOf cp) = false := isPrefixOf_lockPathOf_false cp hne
  simp only [acquireCacheLock, mkdirAllM, run_bind]
  rw [lockCheck_append, hck1, Bool.true_and, heldAfter_append, hha1]
  cases hv : (mkdirAllGo (pathAncestors (lockPathOf cp).dropLast) g).val with
  | error e => simp only [hv]; exact ⟨rfl, rfl⟩
  | ok u =>
    simp only [hv, run_bind, run_getFs]
    cases hf : fsFind (mkdirAllGo (pathAncestors (lockPathOf cp).dropLast) g).fs
        (lockPathOf cp) with
    | none =>
      simp only [hf, flockTry, run_bind, run_emit]
      cases hx : sys.extLocks.contains (lockPathOf cp) with
      | true =>
        simp only [hx, eq_self_iff_true, if_true]
        refine ⟨?_, ?_⟩ <;>
          simp [lockCheck, heldAfter, evtTouches, hlpf, run_pure]
      | false =>
        simp only [hx, Bool.false_eq_true, if_false]
        refine ⟨?_, ?_⟩ <;>
          simp [lockCheck, heldAfter, evtTouches, hlpf, run_pure]
    | some n =>
      cases n with
      | dir => simp only [hf]; exact ⟨rfl, rfl⟩
      | file c m =>
        simp only [hf, flockTry, run_bind, run_emit]
        cases hx : sys.extLocks.contains (lockPathOf cp) with
        | true =>
          simp only [hx, eq_self_iff_true, if_true]
          refine ⟨?_, ?_⟩ <;> simp [lockCheck, heldAfter, run_pure]
        | false =>
          simp only [hx, Bool.false_eq_true, if_false]
          refine ⟨?_, ?_⟩ <;> simp [lockCheck, heldAfter, run_pure]

/-- C2 (amended): of the three operations that write into a cache entry
directory, only moveToCache — the write path used by Sync — takes the
per-entry advisory lock: on every input its trace satisfies the lock
discipline (each event that mutates the entry occurs while <key>.lock
is held).  StoreToCache and seedToCache never interact with the lock at
all: their traces contain no flock events on any input. -/
theorem cacheLock_discipline :
    (∀ sys lp cp hb g, cp ≠ [] →
      lockCheck cp (moveToCache sys lp cp hb g).tr false = true) ∧
    (∀ sys (entry : ArtifactCacheEntry) g,
      noLockEvts (StoreToCache sys entry g).tr = true) ∧
    (∀ sys sp cp an lg g, noLockEvts (seedToCache sys sp cp an lg g).tr = true) := by
  refine ⟨?_, noLockEvts_StoreToCache, noLockEvts_seedToCache⟩
  intro sys lp cp hb g hne
  obtain ⟨ha1, ha2⟩ := acquireCacheLock_lockCheck sys cp g hne
  simp only [moveToCache, run_bind]
  rw [lockCheck_append, ha1, Bool.true_and, ha2]
  cases hv : (acquireCacheLock sys cp g).val with
  | error e => simp only [hv]; rfl
  | ok o =>
    cases o with
    | none => simp only [hv]; rfl
    | some lock =>
      simp only [hv, run_bind]
      rw [lockCheck_append,
        lockCheck_of_noLock_held cp _ (noLockEvts_moveToCacheLocked sys lp cp hb _),
        Bool.true_and,
        heldAfter_of_noLock cp _ (noLockEvts_moveToCacheLocked sys lp cp hb _)]
      rfl

/-- Concrete instantiation of the amended C2 theorem at a same-device
move of env/target into the cache entry cache/k1. -/
theorem cacheLock_discipline_witness :
    lockCheck ["cache", "k1"]
      (moveToCache ⟨[], [], [], 7⟩ ["env", "target"] ["cache", "k1"] false
        [(["env"], FNode.dir), (["env", "target"], FNode.dir)]).tr false = true :=
  cacheLock_discipline.1 ⟨[], [], [], 7⟩ ["env", "target"] ["cache", "k1"] false
    [(["env"], FNode.dir), (["env", "target"], FNode.dir)] (by decide)

/-- C2 counterexample: StoreToCache mutates the cache entry without the
per-entry lock: the run succeeds, its trace contains events touching
the entry directory but no flock events at all, and the lock
discipline check rejects the trace. -/
theorem storeToCache_noLock_cex :
    (StoreToCache ⟨[], [], [], 7⟩
        ⟨"cargo", "k1", ["cache", "k1"], [["env", "target"]], false⟩
        [(["env"], FNode.dir), (["env", "target"], FNode.dir),
         (["env", "target", "a.txt"], FNode.file [1] 5)]).val = .ok () ∧
    ((StoreToCache ⟨[], [], [], 7⟩
        ⟨"cargo", "k1", ["cache", "k1"], [["env", "target"]], false⟩
        [(["env"], FNode.dir), (["env", "target"], FNode.dir),
         (["env", "target", "a.txt"], FNode.file [1] 5)]).tr.any
      (evtTouches ["cache", "k1"])) = true ∧
    noLockEvts (StoreToCache ⟨[], [], [], 7⟩
        ⟨"cargo", "k1", ["cache", "k1"], [["env", "target"]], false⟩
        [(["env"], FNode.dir), (["env", "target"], FNode.dir),
         (["env", "target", "a.txt"], FNode.file [1] 5)]).tr = true ∧
    lockCheck ["cache", "k1"] (StoreToCache ⟨[], [], [], 7⟩
        ⟨"cargo", "k1", ["cache", "k1"], [["env", "target"]], false⟩
        [(["env"], FNode.dir), (["env", "target"], FNode.dir),
         (["env", "target", "a.txt"], FNode.file [1] 5)]).tr false = false := by
  exact ⟨by decide, by decide, by decide, by decide⟩

/-! ## Claim C3: atomic publication of cache entries -/

theorem acquireCacheLock_tr_mem (sys : Sys) (cp : Path) (g : FsMap) :
    ∀ e ∈ (acquireCacheLock sys cp g).tr,
      (∃ q ∈ pathAncestors (lockPathOf cp).dropLast, e = .mkdirE q) ∨
      (∃ n, e = .writeE (lockPathOf cp) n) ∨
      (∃ b, e = .lockAcqE (lockPathOf cp) b) := by
  intro e he
  simp only [acquireCacheLock, mkdirAllM, run_bind] at he
  rw [List.mem_append] at he
  rcases he with he | he
  · exact .inl (mkdirAllGo_tr_mem _ _ e he)
  · cases hv : (mkdirAllGo (pathAncestors (lockPathOf cp).dropLast) g).val with
    | error e2 =>
      rw [hv] at he
      exact absurd he (List.not_mem_nil e)
    | ok u =>
      rw [hv] at he
      simp only [run_bind, run_getFs, List.nil_append] at he
      cases hf : fsFind (mkdirAllGo (pathAncestors (lockPathOf cp).dropLast) g).fs
          (lockPathOf cp) with
      | none =>
        rw [hf] at he
        simp only [flockTry, run_bind, run_emit] at he
        cases hx : sys.extLocks.contains (lockPathOf cp) with
        | true =>
          rw [hx] at he
          simp only [eq_self_iff_true, if_true, run_bind, run_emit, run_pure,
            List.append_nil, List.singleton_append, List.mem_cons,
            List.not_mem_nil, or_false] at he
          rcases he with he | he
          · exact .inr (.inl ⟨_, he⟩)
          · exact .inr (.inr ⟨false, he⟩)
        | false =>
          rw [hx] at he
          simp only [Bool.false_eq_true, if_false, run_bind, run_emit, run_pure,
            List.append_nil, List.singleton_append, List.mem_cons,
            List.not_mem_nil, or_false] at he
          rcases he with he | he
          · exact .inr (.inl ⟨_, he⟩)
          · exact .inr (.inr ⟨true, he⟩)
      | some n =>
        cases n with
        | dir =>
          rw [hf] at he
          exact absurd he (List.not_mem_nil e)
        | file c m =>
          rw [hf] at he
          simp only [flockTry, run_bind, run_emit, run_pure, List.append_nil,
            List.mem_singleton] at he
          cases hx : sys.extLocks.contains (lockPathOf cp) with
          | true =>
            rw [hx] at he
            simp only [eq_self_iff_true, if_true, run_bind, run_emit, run_pure,
              List.append_nil, List.mem_singleton] at he
            exact .inr (.inr ⟨false, he⟩)
          | false =>
            rw [hx] at he
            simp only [Bool.false_eq_true, if_false, run_bind, run_emit, run_pure,
              List.append_nil, List.mem_singleton] at he
            exact .inr (.inr ⟨true, he⟩)

/-- C3 (amended): the rename path of moveToCache publishes the entry
atomically: the only event of the whole run that touches
<cache_path>/<basename> is the single rename, whose completion makes
the full source tree appear there — an observer of that directory sees
either nothing or the complete tree.  The in-place writers seedToCache
and copyToCache do not have this property. -/
theorem moveToCache_publishAtomic (sys : Sys) (localPath cachePath : Path) (g : FsMap)
    (hne : cachePath ≠ [])
    (hanc : ∀ q ∈ pathAncestors cachePath, isFileAt g q = false)
    (hlockfile : fsFind g (lockPathOf cachePath) = none)
    (hext : sys.extLocks.contains (lockPathOf cachePath) = false)
    (htarget : fsFind g (cachePath ++ [pathBase localPath]) = none)
    (hlocaldir : isDirAt g localPath = true)
    (hdev : devOf sys localPath = devOf sys (cachePath ++ [pathBase localPath]))
    (hsepAnc : ∀ q ∈ pathAncestors cachePath, localPath.isPrefixOf q = false)
    (hsepLock : localPath.isPrefixOf (lockPathOf cachePath) = false) :
    (moveToCache sys localPath cachePath false g).val = .ok () ∧
    (moveToCache sys localPath cachePath false g).tr.filter
        (evtTouches (cachePath ++ [pathBase localPath])) =
      [.renameE localPath (cachePath ++ [pathBase localPath])] ∧
    ∀ rel, fsFind (moveToCache sys localPath cachePath false g).fs
        (cachePath ++ [pathBase localPath] ++ rel) = fsFind g (localPath ++ rel) := by
  have hanc2 : ∀ q ∈ pathAncestors cachePath, ∀ c m, fsFind g q ≠ some (.file c m) :=
    fun q hq => not_file_of_isFileAt_false g q (hanc q hq)
  have hsep : ∀ q, localPath.isPrefixOf q = true →
      q ∉ pathAncestors cachePath ∧ q ≠ lockPathOf cachePath := by
    intro q hq
    refine ⟨fun hm => ?_, fun heq => ?_⟩
    · rw [hsepAnc q hm] at hq
      exact Bool.false_ne_true hq
    · rw [heq, hsepLock] at hq
      exact Bool.false_ne_true hq
  obtain ⟨hMv, hMtr, hMch⟩ := moveToCache_run sys localPath cachePath g hne hanc2
    hlockfile hext htarget hlocaldir hdev hsep
  refine ⟨hMv, ?_, hMch⟩
  have hlen : (cachePath ++ [pathBase localPath]).length = cachePath.length + 1 := by
    simp
  have hfa : (acquireCacheLock sys cachePath g).tr.filter
      (evtTouches (cachePath ++ [pathBase localPath])) = [] := by
    rw [List.filter_eq_nil]
    intro e he
    rcases acquireCacheLock_tr_mem sys cachePath g e he with
      ⟨q, hq, rfl⟩ | ⟨n, rfl⟩ | ⟨b, rfl⟩
    · rw [lockPathOf_dropLast cachePath hne] at hq
      have h1 := length_le_of_mem_pathAncestors _ _ hq
      rw [List.length_dropLast] at h1
      have hlt : q.length < (cachePath ++ [pathBase localPath]).length := by
        rw [hlen]; omega
      intro hc
      simp only [evtTouches] at hc
      rw [isPrefixOf_false_of_length_lt _ _ hlt] at hc
      exact Bool.false_ne_true hc
    · have hlt : (lockPathOf cachePath).length <
          (cachePath ++ [pathBase localPath]).length := by
        rw [hlen, lockPathOf_length cachePath hne]; omega
      intro hc
      simp only [evtTouches] at hc
      rw [isPrefixOf_false_of_length_lt _ _ hlt] at hc
      exact Bool.false_ne_true hc
    · exact fun hc => Bool.false_ne_true hc
  have hfb : (mkdirAllGo (pathAncestors cachePath)
      (acquireCacheLock sys cachePath g).fs).tr.filter
      (evtTouches (cachePath ++ [pathBase localPath])) = [] := by
    rw [List.filter_eq_nil]
    intro e he
    obtain ⟨q, hq, rfl⟩ := mkdirAllGo_tr_mem _ _ e he
    have h1 := length_le_of_mem_pathAncestors _ _ hq
    have hlt : q.length < (cachePath ++ [pathBase localPath]).length := by
      rw [hlen]; omega
    intro hc
    simp only [evtTouches] at hc
    rw [isPrefixOf_false_of_length_lt _ _ hlt] at hc
    exact Bool.false_ne_true hc
  have h1 : evtTouches (cachePath ++ [pathBase localPath])
      (Evt.renameE localPath (cachePath ++ [pathBase localPath])) = true := by
    show (_ || _) = true
    rw [isPrefixOf_self, Bool.or_true]
  have h2 : evtTouches (cachePath ++ [pathBase localPath])
      (Evt.lockRelE (lockPathOf cachePath)) = false := rfl
  rw [hMtr, List.filter_append, List.filter_append, hfa, hfb, List.nil_append,
    List.nil_append]
  simp [List.filter_cons, h1, h2]

/-- Concrete instantiation of the amended C3 theorem: moving env/target
into entry cache/e1 touches the published directory with exactly one
rename. -/
theorem moveToCache_publishAtomic_witness :
    (moveToCache ⟨[], [], [], 9⟩ ["env", "target"] ["cache", "e1"] false
        [(["env"], FNode.dir), (["env", "target"], FNode.dir),
         (["env", "target", "b.txt"], FNode.file [2] 4)]).val = .ok () ∧
    (moveToCache ⟨[], [], [], 9⟩ ["env", "target"] ["cache", "e1"] false
        [(["env"], FNode.dir), (["env", "target"], FNode.dir),
         (["env", "target", "b.txt"], FNode.file [2] 4)]).tr.filter
        (evtTouches (["cache", "e1"] ++ [pathBase ["env", "target"]])) =
      [.renameE ["env", "target"] (["cache", "e1"] ++ [pathBase ["env", "target"]])] ∧
    ∀ rel, fsFind (moveToCache ⟨[], [], [], 9⟩ ["env", "target"] ["cache", "e1"] false
        [(["env"], FNode.dir), (["env", "target"], FNode.dir),
         (["env", "target", "b.txt"], FNode.file [2] 4)]).fs
        (["cache", "e1"] ++ [pathBase ["env", "target"]] ++ rel) =
      fsFind [(["env"], FNode.dir), (["env", "target"], FNode.dir),
         (["env", "target", "b.txt"], FNode.file [2] 4)] (["env", "target"] ++ rel) :=
  moveToCache_publishAtomic ⟨[], [], [], 9⟩ ["env", "target"] ["cache", "e1"]
    [(["env"], FNode.dir), (["env", "target"], FNode.dir),
     (["env", "target", "b.txt"], FNode.file [2] 4)]
    (by decide) (by decide) (by decide) (by decide) (by decide) (by decide)
    (by decide) (by decide) (by decide)

/-- C3 counterexample: seedToCache (the SeedFromRoot write path)
materializes the entry in place, not atomically: replaying the first
four of its five events yields an observable entry directory
cache/k1/target that already holds f1 but still lacks f2, while the
finished run does publish f2 there — an observer can see a partially
populated entry. -/
theorem seedToCache_partialEntry_cex :
    (seedToCache ⟨[], [], [], 7⟩ ["root", "target"] ["cache", "k1"] "cargo" false
        [(["root"], FNode.dir), (["root", "target"], FNode.dir),
         (["root", "target", "f1"], FNode.file [1] 2),
         (["root", "target", "f2"], FNode.file [2] 3)]).val = .ok () ∧
    isDirAt (replayEvts
        [(["root"], FNode.dir), (["root", "target"], FNode.dir),
         (["root", "target", "f1"], FNode.file [1] 2),
         (["root", "target", "f2"], FNode.file [2] 3)]
        ((seedToCache ⟨[], [], [], 7⟩ ["root", "target"] ["cache", "k1"] "cargo" false
          [(["root"], FNode.dir), (["root", "target"], FNode.dir),
           (["root", "target", "f1"], FNode.file [1] 2),
           (["root", "target", "f2"], FNode.file [2] 3)]).tr.take 4))
      ["cache", "k1", "target"] = true ∧
    fsFind (replayEvts
        [(["root"], FNode.dir), (["root", "target"], FNode.dir),
         (["root", "target", "f1"], FNode.file [1] 2),
         (["root", "target", "f2"], FNode.file [2] 3)]
        ((seedToCache ⟨[], [], [], 7⟩ ["root", "target"] ["cache", "k1"] "cargo" false
          [(["root"], FNode.dir), (["root", "target"], FNode.dir),
           (["root", "target", "f1"], FNode.file [1] 2),
           (["root", "target", "f2"], FNode.file [2] 3)]).tr.take 4))
      ["cache", "k1", "target", "f2"] = none ∧
    fsFind (seedToCache ⟨[], [], [], 7⟩ ["root", "target"] ["cache", "k1"] "cargo" false
        [(["root"], FNode.dir), (["root", "target"], FNode.dir),
         (["root", "target", "f1"], FNode.file [1] 2),
         (["root", "target", "f2"], FNode.file [2] 3)]).fs
      ["cache", "k1", "target", "f2"] = some (FNode.file [2] 3) := by
  exact ⟨by decide, by decide, by decide, by decide⟩

/-! ## Claim C7: post-restore state -/

theorem osLink_cases (sys : Sys) (a b : Path) (s : FsMap) :
    ((osLink sys a b s).val = .ok () ∧
      ∃ c m, (osLink sys a b s).fs = applyEvt s (.writeE b (.file c m))) ∨
    ((osLink sys a b s).fs = s ∧
      ((osLink sys a b s).val = .error .alreadyExists → (fsFind s b).isSome = true) ∧
      ∃ e, (osLink sys a b s).val = .error e) := by
  cases hf : fsFind s a with
  | none =>
    refine .inr ⟨?_, fun hc => ?_, .notExist, ?_⟩
    · simp only [osLink, run_bind, run_getFs, hf, run_pure]
    · exfalso
      have hv : (osLink sys a b s).val = .error .notExist := by
        simp only [osLink, run_bind, run_getFs, hf, run_pure]
      rw [hv] at hc
      exact absurd hc (by simp)
    · simp only [osLink, run_bind, run_getFs, hf, run_pure]
  | some n =>
    cases n with
    | dir =>
      refine .inr ⟨?_, fun hc => ?_, .isDirErr, ?_⟩
      · simp only [osLink, run_bind, run_getFs, hf, run_pure]
      · exfalso
        have hv : (osLink sys a b s).val = .error .isDirErr := by
          simp only [osLink, run_bind, run_getFs, hf, run_pure]
        rw [hv] at hc
        exact absurd hc (by simp)
      · simp only [osLink, run_bind, run_getFs, hf, run_pure]
    | file c m =>
      by_cases h1 : (fsFind s b).isSome = true
      · refine .inr ⟨?_, fun _ => h1, .alreadyExists, ?_⟩ <;>
          simp only [osLink, run_bind, run_getFs, hf, if_pos h1, run_pure]
      · by_cases h2 : devOf sys a ≠ devOf sys b
        · refine .inr ⟨?_, fun hc => ?_, .crossDevice, ?_⟩
          · simp only [osLink, run_bind, run_getFs, hf, if_neg h1, if_pos h2, run_pure]
          · exfalso
            have hv : (osLink sys a b s).val = .error .crossDevice := by
              simp only [osLink, run_bind, run_getFs, hf, if_neg h1, if_pos h2, run_pure]
            rw [hv] at hc
            exact absurd hc (by simp)
          · simp only [osLink, run_bind, run_getFs, hf, if_neg h1, if_pos h2, run_pure]
        · refine .inl ⟨?_, c, m, ?_⟩ <;>
            simp only [osLink, run_bind, run_getFs, hf, if_neg h1, if_neg h2, run_emit,
              run_pure]

theorem copyFileM_cases (sys : Sys) (a b : Path) (s : FsMap) :
    ((copyFileM sys a b s).val = .ok () ∧
      ∃ c, (copyFileM sys a b s).fs = applyEvt s (.writeE b (.file c sys.now))) ∨
    ((copyFileM sys a b s).fs = s ∧ ∃ e, (copyFileM sys a b s).val = .error e) := by
  cases hf : fsFind s a with
  | none =>
    refine .inr ⟨?_, .notExist, ?_⟩ <;>
      simp only [copyFileM, run_bind, run_getFs, hf, run_pure]
  | some n =>
    cases n with
    | dir =>
      refine .inr ⟨?_, .isDirErr, ?_⟩ <;>
        simp only [copyFileM, run_bind, run_getFs, hf, run_pure]
    | file c m =>
      cases hfd : fsFind s b with
      | none =>
        refine .inl ⟨?_, c, ?_⟩ <;>
          simp only [copyFileM, run_bind, run_getFs, hf, hfd, run_emit, run_pure]
      | some n2 =>
        cases n2 with
        | dir =>
          refine .inr ⟨?_, .isDirErr, ?_⟩ <;>
            simp only [copyFileM, run_bind, run_getFs, hf, hfd, run_pure]
        | file c2 m2 =>
          refine .inl ⟨?_, c, ?_⟩ <;>
            simp only [copyFileM, run_bind, run_getFs, hf, hfd, run_emit, run_pure]

theorem linkOrCopyFile_cases (sys : Sys) (a b : Path) (s : FsMap) :
    ((linkOrCopyFile sys a b s).val = .ok () ∧
      (((linkOrCopyFile sys a b s).fs = s ∧ (fsFind s b).isSome = true) ∨
       ∃ c m, (linkOrCopyFile sys a b s).fs = applyEvt s (.writeE b (.file c m)))) ∨
    ((linkOrCopyFile sys a b s).fs = s ∧
      ∃ e, (linkOrCopyFile sys a b s).val = .error e) := by
  rcases osLink_cases sys a b s with ⟨hv, c, m, hfs⟩ | ⟨hfs, himp, e, hv⟩
  · refine .inl ⟨?_, .inr ⟨c, m, ?_⟩⟩ <;>
      simp only [linkOrCopyFile, run_bind, hv, hfs, run_pure]
  · cases e with
    | alreadyExists =>
      refine .inl ⟨?_, .inl ⟨?_, himp hv⟩⟩ <;>
        simp only [linkOrCopyFile, run_bind, hv, hfs, run_pure]
    | crossDevice =>
      rcases copyFileM_cases sys a b s with ⟨hv2, c, hfs2⟩ | ⟨hfs2, e2, hv2⟩
      · refine .inl ⟨?_, .inr ⟨c, sys.now, ?_⟩⟩ <;>
          simp only [linkOrCopyFile, run_bind, hv, hfs, hv2, hfs2]
      · refine .inr ⟨?_, e2, ?_⟩ <;>
          simp only [linkOrCopyFile, run_bind, hv, hfs, hfs2, hv2]
    | notExist =>
      refine .inr ⟨?_, .notExist, ?_⟩ <;>
        simp only [linkOrCopyFile, run_bind, hv, hfs, run_pure]
    | notDirOrNotEmpty =>
      refine .inr ⟨?_, .notDirOrNotEmpty, ?_⟩ <;>
        simp only [linkOrCopyFile, run_bind, hv, hfs, run_pure]
    | isDirErr =>
      refine .inr ⟨?_, .isDirErr, ?_⟩ <;>
        simp only [linkOrCopyFile, run_bind, hv, hfs, run_pure]
    | wrapped msg cause =>
      refine .inr ⟨?_, .wrapped msg cause, ?_⟩ <;>
        simp only [linkOrCopyFile, run_bind, hv, hfs, run_pure]
    | failMsg msg =>
      refine .inr ⟨?_, .failMsg msg, ?_⟩ <;>
        simp only [linkOrCopyFile, run_bind, hv, hfs, run_pure]

theorem isFileAt_writeE_file (s : FsMap) (b : Path) (c : List Nat) (m : Nat) (q : Path) :
    isFileAt (applyEvt s (.writeE b (.file c m))) q =
      if b = q then true else isFileAt s q := by
  rw [isFileAt, fsFind_writeE]
  by_cases h : b = q
  · rw [if_pos h, if_pos h]
  · rw [if_neg h, if_neg h, isFileAt]

theorem linkOrCopyFile_notDir (sys : Sys) (a b : Path) (s : FsMap) (q : Path)
    (h : fsFind s q ≠ some FNode.dir) :
    fsFind (linkOrCopyFile sys a b s).fs q ≠ some FNode.dir := by
  rcases linkOrCopyFile_cases sys a b s with ⟨_, hcase⟩ | ⟨hfs, _⟩
  · rcases hcase with ⟨hfs, _⟩ | ⟨c, m, hfs⟩
    · rw [hfs]; exact h
    · rw [hfs, fsFind_writeE]
      by_cases hbq : b = q
      · rw [if_pos hbq]; simp
      · rw [if_neg hbq]; exact h
  · rw [hfs]; exact h

theorem linkOrCopyFile_fileAt (sys : Sys) (a b : Path) (s : FsMap) (q : Path)
    (h : isFileAt s q = true) :
    isFileAt (linkOrCopyFile sys a b s).fs q = true := by
  rcases linkOrCopyFile_cases sys a b s with ⟨_, hcase⟩ | ⟨hfs, _⟩
  · rcases hcase with ⟨hfs, _⟩ | ⟨c, m, hfs⟩
    · rw [hfs]; exact h
    · rw [hfs, isFileAt_writeE_file]
      by_cases hbq : b = q
      · rw [if_pos hbq]
      · rw [if_neg hbq]; exact h
  · rw [hfs]; exact h

theorem linkOrCopyFile_success_file (sys : Sys) (a b : Path) (s : FsMap)
    (hnd : fsFind s b ≠ some FNode.dir)
    (hok : (linkOrCopyFile sys a b s).val = .ok ()) :
    isFileAt (linkOrCopyFile sys a b s).fs b = true := by
  rcases linkOrCopyFile_cases sys a b s with ⟨_, hcase⟩ | ⟨_, e, hv⟩
  · rcases hcase with ⟨hfs, hsome⟩ | ⟨c, m, hfs⟩
    · rw [hfs, isFileAt]
      cases hb : fsFind s b with
      | none => rw [hb] at hsome; simp at hsome
      | some n =>
        cases n with
        | dir => exact absurd hb hnd
        | file c m => rfl
    · rw [hfs, isFileAt_writeE_file, if_pos rfl]
  · rw [hv] at hok
    exact absurd hok (by simp)

theorem seedFilesLoop_pres (sys : Sys) (src dst : Path) :
    ∀ FL s q,
      (fsFind s q ≠ some FNode.dir →
        fsFind (seedFilesLoop sys src dst FL s).fs q ≠ some FNode.dir) ∧
      (isFileAt s q = true → isFileAt (seedFilesLoop sys src dst FL s).fs q = true) := by
  intro FL
  induction FL with
  | nil => intro s q; exact ⟨fun h => h, fun h => h⟩
  | cons e rest ih =>
    obtain ⟨rel, n⟩ := e
    intro s q
    constructor
    · intro h
      have h1 := linkOrCopyFile_notDir sys (src ++ rel) (dst ++ rel) s q h
      cases hv : (linkOrCopyFile sys (src ++ rel) (dst ++ rel) s).val with
      | error e2 =>
        simp only [seedFilesLoop, run_bind, hv, run_pure]
        exact h1
      | ok u =>
        simp only [seedFilesLoop, run_bind, hv]
        exact (ih _ q).1 h1
    · intro h
      have h1 := linkOrCopyFile_fileAt sys (src ++ rel) (dst ++ rel) s q h
      cases hv : (linkOrCopyFile sys (src ++ rel) (dst ++ rel) s).val with
      | error e2 =>
        simp only [seedFilesLoop, run_bind, hv, run_pure]
        exact h1
      | ok u =>
        simp only [seedFilesLoop, run_bind, hv]
        exact (ih _ q).2 h1

theorem seedFilesLoop_restores (sys : Sys) (src dst : Path) :
    ∀ FL s,
      (seedFilesLoop sys src dst FL s).val = .ok () →
      (∀ fr ∈ FL.map Prod.fst, fsFind s (dst ++ fr) ≠ some FNode.dir) →
      ∀ fr ∈ FL.map Prod.fst,
        isFileAt (seedFilesLoop sys src dst FL s).fs (dst ++ fr) = true := by
  intro FL
  induction FL with
  | nil =>
    intro s _ _ fr hfr
    rw [List.map_nil] at hfr
    exact absurd hfr (List.not_mem_nil fr)
  | cons e rest ih =>
    obtain ⟨rel, n⟩ := e
    intro s hok hnd fr hfr
    cases hv : (linkOrCopyFile sys (src ++ rel) (dst ++ rel) s).val with
    | error e2 =>
      simp only [seedFilesLoop, run_bind, hv, run_pure] at hok
      exact absurd hok (by simp)
    | ok u =>
      simp only [List.map_cons, List.mem_cons] at hfr
      rcases hfr with rfl | hmem
      · have hfile := linkOrCopyFile_success_file sys (src ++ fr) (dst ++ fr) s
          (hnd fr (by rw [List.map_cons]; exact List.mem_cons_self _ _)) hv
        simp only [seedFilesLoop, run_bind, hv]
        exact (seedFilesLoop_pres sys src dst rest _ (dst ++ fr)).2 hfile
      · have hok2 : (seedFilesLoop sys src dst rest
            ((linkOrCopyFile sys (src ++ rel) (dst ++ rel) s).fs)).val = .ok () := by
          simp only [seedFilesLoop, run_bind, hv] at hok
          exact hok
        have hnd2 : ∀ fr2 ∈ rest.map Prod.fst,
            fsFind ((linkOrCopyFile sys (src ++ rel) (dst ++ rel) s).fs) (dst ++ fr2) ≠
              some FNode.dir :=
          fun fr2 hm => linkOrCopyFile_notDir sys _ _ s _
            (hnd fr2 (by simp only [List.map_cons, List.mem_cons]; exact .inr hm))
        simp only [seedFilesLoop, run_bind, hv]
        exact ih _ hok2 hnd2 fr hmem

theorem mkdirAllGo_or (ps : List Path) :
    ∀ g q, fsFind (mkdirAllGo ps g).fs q = fsFind g q ∨
      (fsFind g q = none ∧ fsFind (mkdirAllGo ps g).fs q = some FNode.dir ∧ q ∈ ps) := by
  induction ps with
  | nil => intro g q; exact .inl rfl
  | cons p0 rest ih =>
    intro g q
    cases hf : fsFind g p0 with
    | none =>
      have hstep : applyEvt g (.mkdirE p0) = (p0, FNode.dir) :: g := by
        rw [applyEvt, hf]
        rfl
      have hrun : (mkdirAllGo (p0 :: rest) g).fs =
          (mkdirAllGo rest (applyEvt g (.mkdirE p0))).fs := by
        simp only [mkdirAllGo, run_bind, run_getFs, run_emit, hf]
      rw [hrun]
      rcases ih (applyEvt g (.mkdirE p0)) q with h | ⟨h1, h2, h3⟩
      · rw [h, hstep, fsFind_cons]
        by_cases hpq : p0 = q
        · right
          refine ⟨?_, ?_, hpq ▸ List.mem_cons_self _ _⟩
          · rw [← hpq]; exact hf
          · rw [if_pos hpq]
        · left
          rw [if_neg hpq]
      · right
        refine ⟨?_, h2, List.mem_cons_of_mem _ h3⟩
        rw [hstep, fsFind_cons] at h1
        by_cases hpq : p0 = q
        · rw [if_pos hpq] at h1
          exact absurd h1 (by simp)
        · rw [if_neg hpq] at h1
          exact h1
    | some n =>
      cases n with
      | dir =>
        have hrun : (mkdirAllGo (p0 :: rest) g).fs = (mkdirAllGo rest g).fs := by
          simp only [mkdirAllGo, run_bind, run_getFs, hf]
        rw [hrun]
        rcases ih g q with h | ⟨h1, h2, h3⟩
        · exact .inl h
        · exact .inr ⟨h1, h2, List.mem_cons_of_mem _ h3⟩
      | file c m =>
        have hrun : (mkdirAllGo (p0 :: rest) g).fs = g := by
          simp only [mkdirAllGo, run_bind, run_getFs, hf, run_pure]
        rw [hrun]
        exact .inl rfl

theorem seedDirsLoop_or (dst : Path) :
    ∀ drs g q, fsFind (seedDirsLoop dst drs g).fs q = fsFind g q ∨
      (fsFind g q = none ∧ fsFind (seedDirsLoop dst drs g).fs q = some FNode.dir ∧
       ∃ dr ∈ drs, q ∈ pathAncestors (dst ++ dr)) := by
  intro drs
  induction drs with
  | nil => intro g q; exact .inl rfl
  | cons dr rest ih =>
    intro g q
    cases hv : (mkdirAllGo (pathAncestors (dst ++ dr)) g).val with
    | error e =>
      have hrun : (seedDirsLoop dst (dr :: rest) g).fs =
          (mkdirAllGo (pathAncestors (dst ++ dr)) g).fs := by
        simp only [seedDirsLoop, mkdirAllM, run_bind, hv, run_pure]
      rw [hrun]
      rcases mkdirAllGo_or _ g q with h | ⟨h1, h2, h3⟩
      · exact .inl h
      · exact .inr ⟨h1, h2, dr, List.mem_cons_self _ _, h3⟩
    | ok u =>
      have hrun : (seedDirsLoop dst (dr :: rest) g).fs =
          (seedDirsLoop dst rest (mkdirAllGo (pathAncestors (dst ++ dr)) g).fs).fs := by
        simp only [seedDirsLoop, mkdirAllM, run_bind, hv]
      rw [hrun]
      rcases ih (mkdirAllGo (pathAncestors (dst ++ dr)) g).fs q with h | ⟨h1, h2, h3⟩
      · rcases mkdirAllGo_or (pathAncestors (dst ++ dr)) g q with hh | ⟨g1, g2, g3⟩
        · exact .inl (h.trans hh)
        · exact .inr ⟨g1, h.trans g2, dr, List.mem_cons_self _ _, g3⟩
      · rcases mkdirAllGo_or (pathAncestors (dst ++ dr)) g q with hh | ⟨g1, g2, g3⟩
        · refine .inr ⟨?_, h2, ?_⟩
          · rw [← hh]; exact h1
          · obtain ⟨dr2, hd2, hq2⟩ := h3
            exact ⟨dr2, List.mem_cons_of_mem _ hd2, hq2⟩
        · rw [g2] at h1
          exact absurd h1 (by simp)

theorem fsFind_chtimesE (fs : FsMap) (p : Path) (t : Nat) (q : Path) :
    fsFind (applyEvt fs (.chtimesE p t)) q =
      if p = q then (fsFind fs q).map (fun n => setTime n t) else fsFind fs q := by
  rw [applyEvt]
  induction fs with
  | nil =>
    by_cases h : p = q <;> simp [fsFind, h]
  | cons e rest ih =>
    obtain ⟨e1, en⟩ := e
    rw [List.map_cons]
    by_cases hep : e1 = p
    · have hb : (e1 == p) = true := by simp [hep]
      rw [hb]
      simp only [if_true]
      rw [fsFind_cons, fsFind_cons]
      by_cases h1 : e1 = q
      · have hpq : p = q := hep ▸ h1
        rw [if_pos h1, if_pos h1, if_pos hpq]
        rfl
      · have hpq : ¬ p = q := fun hh => h1 (hep.trans hh)
        rw [if_neg h1, if_neg h1, ih, if_neg hpq]
    · have hb : (e1 == p) = false := by simp [hep]
      rw [hb]
      simp only [Bool.false_eq_true, if_false]
      rw [fsFind_cons, fsFind_cons]
      by_cases h1 : e1 = q
      · by_cases hpq : p = q
        · exact absurd (hpq ▸ h1 : e1 = p) hep
        · rw [if_pos h1, if_pos h1, if_neg hpq]
      · rw [if_neg h1, if_neg h1, ih]

theorem isFileAt_chtimesE (fs : FsMap) (p : Path) (t : Nat) (q : Path) :
    isFileAt (applyEvt fs (.chtimesE p t)) q = isFileAt fs q := by
  rw [isFileAt, isFileAt, fsFind_chtimesE]
  by_cases h : p = q
  · rw [if_pos h]
    cases hf : fsFind fs q with
    | none => rfl
    | some n => cases n <;> rfl
  · rw [if_neg h]

theorem chtimesM_cases (p : Path) (t : Nat) (s : FsMap) :
    ((chtimesM p t s).val = .ok () ∧ ∃ n, fsFind s p = some n ∧
      (chtimesM p t s).fs = applyEvt s (.chtimesE p t)) ∨
    ((chtimesM p t s).fs = s ∧ (chtimesM p t s).val = .error .notExist) := by
  cases hf : fsFind s p with
  | none =>
    refine .inr ⟨?_, ?_⟩ <;>
      simp only [chtimesM, run_bind, run_getFs, hf, run_pure]
  | some n =>
    refine .inl ⟨?_, n, rfl, ?_⟩ <;>
      simp only [chtimesM, run_bind, run_getFs, hf, run_emit, run_pure]

theorem touchLoop_pres_file (now : Nat) :
    ∀ ps s q, isFileAt s q = true → isFileAt (touchLoop now ps s).fs q = true := by
  intro ps
  induction ps with
  | nil => intro s q h; exact h
  | cons p0 rest ih =>
    intro s q h
    rcases chtimesM_cases p0 now s with ⟨hv, n, hfp, hfs⟩ | ⟨hfs, hv⟩
    · have h2 : isFileAt (chtimesM p0 now s).fs q = true := by
        rw [hfs, isFileAt_chtimesE]
        exact h
      simp only [touchLoop, run_bind, hv]
      exact ih _ _ h2
    · simp only [touchLoop, run_bind, hv, run_pure]
      rw [hfs]
      exact h

theorem touchLoop_pres_now (now : Nat) :
    ∀ ps s q c, fsFind s q = some (.file c now) →
      fsFind (touchLoop now ps s).fs q = some (.file c now) := by
  intro ps
  induction ps with
  | nil => intro s q c h; exact h
  | cons p0 rest ih =>
    intro s q c h
    rcases chtimesM_cases p0 now s with ⟨hv, n, hfp, hfs⟩ | ⟨hfs, hv⟩
    · have h2 : fsFind (chtimesM p0 now s).fs q = some (.file c now) := by
        rw [hfs, fsFind_chtimesE]
        by_cases hpq : p0 = q
        · rw [if_pos hpq, h]
          rfl
        · rw [if_neg hpq]
          exact h
      simp only [touchLoop, run_bind, hv]
      exact ih _ _ _ h2
    · simp only [touchLoop, run_bind, hv, run_pure]
      rw [hfs]
      exact h

theorem touchLoop_touches (now : Nat) :
    ∀ ps s, (touchLoop now ps s).val = .ok () →
      (∀ p ∈ ps, isFileAt s p = true) →
      ∀ p ∈ ps, ∃ c, fsFind (touchLoop now ps s).fs p = some (.file c now) := by
  intro ps
  induction ps with
  | nil =>
    intro s _ _ p hp
    exact absurd hp (List.not_mem_nil p)
  | cons p0 rest ih =>
    intro s hok hfile p hp
    rcases chtimesM_cases p0 now s with ⟨hv, n, hfp, hfs⟩ | ⟨hfs, hv⟩
    · have hfile0 := hfile p0 (List.mem_cons_self _ _)
      rw [isFileAt, hfp] at hfile0
      cases n with
      | dir => exact absurd hfile0 (by simp)
      | file c m =>
        have hafter : fsFind (chtimesM p0 now s).fs p0 = some (.file c now) := by
          rw [hfs, fsFind_chtimesE, if_pos rfl, hfp]
          rfl
        rcases List.mem_cons.mp hp with rfl | hmem
        · refine ⟨c, ?_⟩
          simp only [touchLoop, run_bind, hv]
          exact touchLoop_pres_now now rest _ _ _ hafter
        · have hok2 : (touchLoop now rest (chtimesM p0 now s).fs).val = .ok () := by
            simp only [touchLoop, run_bind, hv] at hok
            exact hok
          have hfile2 : ∀ p2 ∈ rest, isFileAt (chtimesM p0 now s).fs p2 = true := by
            intro p2 hm
            rw [hfs, isFileAt_chtimesE]
            exact hfile p2 (List.mem_cons_of_mem _ hm)
          obtain ⟨c2, hc2⟩ := ih _ hok2 hfile2 p hmem
          refine ⟨c2, ?_⟩
          simp only [touchLoop, run_bind, hv]
          exact hc2
    · simp only [touchLoop, run_bind, hv, run_pure] at hok
      exact absurd hok (by simp)

theorem touchProfile_pres_file (sys : Sys) (td : Path) (prof : String) (s : FsMap)
    (q : Path) (h : isFileAt s q = true) :
    isFileAt (touchProfile sys td prof s).fs q = true := by
  cases hd : isDirAt s (td ++ [prof, ".fingerprint"]) with
  | true =>
    have hrun : (touchProfile sys td prof s).fs =
        (touchLoop sys.now (collectDepFiles s (td ++ [prof, ".fingerprint"])) s).fs := by
      simp only [touchProfile, run_bind, run_getFs, hd, Bool.not_true, Bool.false_eq_true,
        if_false, touchDepFilesParallel]
    rw [hrun]
    exact touchLoop_pres_file _ _ _ _ h
  | false =>
    have hrun : (touchProfile sys td prof s).fs = s := by
      simp only [touchProfile, run_bind, run_getFs, hd, Bool.not_false, if_true, run_pure]
    rw [hrun]
    exact h

theorem touchProfile_pres_now (sys : Sys) (td : Path) (prof : String) (s : FsMap)
    (q : Path) (c : List Nat) (h : fsFind s q = some (.file c sys.now)) :
    fsFind (touchProfile sys td prof s).fs q = some (.file c sys.now) := by
  cases hd : isDirAt s (td ++ [prof, ".fingerprint"]) with
  | true =>
    have hrun : (touchProfile sys td prof s).fs =
        (touchLoop sys.now (collectDepFiles s (td ++ [prof, ".fingerprint"])) s).fs := by
      simp only [touchProfile, run_bind, run_getFs, hd, Bool.not_true, Bool.false_eq_true,
        if_false, touchDepFilesParallel]
    rw [hrun]
    exact touchLoop_pres_now _ _ _ _ _ h
  | false =>
    have hrun : (touchProfile sys td prof s).fs = s := by
      simp only [touchProfile, run_bind, run_getFs, hd, Bool.not_false, if_true, run_pure]
    rw [hrun]
    exact h

theorem touchProfile_touches (sys : Sys) (td : Path) (prof : String) (s : FsMap)
    (hok : (touchProfile sys td prof s).val = .ok ())
    (hd : isDirAt s (td ++ [prof, ".fingerprint"]) = true)
    (hfiles : ∀ p ∈ collectDepFiles s (td ++ [prof, ".fingerprint"]),
      isFileAt s p = true) :
    ∀ p ∈ collectDepFiles s (td ++ [prof, ".fingerprint"]),
      ∃ c, fsFind (touchProfile sys td prof s).fs p = some (.file c sys.now) := by
  have hrunv : (touchProfile sys td prof s).val =
      (touchLoop sys.now (collectDepFiles s (td ++ [prof, ".fingerprint"])) s).val := by
    simp only [touchProfile, run_bind, run_getFs, hd, Bool.not_true, Bool.false_eq_true,
      if_false, touchDepFilesParallel]
  have hrunf : (touchProfile sys td prof s).fs =
      (touchLoop sys.now (collectDepFiles s (td ++ [prof, ".fingerprint"])) s).fs := by
    simp only [touchProfile, run_bind, run_getFs, hd, Bool.not_true, Bool.false_eq_true,
      if_false, touchDepFilesParallel]
  rw [hrunv] at hok
  intro p hp
  obtain ⟨c, hc⟩ := touchLoop_touches sys.now _ s hok hfiles p hp
  exact ⟨c, hrunf ▸ hc⟩

theorem SeedDirectory_success (sys : Sys) (src dst : Path) (an : String) (lg : Bool)
    (sMid : FsMap) (dirs : List Path) (files : List (Path × FNode))
    (hwalk : walkCollect sMid src an = .ok (dirs, files))
    (hok : (SeedDirectory sys src dst ⟨an, lg⟩ sMid).val = .ok ()) :
    (SeedDirectory sys src dst ⟨an, lg⟩ sMid).fs =
      (seedFilesLoop sys src dst files (seedDirsLoop dst dirs sMid).fs).fs ∧
    (seedFilesLoop sys src dst files (seedDirsLoop dst dirs sMid).fs).val = .ok () := by
  have hmain : (SeedDirectory sys src dst ⟨an, lg⟩ sMid).val =
        (seedDirectoryMain sys src dst ⟨an, lg⟩ sMid).val ∧
      (SeedDirectory sys src dst ⟨an, lg⟩ sMid).fs =
        (seedDirectoryMain sys src dst ⟨an, lg⟩ sMid).fs := by
    cases lg with
    | false =>
      constructor <;>
        simp only [SeedDirectory, run_bind, run_getFs, Bool.false_eq_true, if_false,
          List.nil_append]
    | true =>
      cases hc : countFilesGo sMid src an with
      | error e2 =>
        exfalso
        have hbad : (SeedDirectory sys src dst ⟨an, true⟩ sMid).val =
            .error (.wrapped "failed to count files" e2) := by
          simp only [SeedDirectory, run_bind, run_getFs, eq_self_iff_true, if_true, hc,
            run_pure]
        rw [hbad] at hok
        exact absurd hok (by simp)
      | ok k =>
        constructor <;>
          simp only [SeedDirectory, run_bind, run_getFs, eq_self_iff_true, if_true, hc,
            List.nil_append]
  rw [hmain.1] at hok
  cases hdv : (seedDirsLoop dst dirs sMid).val with
  | error e =>
    exfalso
    have hbad : (seedDirectoryMain sys src dst ⟨an, lg⟩ sMid).val = .error e := by
      simp only [seedDirectoryMain, run_bind, run_getFs, hwalk, hdv, run_pure]
    rw [hbad] at hok
    exact absurd hok (by simp)
  | ok u =>
    have hfs3 : (seedDirectoryMain sys src dst ⟨an, lg⟩ sMid).fs =
        (seedFilesLoop sys src dst files (seedDirsLoop dst dirs sMid).fs).fs := by
      simp only [seedDirectoryMain, run_bind, run_getFs, hwalk, hdv]
    have hval3 : (seedDirectoryMain sys src dst ⟨an, lg⟩ sMid).val =
        (seedFilesLoop sys src dst files (seedDirsLoop dst dirs sMid).fs).val := by
      simp only [seedDirectoryMain, run_bind, run_getFs, hwalk, hdv]
    rw [hval3] at hok
    exact ⟨hmain.2.trans hfs3, hok⟩

theorem cleanBin_final (ep2 : Path) (s : FsMap) :
    isDirAt (cleanNodeModulesBin ep2 s).fs (ep2 ++ [".bin"]) = false := by
  cases hbd : isDirAt s (ep2 ++ [".bin"]) with
  | true =>
    have hrun : (cleanNodeModulesBin ep2 s).fs = removeSubtree s (ep2 ++ [".bin"]) := by
      simp only [cleanNodeModulesBin, run_bind, run_getFs, hbd, eq_self_iff_true, if_true,
        removeAllM, run_emit, run_pure, applyEvt]
    rw [hrun, isDirAt, fsFind_removeSubtree_under _ _ _ (isPrefixOf_self _)]
  | false =>
    have hrun : (cleanNodeModulesBin ep2 s).fs = s := by
      simp only [cleanNodeModulesBin, run_bind, run_getFs, hbd, Bool.false_eq_true,
        if_false, run_pure]
    rw [hrun]
    exact hbd

/-- C7 (amended): on a successful cargo restore of a single artifact
path, every file collected by the restore walk (all regular cache
files except the cargo-skipped ones) exists at its working-copy path;
the dep-* files the fixup pass collects — direct children of crate
directories under <path>/debug/.fingerprint and
<path>/release/.fingerprint — end with mtime equal to the restore
time; and for npm/yarn/pnpm/bun artifacts a successful restore leaves
no <path>/.bin directory. -/
theorem restoreFromCache_postconditions (sys : Sys) (entry : ArtifactCacheEntry)
    (ep : Path) (fs0 : FsMap) (lg : Bool) (dirs : List Path) (files : List (Path × FNode))
    (hp : entry.envPaths = [ep])
    (hname : entry.name = "cargo")
    (hsrc : isDirAt fs0 (entry.cachePath ++ [pathBase ep]) = true)
    (hwalk : walkCollect (removeSubtree fs0 ep) (entry.cachePath ++ [pathBase ep])
      entry.name = .ok (dirs, files))
    (hfresh : ∀ fr ∈ files.map Prod.fst, ∀ dr ∈ dirs,
      (ep ++ fr) ∉ pathAncestors (ep ++ dr))
    (hsucc : (RestoreFromCache sys entry lg fs0).val = .ok ())
    (hpsD : ∀ p ∈ collectDepFiles (copyDirectory sys (entry.cachePath ++ [pathBase ep]) ep entry.name lg
      (removeSubtree fs0 ep)).fs (ep ++ ["debug", ".fingerprint"]),
      isFileAt (copyDirectory sys (entry.cachePath ++ [pathBase ep]) ep entry.name lg
      (removeSubtree fs0 ep)).fs p = true)
    (hpsR : ∀ p ∈ collectDepFiles (touchProfile sys ep "debug" (copyDirectory sys (entry.cachePath ++ [pathBase ep]) ep entry.name lg
      (removeSubtree fs0 ep)).fs).fs
        (ep ++ ["release", ".fingerprint"]),
      isFileAt (touchProfile sys ep "debug" (copyDirectory sys (entry.cachePath ++ [pathBase ep]) ep entry.name lg
      (removeSubtree fs0 ep)).fs).fs p = true) :
    (∀ fr ∈ files.map Prod.fst,
      isFileAt (RestoreFromCache sys entry lg fs0).fs (ep ++ fr) = true) ∧
    (isDirAt (copyDirectory sys (entry.cachePath ++ [pathBase ep]) ep entry.name lg
      (removeSubtree fs0 ep)).fs (ep ++ ["debug", ".fingerprint"]) = true →
      ∀ p ∈ collectDepFiles (copyDirectory sys (entry.cachePath ++ [pathBase ep]) ep entry.name lg
      (removeSubtree fs0 ep)).fs (ep ++ ["debug", ".fingerprint"]),
        ∃ c, fsFind (RestoreFromCache sys entry lg fs0).fs p = some (.file c sys.now)) ∧
    (isDirAt (touchProfile sys ep "debug" (copyDirectory sys (entry.cachePath ++ [pathBase ep]) ep entry.name lg
      (removeSubtree fs0 ep)).fs).fs
        (ep ++ ["release", ".fingerprint"]) = true →
      ∀ p ∈ collectDepFiles (touchProfile sys ep "debug" (copyDirectory sys (entry.cachePath ++ [pathBase ep]) ep entry.name lg
      (removeSubtree fs0 ep)).fs).fs
          (ep ++ ["release", ".fingerprint"]),
        ∃ c, fsFind (RestoreFromCache sys entry lg fs0).fs p = some (.file c sys.now)) ∧
    (∀ (sys2 : Sys) (e2 : ArtifactCacheEntry) (ep2 : Path) (lg2 : Bool) (g2 : FsMap),
      e2.envPaths = [ep2] →
      (e2.name = "npm" ∨ e2.name = "yarn" ∨ e2.name = "pnpm" ∨ e2.name = "bun") →
      (RestoreFromCache sys2 e2 lg2 g2).val = .ok () →
      isDirAt (RestoreFromCache sys2 e2 lg2 g2).fs (ep2 ++ [".bin"]) = false) := by
  have hR : RestoreFromCache sys entry lg fs0 = restoreLoop sys entry lg [ep] fs0 := by
    rw [RestoreFromCache, hp]
  rw [hR] at hsucc ⊢
  cases hr2 : (copyDirectory sys (entry.cachePath ++ [pathBase ep]) ep entry.name lg
      (removeSubtree fs0 ep)).val with
  | error e =>
    exfalso
    have hbad : (restoreLoop sys entry lg [ep] fs0).val =
        .error (.wrapped "failed to restore cache" e) := by
      simp only [restoreLoop, run_bind, run_getFs, hsrc, eq_self_iff_true, if_true,
        removeAllM, run_emit, run_pure, applyEvt, hr2]
    rw [hbad] at hsucc
    exact absurd hsucc (by simp)
  | ok u =>
    cases u
    cases hr3 : (ApplyPostRestoreFixes sys entry.name ep (copyDirectory sys (entry.cachePath ++ [pathBase ep]) ep entry.name lg
      (removeSubtree fs0 ep)).fs).val with
    | error e =>
      exfalso
      have hbad : (restoreLoop sys entry lg [ep] fs0).val =
          .error (.wrapped "failed to apply post-restore fixes" e) := by
        simp only [restoreLoop, run_bind, run_getFs, hsrc, eq_self_iff_true, if_true,
          removeAllM, run_emit, run_pure, applyEvt, hr2, hr3]
      rw [hbad] at hsucc
      exact absurd hsucc (by simp)
    | ok u2 =>
      cases u2
      have hfsR : (restoreLoop sys entry lg [ep] fs0).fs =
          (ApplyPostRestoreFixes sys entry.name ep (copyDirectory sys (entry.cachePath ++ [pathBase ep]) ep entry.name lg
      (removeSubtree fs0 ep)).fs).fs := by
        simp only [restoreLoop, run_bind, run_getFs, hsrc, eq_self_iff_true, if_true,
          removeAllM, run_emit, run_pure, applyEvt, hr2, hr3]
      have hfixC : ApplyPostRestoreFixes sys entry.name ep =
          touchCargoFingerprints sys ep := by
        rw [hname]
        rfl
      rw [hfixC] at hr3 hfsR
      cases hdv : (touchProfile sys ep "debug" (copyDirectory sys (entry.cachePath ++ [pathBase ep]) ep entry.name lg
      (removeSubtree fs0 ep)).fs).val with
      | error e =>
        exfalso
        have hbad : (touchCargoFingerprints sys ep (copyDirectory sys (entry.cachePath ++ [pathBase ep]) ep entry.name lg
      (removeSubtree fs0 ep)).fs).val = .error e := by
          simp only [touchCargoFingerprints, run_bind, hdv, run_pure]
        rw [hbad] at hr3
        exact absurd hr3 (by simp)
      | ok u3 =>
        cases u3
        have htcfs : (touchCargoFingerprints sys ep (copyDirectory sys (entry.cachePath ++ [pathBase ep]) ep entry.name lg
      (removeSubtree fs0 ep)).fs).fs =
            (touchProfile sys ep "release" (touchProfile sys ep "debug" (copyDirectory sys (entry.cachePath ++ [pathBase ep]) ep entry.name lg
      (removeSubtree fs0 ep)).fs).fs).fs := by
          simp only [touchCargoFingerprints, run_bind, hdv]
        have htcval : (touchCargoFingerprints sys ep (copyDirectory sys (entry.cachePath ++ [pathBase ep]) ep entry.name lg
      (removeSubtree fs0 ep)).fs).val =
            (touchProfile sys ep "release" (touchProfile sys ep "debug" (copyDirectory sys (entry.cachePath ++ [pathBase ep]) ep entry.name lg
      (removeSubtree fs0 ep)).fs).fs).val := by
          simp only [touchCargoFingerprints, run_bind, hdv]
        rw [htcval] at hr3
        rw [htcfs] at hfsR
        refine ⟨?_, ?_, ?_, ?_⟩
        · intro fr hfr
          rw [hfsR]
          apply touchProfile_pres_file
          apply touchProfile_pres_file
          obtain ⟨hsfs, hsval⟩ := SeedDirectory_success sys
            (entry.cachePath ++ [pathBase ep]) ep entry.name lg (removeSubtree fs0 ep)
            dirs files hwalk hr2
          show isFileAt (SeedDirectory sys (entry.cachePath ++ [pathBase ep]) ep
            ⟨entry.name, lg⟩ (removeSubtree fs0 ep)).fs (ep ++ fr) = true
          rw [hsfs]
          refine seedFilesLoop_restores sys _ ep files _ hsval ?_ fr hfr
          intro fr2 hfr2
          rcases seedDirsLoop_or ep dirs (removeSubtree fs0 ep) (ep ++ fr2) with
            h | ⟨h1, h2, dr, hdr, hanc⟩
          · rw [h, fsFind_removeSubtree_under _ _ _ (isPrefixOf_append_self _ _)]
            simp
          · exact absurd hanc (hfresh fr2 hfr2 dr hdr)
        · intro hdir p hp
          rw [hfsR]
          obtain ⟨c, hc⟩ := touchProfile_touches sys ep "debug" _ hdv hdir hpsD p hp
          exact ⟨c, touchProfile_pres_now sys ep "release" _ p c hc⟩
        · intro hdir p hp
          rw [hfsR]
          exact touchProfile_touches sys ep "release" _ hr3 hdir hpsR p hp
        · intro sys2 e2 ep2 lg2 g2 hp2 hnm hok2
          have hR2 : RestoreFromCache sys2 e2 lg2 g2 = restoreLoop sys2 e2 lg2 [ep2] g2 := by
            rw [RestoreFromCache, hp2]
          rw [hR2] at hok2 ⊢
          have hfix : ApplyPostRestoreFixes sys2 e2.name ep2 = cleanNodeModulesBin ep2 := by
            rcases hnm with h | h | h | h <;> rw [h] <;> rfl
          cases hsd : isDirAt g2 (e2.cachePath ++ [pathBase ep2]) with
          | true =>
            cases hr2b : (copyDirectory sys2 (e2.cachePath ++ [pathBase ep2]) ep2 e2.name
                lg2 (removeSubtree g2 ep2)).val with
            | error e =>
              exfalso
              have hbad : (restoreLoop sys2 e2 lg2 [ep2] g2).val =
                  .error (.wrapped "failed to restore cache" e) := by
                simp only [restoreLoop, run_bind, run_getFs, hsd, eq_self_iff_true,
                  if_true, removeAllM, run_emit, run_pure, applyEvt, hr2b]
              rw [hbad] at hok2
              exact absurd hok2 (by simp)
            | ok u4 =>
              cases u4
              cases hr3b : (cleanNodeModulesBin ep2 (copyDirectory sys2
                  (e2.cachePath ++ [pathBase ep2]) ep2 e2.name lg2
                  (removeSubtree g2 ep2)).fs).val with
              | error e =>
                exfalso
                have hbad : (restoreLoop sys2 e2 lg2 [ep2] g2).val =
                    .error (.wrapped "failed to apply post-restore fixes" e) := by
                  simp only [restoreLoop, run_bind, run_getFs, hsd, eq_self_iff_true,
                    if_true, removeAllM, run_emit, run_pure, applyEvt, hfix, hr2b, hr3b]
                rw [hbad] at hok2
                exact absurd hok2 (by simp)
              | ok u5 =>
                cases u5
                have hfsb : (restoreLoop sys2 e2 lg2 [ep2] g2).fs =
                    (cleanNodeModulesBin ep2 (copyDirectory sys2
                      (e2.cachePath ++ [pathBase ep2]) ep2 e2.name lg2
                      (removeSubtree g2 ep2)).fs).fs := by
                  simp only [restoreLoop, run_bind, run_getFs, hsd, eq_self_iff_true,
                    if_true, removeAllM, run_emit, run_pure, applyEvt, hfix, hr2b, hr3b]
                rw [hfsb]
                exact cleanBin_final ep2 _
          | false =>
            cases hr2b : (copyDirectory sys2 (e2.cachePath ++ [e2.name]) ep2 e2.name
                lg2 (removeSubtree g2 ep2)).val with
            | error e =>
              exfalso
              have hbad : (restoreLoop sys2 e2 lg2 [ep2] g2).val =
                  .error (.wrapped "failed to restore cache" e) := by
                simp only [restoreLoop, run_bind, run_getFs, hsd, Bool.false_eq_true,
                  if_false, removeAllM, run_emit, run_pure, applyEvt, hr2b]
              rw [hbad] at hok2
              exact absurd hok2 (by simp)
            | ok u4 =>
              cases u4
              cases hr3b : (cleanNodeModulesBin ep2 (copyDirectory sys2
                  (e2.cachePath ++ [e2.name]) ep2 e2.name lg2
                  (removeSubtree g2 ep2)).fs).val with
              | error e =>
                exfalso
                have hbad : (restoreLoop sys2 e2 lg2 [ep2] g2).val =
                    .error (.wrapped "failed to apply post-restore fixes" e) := by
                  simp only [restoreLoop, run_bind, run_getFs, hsd, Bool.false_eq_true,
                    if_false, removeAllM, run_emit, run_pure, applyEvt, hfix, hr2b, hr3b]
                rw [hbad] at hok2
                exact absurd hok2 (by simp)
              | ok u5 =>
                cases u5
                have hfsb : (restoreLoop sys2 e2 lg2 [ep2] g2).fs =
                    (cleanNodeModulesBin ep2 (copyDirectory sys2
                      (e2.cachePath ++ [e2.name]) ep2 e2.name lg2
                      (removeSubtree g2 ep2)).fs).fs := by
                  simp only [restoreLoop, run_bind, run_getFs, hsd, Bool.false_eq_true,
                    if_false, removeAllM, run_emit, run_pure, applyEvt, hfix, hr2b, hr3b]
                rw [hfsb]
                exact cleanBin_final ep2 _

def c7sys : Sys := ⟨[], [], [], 99⟩

def c7entry : ArtifactCacheEntry := ⟨"cargo", "k1", ["cache", "k1"], [["env", "target"]], true⟩

def c7fs0 : FsMap :=
  [(["cache"], .dir), (["cache", "k1"], .dir), (["cache", "k1", "target"], .dir),
   (["cache", "k1", "target", "lib.rlib"], .file [2] 0),
   (["cache", "k1", "target", "debug"], .dir),
   (["cache", "k1", "target", "debug", ".fingerprint"], .dir),
   (["cache", "k1", "target", "debug", ".fingerprint", "crateA"], .dir),
   (["cache", "k1", "target", "debug", ".fingerprint", "crateA", "dep-lib"], .file [4] 0),
   (["env"], .dir), (["env", "target"], .dir), (["env", "target", "old"], .file [9] 1)]

def c7dirs : List Path :=
  [[], ["debug"], ["debug", ".fingerprint"], ["debug", ".fingerprint", "crateA"]]

def c7files : List (Path × FNode) :=
  [(["debug", ".fingerprint", "crateA", "dep-lib"], .file [4] 0),
   (["lib.rlib"], .file [2] 0)]

set_option maxRecDepth 8000 in
/-- Concrete instantiation of the amended C7 theorem: a cargo entry
holding lib.rlib and a crate fingerprint dep file restores both, and
the dep file ends with the restore-time mtime. -/
theorem restoreFromCache_postconditions_witness :
    (∀ fr ∈ c7files.map Prod.fst,
      isFileAt (RestoreFromCache c7sys c7entry false c7fs0).fs
        (["env", "target"] ++ fr) = true) ∧
    (isDirAt (copyDirectory c7sys (c7entry.cachePath ++ [pathBase ["env", "target"]])
        ["env", "target"] c7entry.name false (removeSubtree c7fs0 ["env", "target"])).fs
        (["env", "target"] ++ ["debug", ".fingerprint"]) = true →
      ∀ p ∈ collectDepFiles (copyDirectory c7sys
          (c7entry.cachePath ++ [pathBase ["env", "target"]]) ["env", "target"]
          c7entry.name false (removeSubtree c7fs0 ["env", "target"])).fs
          (["env", "target"] ++ ["debug", ".fingerprint"]),
        ∃ c, fsFind (RestoreFromCache c7sys c7entry false c7fs0).fs p =
          some (.file c c7sys.now)) ∧
    (isDirAt (touchProfile c7sys ["env", "target"] "debug" (copyDirectory c7sys
        (c7entry.cachePath ++ [pathBase ["env", "target"]]) ["env", "target"]
        c7entry.name false (removeSubtree c7fs0 ["env", "target"])).fs).fs
        (["env", "target"] ++ ["release", ".fingerprint"]) = true →
      ∀ p ∈ collectDepFiles (touchProfile c7sys ["env", "target"] "debug"
          (copyDirectory c7sys (c7entry.cachePath ++ [pathBase ["env", "target"]])
            ["env", "target"] c7entry.name false
            (removeSubtree c7fs0 ["env", "target"])).fs).fs
          (["env", "target"] ++ ["release", ".fingerprint"]),
        ∃ c, fsFind (RestoreFromCache c7sys c7entry false c7fs0).fs p =
          some (.file c c7sys.now)) ∧
    (∀ (sys2 : Sys) (e2 : ArtifactCacheEntry) (ep2 : Path) (lg2 : Bool) (g2 : FsMap),
      e2.envPaths = [ep2] →
      (e2.name = "npm" ∨ e2.name = "yarn" ∨ e2.name = "pnpm" ∨ e2.name = "bun") →
      (RestoreFromCache sys2 e2 lg2 g2).val = .ok () →
      isDirAt (RestoreFromCache sys2 e2 lg2 g2).fs (ep2 ++ [".bin"]) = false) :=
  restoreFromCache_postconditions c7sys c7entry ["env", "target"] c7fs0 false c7dirs
    c7files rfl rfl (by decide) (by decide) (by decide) (by decide) (by decide)
    (by decide)

def c7xfs0 : FsMap :=
  [(["cache"], .dir), (["cache", "k1"], .dir), (["cache", "k1", "target"], .dir),
   (["cache", "k1", "target", "x.o"], .file [1] 0),
   (["cache", "k1", "target", "lib.rlib"], .file [2] 0),
   (["cache", "k1", "target", "debug"], .dir),
   (["cache", "k1", "target", "debug", ".fingerprint"], .dir),
   (["cache", "k1", "target", "debug", ".fingerprint", "dep-top"], .file [3] 0),
   (["cache", "k1", "target", "debug", ".fingerprint", "crateA"], .dir),
   (["cache", "k1", "target", "debug", ".fingerprint", "crateA", "dep-lib"], .file [4] 0),
   (["env"], .dir), (["env", "target"], .dir)]

set_option maxRecDepth 8000 in
/-- C7 counterexample: a successful cargo restore leaves the cache's
regular file x.o with no corresponding working-copy file (the copy walk
skips it), and leaves the dep-* file sitting directly in .fingerprint
(not inside a crate directory) with its old mtime 0, older than the
restore call at time 99; only the crate-depth dep file is touched. -/
theorem restore_skipsAndDepth_cex :
    (RestoreFromCache ⟨[], [], [], 99⟩
        ⟨"cargo", "k1", ["cache", "k1"], [["env", "target"]], true⟩ false c7xfs0).val =
      .ok () ∧
    fsFind c7xfs0 ["cache", "k1", "target", "x.o"] = some (.file [1] 0) ∧
    fsFind (RestoreFromCache ⟨[], [], [], 99⟩
        ⟨"cargo", "k1", ["cache", "k1"], [["env", "target"]], true⟩ false c7xfs0).fs
      ["env", "target", "x.o"] = none ∧
    fsFind (RestoreFromCache ⟨[], [], [], 99⟩
        ⟨"cargo", "k1", ["cache", "k1"], [["env", "target"]], true⟩ false c7xfs0).fs
      ["env", "target", "debug", ".fingerprint", "dep-top"] = some (.file [3] 0) ∧
    fsFind (RestoreFromCache ⟨[], [], [], 99⟩
        ⟨"cargo", "k1", ["cache", "k1"], [["env", "target"]], true⟩ false c7xfs0).fs
      ["env", "target", "debug", ".fingerprint", "crateA", "dep-lib"] =
      some (.file [4] 99) := by
  exact ⟨by decide, by decide, by decide, by decide, by decide⟩

end Mono
